import Mathlib

/-! Realtime Register CLI: the API client, the bulk-check client and the commands.

A shallow embedding of `internal/api` (`errors.go`, `client.go`, `isproxy.go`,
`types.go`), of `internal/errfmt` and of the parts of `internal/cmd` that decide exit
codes and delete zone records, together with the parts of Go's standard library that
those files rely on.

Go strings and byte slices are lists of byte values (`Bytes`); Go's `int` and
`time.Duration` are 64-bit two's complement integers, embedded as `Int` with
explicit wrapping where arithmetic can overflow.
-/

namespace RealtimeRegister

/-! ## Bytes and UTF-8 -/

/-- A Go `[]byte` or `string`: a sequence of byte values, each in `0..255`. -/
abbrev Bytes := List Nat

/-- The function `utf8.EncodeRune`: the UTF-8 encoding of a rune; surrogate halves and
values above `0x10FFFF` are encoded as U+FFFD. -/
def encodeRune (r : Nat) : Bytes :=
  if r < 0x80 then [r]
  else if r < 0x800 then [0xC0 + r / 0x40, 0x80 + r % 0x40]
  else if (0xD800 ≤ r ∧ r < 0xE000) ∨ 0x10FFFF < r then [0xEF, 0xBF, 0xBD]
  else if r < 0x10000 then [0xE0 + r / 0x1000, 0x80 + r / 0x40 % 0x40, 0x80 + r % 0x40]
  else [0xF0 + r / 0x40000, 0x80 + r / 0x1000 % 0x40, 0x80 + r / 0x40 % 0x40, 0x80 + r % 0x40]

/-- The bytes of a Go string literal: the UTF-8 encoding of its characters. -/
def utf8 (s : String) : Bytes :=
  s.data.flatMap fun c => encodeRune c.toNat

/-- A continuation byte of a UTF-8 sequence within the range `lo..hi`. -/
def isCont (lo hi b : Nat) : Bool :=
  decide (lo ≤ b) && decide (b ≤ hi)

/-- The size computed by `utf8.DecodeRune` at the head of `s` when the head starts a
well-formed multi-byte UTF-8 sequence (2, 3 or 4), and 0 otherwise: overlong forms,
surrogate halves, values above U+10FFFF, stray continuation bytes and truncated
sequences are all ill-formed. -/
def multiByteLen : Bytes → Nat
  | b0 :: b1 :: rest =>
    if 0xC2 ≤ b0 ∧ b0 ≤ 0xDF then (if isCont 0x80 0xBF b1 then 2 else 0)
    else
      match rest with
      | [] => 0
      | b2 :: rest2 =>
        if 0xE0 ≤ b0 ∧ b0 ≤ 0xEF then
          let lo := if b0 = 0xE0 then 0xA0 else 0x80
          let hi := if b0 = 0xED then 0x9F else 0xBF
          if isCont lo hi b1 && isCont 0x80 0xBF b2 then 3 else 0
        else if 0xF0 ≤ b0 ∧ b0 ≤ 0xF4 then
          match rest2 with
          | [] => 0
          | b3 :: _ =>
            let lo := if b0 = 0xF0 then 0x90 else 0x80
            let hi := if b0 = 0xF4 then 0x8F else 0xBF
            if isCont lo hi b1 && isCont 0x80 0xBF b2 && isCont 0x80 0xBF b3 then 4 else 0
        else 0
  | _ => 0

/-! ## JSON values and the scanner of `encoding/json` -/

/-- A parsed JSON document. A number keeps its literal text, a string its unquoted
bytes, and an object its members in source order, repeated keys included. -/
inductive JSON where
  | null
  | bool (b : Bool)
  | num (lit : Bytes)
  | str (s : Bytes)
  | arr (elems : List JSON)
  | obj (members : List (Bytes × JSON))

/-- The value of a hexadecimal digit (0 for any other byte). -/
def hexVal (c : Nat) : Nat :=
  if 48 ≤ c ∧ c ≤ 57 then c - 48
  else if 97 ≤ c ∧ c ≤ 102 then c - 87
  else if 65 ≤ c ∧ c ≤ 70 then c - 55
  else 0

/-- Whether a byte is a hexadecimal digit. -/
def isHex (c : Nat) : Bool :=
  decide (48 ≤ c ∧ c ≤ 57) || decide (97 ≤ c ∧ c ≤ 102) || decide (65 ≤ c ∧ c ≤ 70)

/-- The function `getu4`: the code unit of a leading `\uXXXX` escape, if there is one. -/
def getu4 : Bytes → Option Nat
  | 92 :: 117 :: a :: b :: c :: d :: _ =>
    if isHex a && isHex b && isHex c && isHex d then
      some (hexVal a * 4096 + hexVal b * 256 + hexVal c * 16 + hexVal d)
    else none
  | _ => none

/-- The byte a single-character escape stands for. -/
def escByte (c : Nat) : Nat :=
  if c = 98 then 8 else if c = 102 then 12 else if c = 110 then 10
  else if c = 114 then 13 else if c = 116 then 9 else c

/-- The function `unquoteBytes` of `encoding/json/decode.go` on the text between the
quotes of a string literal the scanner has accepted. Escapes are replaced by the bytes
they stand for, a surrogate pair by the rune it encodes, a lone surrogate and every
ill-formed UTF-8 byte by U+FFFD. The first argument bounds the number of steps; each step
consumes at least one byte. -/
def unquoteAux : Nat → Bytes → Bytes
  | 0, _ => []
  | _ + 1, [] => []
  | n + 1, c :: rest =>
    if c = 92 then
      match rest with
      | [] => []
      | e :: rest1 =>
        if e = 117 then
          match getu4 (c :: rest) with
          | none => []
          | some rr =>
            let after := rest.drop 5
            if 0xD800 ≤ rr ∧ rr < 0xE000 then
              match getu4 after with
              | some rr1 =>
                if rr < 0xDC00 ∧ 0xDC00 ≤ rr1 ∧ rr1 < 0xE000 then
                  encodeRune ((rr - 0xD800) * 0x400 + (rr1 - 0xDC00) + 0x10000)
                    ++ unquoteAux n (after.drop 6)
                else encodeRune 0xFFFD ++ unquoteAux n after
              | none => encodeRune 0xFFFD ++ unquoteAux n after
            else encodeRune rr ++ unquoteAux n after
        else escByte e :: unquoteAux n rest1
    else if c < 0x80 then c :: unquoteAux n rest
    else
      let k := multiByteLen (c :: rest)
      if k = 0 then encodeRune 0xFFFD ++ unquoteAux n rest
      else (c :: rest).take k ++ unquoteAux n ((c :: rest).drop k)

/-- Unquote the text between the quotes of a scanned string literal. -/
def unquote (raw : Bytes) : Bytes :=
  unquoteAux raw.length raw

/-- The scanner's step states (`stateBeginValue`, `stateInString`, `state1`, ...). A
state inside a token carries the bytes of the token read so far, most recent first. -/
inductive Mode where
  | beginValueOrEmpty
  | beginValue
  | beginStringOrEmpty
  | beginString
  | endValue
  | endTop
  | inString (raw : Bytes)
  | inStringEsc (raw : Bytes)
  | inStringEscU (raw : Bytes) (seen : Nat)
  | neg (lit : Bytes)
  | zero (lit : Bytes)
  | one (lit : Bytes)
  | dot (lit : Bytes)
  | dot0 (lit : Bytes)
  | exp (lit : Bytes)
  | expSign (lit : Bytes)
  | exp0 (lit : Bytes)
  | word (rest : Bytes) (v : JSON)

/-- An open container on the scanner's parse stack with what has been read of it, most
recent first. In an object, `key` is the key whose value is awaited (`parseObjectKey`
once the key has been read, `parseObjectValue` after the colon). -/
inductive Frame where
  | arr (elems : List JSON)
  | obj (members : List (Bytes × JSON)) (key : Option Bytes)

/-- The scanner: its step state, its parse stack, and the finished top-level value. -/
structure Scanner where
  mode : Mode
  stack : List Frame
  top : Option JSON

/-- The nesting limit of the scanner. -/
def maxNestingDepth : Nat := 10000

/-- The function `isSpace` of the scanner. -/
def isSpace (c : Nat) : Bool :=
  c == 32 || c == 9 || c == 13 || c == 10

/-- Whether a byte is a decimal digit. -/
def isDigit (c : Nat) : Bool :=
  decide (48 ≤ c) && decide (c ≤ 57)

/-- A value has been read: hand it to the innermost open container, or finish. -/
def deliver (v : JSON) : List Frame → Option Scanner
  | [] => some ⟨.endTop, [], some v⟩
  | .arr xs :: fs => some ⟨.endValue, .arr (v :: xs) :: fs, none⟩
  | .obj ms (some k) :: fs => some ⟨.endValue, .obj ((k, v) :: ms) none :: fs, none⟩
  | .obj ms none :: fs =>
    match v with
    | .str k => some ⟨.endValue, .obj ms (some k) :: fs, none⟩
    | _ => none

/-- The states `stateEndValue` and `stateEndTop`: the byte after a value. -/
def afterValue (s : Scanner) (c : Nat) : Option Scanner :=
  match s.stack with
  | [] => if isSpace c then some ⟨.endTop, [], s.top⟩ else none
  | .obj ms (some k) :: fs =>
    if isSpace c then some ⟨.endValue, s.stack, none⟩
    else if c = 58 then some ⟨.beginValue, .obj ms (some k) :: fs, none⟩
    else none
  | .obj ms none :: fs =>
    if isSpace c then some ⟨.endValue, s.stack, none⟩
    else if c = 44 then some ⟨.beginString, .obj ms none :: fs, none⟩
    else if c = 125 then deliver (.obj ms.reverse) fs
    else none
  | .arr xs :: fs =>
    if isSpace c then some ⟨.endValue, s.stack, none⟩
    else if c = 44 then some ⟨.beginValue, .arr xs :: fs, none⟩
    else if c = 93 then deliver (.arr xs.reverse) fs
    else none

/-- A number literal ends before the byte `c`: hand the number over, then read `c` as
the byte after a value. -/
def endNumber (lit : Bytes) (stack : List Frame) (c : Nat) : Option Scanner :=
  (deliver (.num lit.reverse) stack).bind fun s => afterValue s c

/-- The function `stateBeginString`. -/
def beginString (stack : List Frame) (c : Nat) : Option Scanner :=
  if isSpace c then some ⟨.beginString, stack, none⟩
  else if c = 34 then some ⟨.inString [], stack, none⟩
  else none

/-- The function `stateBeginValue`. -/
def beginValue (stack : List Frame) (c : Nat) : Option Scanner :=
  if isSpace c then some ⟨.beginValue, stack, none⟩
  else if c = 123 then
    if stack.length + 1 ≤ maxNestingDepth then
      some ⟨.beginStringOrEmpty, .obj [] none :: stack, none⟩
    else none
  else if c = 91 then
    if stack.length + 1 ≤ maxNestingDepth then
      some ⟨.beginValueOrEmpty, .arr [] :: stack, none⟩
    else none
  else if c = 34 then some ⟨.inString [], stack, none⟩
  else if c = 45 then some ⟨.neg [c], stack, none⟩
  else if c = 48 then some ⟨.zero [c], stack, none⟩
  else if c = 116 then some ⟨.word [114, 117, 101] (.bool true), stack, none⟩
  else if c = 102 then some ⟨.word [97, 108, 115, 101] (.bool false), stack, none⟩
  else if c = 110 then some ⟨.word [117, 108, 108] .null, stack, none⟩
  else if 49 ≤ c ∧ c ≤ 57 then some ⟨.one [c], stack, none⟩
  else none

/-- One step of the scanner on the byte `c`; `none` is a malformed document. -/
def step (s : Scanner) (c : Nat) : Option Scanner :=
  match s.mode with
  | .beginValueOrEmpty =>
    if isSpace c then some ⟨.beginValueOrEmpty, s.stack, none⟩
    else if c = 93 then afterValue s c
    else beginValue s.stack c
  | .beginValue => beginValue s.stack c
  | .beginStringOrEmpty =>
    if isSpace c then some ⟨.beginStringOrEmpty, s.stack, none⟩
    else if c = 125 then afterValue s c
    else beginString s.stack c
  | .beginString => beginString s.stack c
  | .endValue => afterValue s c
  | .endTop => afterValue s c
  | .inString raw =>
    if c = 34 then deliver (.str (unquote raw.reverse)) s.stack
    else if c = 92 then some ⟨.inStringEsc (c :: raw), s.stack, none⟩
    else if c < 32 then none
    else some ⟨.inString (c :: raw), s.stack, none⟩
  | .inStringEsc raw =>
    if c = 98 ∨ c = 102 ∨ c = 110 ∨ c = 114 ∨ c = 116 ∨ c = 92 ∨ c = 47 ∨ c = 34 then
      some ⟨.inString (c :: raw), s.stack, none⟩
    else if c = 117 then some ⟨.inStringEscU (c :: raw) 0, s.stack, none⟩
    else none
  | .inStringEscU raw seen =>
    if isHex c then
      if seen = 3 then some ⟨.inString (c :: raw), s.stack, none⟩
      else some ⟨.inStringEscU (c :: raw) (seen + 1), s.stack, none⟩
    else none
  | .neg lit =>
    if c = 48 then some ⟨.zero (c :: lit), s.stack, none⟩
    else if 49 ≤ c ∧ c ≤ 57 then some ⟨.one (c :: lit), s.stack, none⟩
    else none
  | .one lit =>
    if isDigit c then some ⟨.one (c :: lit), s.stack, none⟩
    else if c = 46 then some ⟨.dot (c :: lit), s.stack, none⟩
    else if c = 101 ∨ c = 69 then some ⟨.exp (c :: lit), s.stack, none⟩
    else endNumber lit s.stack c
  | .zero lit =>
    if c = 46 then some ⟨.dot (c :: lit), s.stack, none⟩
    else if c = 101 ∨ c = 69 then some ⟨.exp (c :: lit), s.stack, none⟩
    else endNumber lit s.stack c
  | .dot lit =>
    if isDigit c then some ⟨.dot0 (c :: lit), s.stack, none⟩ else none
  | .dot0 lit =>
    if isDigit c then some ⟨.dot0 (c :: lit), s.stack, none⟩
    else if c = 101 ∨ c = 69 then some ⟨.exp (c :: lit), s.stack, none⟩
    else endNumber lit s.stack c
  | .exp lit =>
    if c = 43 ∨ c = 45 then some ⟨.expSign (c :: lit), s.stack, none⟩
    else if isDigit c then some ⟨.exp0 (c :: lit), s.stack, none⟩
    else none
  | .expSign lit =>
    if isDigit c then some ⟨.exp0 (c :: lit), s.stack, none⟩ else none
  | .exp0 lit =>
    if isDigit c then some ⟨.exp0 (c :: lit), s.stack, none⟩
    else endNumber lit s.stack c
  | .word rest v =>
    match rest with
    | [] => none
    | [r] => if c = r then deliver v s.stack else none
    | r :: rest1 => if c = r then some ⟨.word rest1 v, s.stack, none⟩ else none

/-- Run the scanner over the bytes of a document. -/
def scan : Scanner → Bytes → Option Scanner
  | s, [] => some s
  | s, c :: rest => (step s c).bind fun s1 => scan s1 rest

/-- The method `eof` of the scanner: the end of input is read as one more space, and
the document is well-formed when that leaves the scanner after the top-level value. -/
def finish (s : Scanner) : Option JSON :=
  match s.mode with
  | .endTop => s.top
  | _ =>
    match step s 32 with
    | some ⟨.endTop, _, some v⟩ => some v
    | _ => none

/-- The JSON document in `data`, or `none` where `json.Unmarshal` reports a malformed
document (`checkValid` fails). -/
def parseJSON (data : Bytes) : Option JSON :=
  (scan ⟨.beginValue, [], none⟩ data).bind finish

/-! ## Numbers: `strconv.ParseInt`, `strconv.ParseFloat` and 64-bit integers -/

/-- Wrap an integer to the range of `int64` (two's complement). -/
def wrapInt64 (x : Int) : Int :=
  (x + 2 ^ 63) % 2 ^ 64 - 2 ^ 63

/-- The value of a run of decimal digits, or `none` if the run is empty or holds a byte
that is not a digit. -/
def parseDigitsAux : Nat → Bytes → Option Nat
  | acc, [] => some acc
  | acc, c :: rest => if isDigit c then parseDigitsAux (acc * 10 + (c - 48)) rest else none

/-- The value of a non-empty run of decimal digits. -/
def parseDigits : Bytes → Option Nat
  | [] => none
  | ds => parseDigitsAux 0 ds

/-- The call `strconv.ParseInt(s, 10, 64)`: an optional sign and decimal digits, with a
value inside the range of `int64`; `none` stands for its syntax and range errors. -/
def parseInt (s : Bytes) : Option Int :=
  match s with
  | 45 :: ds => (parseDigits ds).bind fun n => if n ≤ 2 ^ 63 then some (-(n : Int)) else none
  | 43 :: ds => (parseDigits ds).bind fun n => if n < 2 ^ 63 then some (n : Int) else none
  | ds => (parseDigits ds).bind fun n => if n < 2 ^ 63 then some (n : Int) else none

/-- A decimal number `± mant * 10 ^ exp10`. -/
structure Decimal where
  neg : Bool
  mant : Nat
  exp10 : Int

/-- Read decimal digits off the front of `s` into the accumulator; returns the
accumulated value, the number of digits read and the rest. -/
def takeDigits : Nat → Nat → Bytes → Nat × Nat × Bytes
  | acc, n, [] => (acc, n, [])
  | acc, n, c :: rest =>
    if isDigit c then takeDigits (acc * 10 + (c - 48)) (n + 1) rest else (acc, n, c :: rest)

/-- The digits of an exponent, as `readFloat` of `strconv` reads them: decimal digits and
underscores; the value stops growing once it has reached 10000. Returns the value,
whether an underscore was seen, and the rest. -/
def readExpDigits : Nat → Bool → Bytes → Nat × Bool × Bytes
  | e, us, [] => (e, us, [])
  | e, us, c :: rest =>
    if c = 95 then readExpDigits e true rest
    else if isDigit c then readExpDigits (if e < 10000 then e * 10 + (c - 48) else e) us rest
    else (e, us, c :: rest)

/-- The decimal number that `strconv.ParseFloat` reads from a JSON number literal
`-? digits (. digits)? ([eE] [+-]? digits)?`: the digits of the mantissa exactly, and
the exponent as `readExpDigits` counts it, no further than 10000. It is the exact value
of the literal unless the exponent written is 10000 or more. -/
def decimalOf (lit : Bytes) : Decimal :=
  let (neg, s0) := match lit with
    | 45 :: r => (true, r)
    | r => (false, r)
  let (ip, _, s1) := takeDigits 0 0 s0
  let (mant, nfrac, s2) := match s1 with
    | 46 :: r => takeDigits ip 0 r
    | r => (ip, 0, r)
  let e : Int := match s2 with
    | _ :: 45 :: r => -((readExpDigits 0 false r).1 : Int)
    | _ :: 43 :: r => ((readExpDigits 0 false r).1 : Int)
    | _ :: r => ((readExpDigits 0 false r).1 : Int)
    | [] => 0
  ⟨neg, mant, e - nfrac⟩

/-- A finite `float64`: the value `± mant * 2 ^ exp2`. -/
structure Float64 where
  neg : Bool
  mant : Nat
  exp2 : Int

/-- The quotient `n / d` rounded to the nearest integer, ties to even. -/
def roundHalfEven (n d : Nat) : Nat :=
  let q := n / d
  let r := n % d
  if 2 * r < d then q else if d < 2 * r then q + 1 else if q % 2 = 0 then q else q + 1

/-- The binary logarithm of `n` rounded down (0 for `n = 0`); the first argument bounds
the number of halvings. -/
def log2Aux : Nat → Nat → Nat
  | 0, _ => 0
  | f + 1, n => if n < 2 then 0 else log2Aux f (n / 2) + 1

/-- The binary logarithm of `n` rounded down. -/
def log2 (n : Nat) : Nat :=
  log2Aux n n

/-- The largest `e` with `2 ^ e ≤ n / d`, for `n, d > 0`. -/
def floorLog2 (n d : Nat) : Int :=
  let k : Int := (log2 n : Int) - (log2 d : Int)
  let below : Bool :=
    if 0 ≤ k then decide (n < d * 2 ^ k.toNat) else decide (n * 2 ^ (-k).toNat < d)
  if below then k - 1 else k

/-- Round the positive rational `n / d` to `float64` precision (53 significant bits, least
exponent -1074, ties to even); the result is `mant * 2 ^ exp2`. -/
def roundFloat64 (n d : Nat) : Nat × Int :=
  if n = 0 ∨ d = 0 then (0, 0)
  else
    let e := max (floorLog2 n d) (-1022)
    let q := e - 52
    if 0 ≤ q then (roundHalfEven n (d * 2 ^ q.toNat), q)
    else (roundHalfEven (n * 2 ^ (-q).toNat) d, q)

/-- The call `strconv.ParseFloat(lit, 64)` on a JSON number literal: the nearest
`float64`, or `none` for the range error of a value that rounds to an infinity. -/
def parseFloat (lit : Bytes) : Option Float64 :=
  let x := decimalOf lit
  let (n, d) : Nat × Nat :=
    if 0 ≤ x.exp10 then (x.mant * 10 ^ x.exp10.toNat, 1) else (x.mant, 10 ^ (-x.exp10).toNat)
  let (m, q) := roundFloat64 n d
  if 0 ≤ q ∧ 2 ^ 1024 ≤ m * 2 ^ q.toNat then none else some ⟨x.neg, m, q⟩

/-- The conversion `int64(f)` of a `float64`: the value truncated toward zero. For a
value outside the range of `int64` Go leaves the result to the implementation; amd64
yields the least `int64`, which is what is modelled. -/
def truncToInt64 (f : Float64) : Int :=
  let a : Nat := if 0 ≤ f.exp2 then f.mant * 2 ^ f.exp2.toNat else f.mant / 2 ^ (-f.exp2).toNat
  let t : Int := if f.neg then -(a : Int) else (a : Int)
  if -(2 ^ 63) ≤ t ∧ t < 2 ^ 63 then t else -(2 ^ 63)

/-- The constant `time.Second`, in nanoseconds. -/
def second : Int := 1000000000

/-! ## Decoding: `json.Unmarshal` into the types the client uses -/

/-- The errors of `json.Unmarshal`: a malformed document (`*json.SyntaxError`), or a
value that does not fit the Go type it is decoded into (`*json.UnmarshalTypeError`). -/
inductive JSONError where
  | malformed
  | typeMismatch
  deriving DecidableEq, Repr

/-- Fold one key for case-insensitive matching, as `foldName` does: an ASCII letter
becomes its upper case; U+017F and U+212A, the two runes outside ASCII whose simple fold
class has an ASCII letter, become `S` and `K`. Every other rune folds to a rune outside
ASCII and is kept as it is: it can never match a byte of an ASCII field name. -/
def foldName : Bytes → Bytes
  | [] => []
  | 0xC5 :: 0xBF :: rest => 83 :: foldName rest
  | 0xE2 :: 0x84 :: 0xAA :: rest => 75 :: foldName rest
  | c :: rest => (if 97 ≤ c ∧ c ≤ 122 then c - 32 else c) :: foldName rest

/-- Whether the object key `key` selects the struct field tagged `name`: an exact match,
or failing that a match of the folded names. The field names of one struct used here have
pairwise distinct foldings, so a key selects at most one field. -/
def fieldMatches (name : String) (key : Bytes) : Bool :=
  key == utf8 name || foldName key == foldName (utf8 name)

/-- Decode a JSON value into a Go `string`; the flag reports a type mismatch. -/
def decodeString (v : JSON) (old : Bytes) : Bytes × Bool :=
  match v with
  | .null => (old, false)
  | .str s => (s, false)
  | _ => (old, true)

/-- Decode a JSON value into a Go `int`; the flag reports a type mismatch, which
includes a number that `strconv.ParseInt` rejects. -/
def decodeInt (v : JSON) (old : Int) : Int × Bool :=
  match v with
  | .null => (old, false)
  | .num lit =>
    match parseInt lit with
    | some n => (n, false)
    | none => (old, true)
  | _ => (old, true)

/-- The inner struct of `apiErrorResponse`. -/
structure ErrorBody where
  Message : Bytes
  Code : Int
  deriving DecidableEq, Repr

/-- The struct `apiErrorResponse`: the RealtimeRegister JSON error format
`{"error": {"code": 400, "message": "Domain not found"}}`. -/
structure apiErrorResponse where
  Error : ErrorBody
  deriving DecidableEq, Repr

/-- Decode one member of the object held by the `error` field. -/
def decodeErrorMember (acc : ErrorBody × Bool) (m : Bytes × JSON) : ErrorBody × Bool :=
  if fieldMatches "message" m.1 then
    let r := decodeString m.2 acc.1.Message
    ({ acc.1 with Message := r.1 }, acc.2 || r.2)
  else if fieldMatches "code" m.1 then
    let r := decodeInt m.2 acc.1.Code
    ({ acc.1 with Code := r.1 }, acc.2 || r.2)
  else acc

/-- Decode a JSON value into the inner struct: `null` leaves it alone, an object sets
the fields its keys select, in order, and anything else is a type mismatch. -/
def decodeErrorBody (v : JSON) (acc : ErrorBody × Bool) : ErrorBody × Bool :=
  match v with
  | .null => acc
  | .obj ms => ms.foldl decodeErrorMember acc
  | _ => (acc.1, true)

/-- Decode one member of the top-level object of an error response. -/
def decodeResponseMember (acc : apiErrorResponse × Bool) (m : Bytes × JSON) :
    apiErrorResponse × Bool :=
  if fieldMatches "error" m.1 then
    let r := decodeErrorBody m.2 (acc.1.Error, acc.2)
    (⟨r.1⟩, r.2)
  else acc

/-- Decode a JSON value into an `apiErrorResponse`. -/
def decodeErrorResponse (v : JSON) (acc : apiErrorResponse × Bool) : apiErrorResponse × Bool :=
  match v with
  | .null => acc
  | .obj ms => ms.foldl decodeResponseMember acc
  | _ => (acc.1, true)

/-- The call `json.Unmarshal(data, &resp)` for `resp` an `apiErrorResponse`: the error
returned, if any, and the value of `resp` afterwards. A malformed document leaves `resp`
untouched; a type mismatch is reported after the rest has been decoded. -/
def unmarshalErrorResponse (data : Bytes) (resp : apiErrorResponse) :
    Option JSONError × apiErrorResponse :=
  match parseJSON data with
  | none => (some .malformed, resp)
  | some v =>
    let r := decodeErrorResponse v (resp, false)
    (if r.2 then some .typeMismatch else none, r.1)

mutual
/-- Whether decoding the value into an `any` meets a number that `strconv.ParseFloat`
rejects, which `json.Unmarshal` reports as a type mismatch. -/
def JSON.floatError : JSON → Bool
  | .num lit => (parseFloat lit).isNone
  | .arr xs => floatErrorList xs
  | .obj ms => floatErrorMembers ms
  | _ => false
/-- Whether `JSON.floatError` holds of an element. -/
def floatErrorList : List JSON → Bool
  | [] => false
  | x :: xs => x.floatError || floatErrorList xs
/-- Whether `JSON.floatError` holds of a member's value. -/
def floatErrorMembers : List (Bytes × JSON) → Bool
  | [] => false
  | m :: ms => m.2.floatError || floatErrorMembers ms
end

/-- A Go `map[string]any` as decoded from a JSON object: `none` is the nil map; a later
member with the same key replaces an earlier one, so a lookup takes the last. -/
abbrev AnyMap := Option (List (Bytes × JSON))

/-- The index expression `raw[key]` with the comma-ok form. -/
def AnyMap.lookup (raw : AnyMap) (key : Bytes) : Option JSON :=
  match raw with
  | none => none
  | some ms => (ms.reverse.find? fun m => m.1 == key).map fun m => m.2

/-- The call `json.Unmarshal(data, &raw)` for `raw` a nil `map[string]any`. -/
def unmarshalMap (data : Bytes) : Option JSONError × AnyMap :=
  match parseJSON data with
  | none => (some .malformed, none)
  | some .null => (none, none)
  | some (.obj ms) => (if floatErrorMembers ms then some .typeMismatch else none, some ms)
  | some _ => (some .typeMismatch, none)

/-- The type assertion `v.(float64)` on a decoded `any`: JSON numbers, and only they,
decode to `float64`. -/
def asFloat64 (v : JSON) : Option Float64 :=
  match v with
  | .num lit => parseFloat lit
  | _ => none

/-! ## `internal/api/errors.go` -/

/-- The struct `APIError`: a generic API error response. -/
structure APIError where
  StatusCode : Int
  Message : Bytes
  Details : Bytes
  deriving DecidableEq, Repr

/-- A Go `error` value as the client produces it. The first five constructors are the
error types of `errors.go` (`AuthError`, `RateLimitError` and `NotFoundError` embed an
`APIError`); `json` and `lib` are errors of the standard library, and `wrapped msg cause`
is `fmt.Errorf(msg + ": %w", cause)`. -/
inductive GoError where
  | apiError (e : APIError)
  | authError (e : APIError)
  | rateLimitError (e : APIError) (RetryAfter : Int)
  | notFoundError (e : APIError)
  | validationError (Field Message : Bytes)
  | json (e : JSONError)
  | lib (text : Bytes)
  | wrapped (msg : String) (cause : GoError)
  deriving DecidableEq, Repr

/-- The dynamic type of an error value. -/
inductive ErrorType where
  | APIError
  | AuthError
  | RateLimitError
  | NotFoundError
  | ValidationError
  | library
  | wrapError
  deriving DecidableEq, Repr

/-- The dynamic type of an error value, as a type switch or assertion sees it. -/
def GoError.type : GoError → ErrorType
  | .apiError _ => .APIError
  | .authError _ => .AuthError
  | .rateLimitError _ _ => .RateLimitError
  | .notFoundError _ => .NotFoundError
  | .validationError _ _ => .ValidationError
  | .json _ => .library
  | .lib _ => .library
  | .wrapped _ _ => .wrapError

/-- The `APIError` an error value is or embeds, if any. -/
def GoError.base : GoError → Option APIError
  | .apiError e => some e
  | .authError e => some e
  | .rateLimitError e _ => some e
  | .notFoundError e => some e
  | _ => none

/-- The field `RetryAfter` of a `*RateLimitError`, in nanoseconds. -/
def GoError.retryAfter : GoError → Option Int
  | .rateLimitError _ d => some d
  | _ => none

/-- The function `parseRetryAfter`: attempts to extract retry-after seconds from the
response body; the result is a `time.Duration`, in nanoseconds. -/
def parseRetryAfter (body : Bytes) : Int :=
  match unmarshalMap body with
  | (some _, _) => 0
  | (none, raw) =>
    match raw.lookup (utf8 "retry_after") with
    | some v =>
      match asFloat64 v with
      | some val => wrapInt64 (truncToInt64 val * second)
      | none => 0
    | none => 0

/-- The function `NewAPIError`: parses a JSON error response body and returns the
appropriate typed error. -/
def NewAPIError (statusCode : Int) (body : Bytes) : GoError :=
  let r := unmarshalErrorResponse body ⟨⟨[], 0⟩⟩
  let msg := if r.1 = none ∧ r.2.Error.Message ≠ [] then r.2.Error.Message
    else utf8 "unknown error"
  let base : APIError := { StatusCode := statusCode, Message := msg, Details := [] }
  if statusCode = 401 ∨ statusCode = 403 then .authError base
  else if statusCode = 404 then .notFoundError base
  else if statusCode = 429 then .rateLimitError base (parseRetryAfter body)
  else .apiError base

/-! ## `internal/api/client.go` -/

/-- An `http.Header`, as pairs of a canonical name and a value. -/
abbrev Header := List (Bytes × Bytes)

/-- The method `Header.Set`: replace whatever the name held by the one value. -/
def Header.set (h : Header) (name value : Bytes) : Header :=
  h.filter (fun kv => kv.1 != name) ++ [(name, value)]

/-- The method `Header.Get` with presence: the first value held by the name. -/
def Header.get (h : Header) (name : Bytes) : Option Bytes :=
  (h.find? fun kv => kv.1 == name).map fun kv => kv.2

/-- An `http.Request` as `Client.do` builds it. -/
structure Request where
  method : Bytes
  url : Bytes
  header : Header
  body : Option Bytes
  deriving DecidableEq, Repr

/-- An `http.Response` as `Client.do` reads it: the status code, and what
`io.ReadAll(resp.Body)` returns. -/
structure Response where
  StatusCode : Int
  Body : Except GoError Bytes

/-- The struct `Client`. The field `httpClient` stands for `c.httpClient.Do`: it takes the
request and the state of the network `σ` and returns a response or an error, and the
state afterwards. -/
structure Client (σ : Type) where
  httpClient : Request → σ → Except GoError Response × σ
  apiKey : Bytes
  baseURL : Bytes
  userAgent : Bytes

/-- The constant `ProductionURL`. -/
def ProductionURL : Bytes := utf8 "https://api.yoursrs.com/v2"

/-- The standard library as `Client.do` calls it for a payload of type `α` and an output
of type `β`: `json.Marshal(body)`, the checks of `http.NewRequestWithContext` on the
method and the URL, and `json.Unmarshal(respBody, out)`, which returns its error and
the output value as it leaves it. -/
structure Codec (α β : Type) where
  marshal : α → Except GoError Bytes
  newRequest : Bytes → Bytes → Option GoError
  unmarshal : Bytes → β → Option GoError × β

/-- The function `NewClient` over a given transport: the client with the production URL
and the default user agent. In the source the transport is
`NewRetryTransport(http.DefaultTransport)` with a timeout of 30 seconds. -/
def NewClient {σ : Type} (transport : Request → σ → Except GoError Response × σ)
    (apiKey : Bytes) : Client σ :=
  { httpClient := transport, apiKey := apiKey, baseURL := ProductionURL,
    userAgent := utf8 "rr/dev" }

/-- The method `SetBaseURL`: overrides the API base URL. -/
def Client.SetBaseURL {σ : Type} (c : Client σ) (url : Bytes) : Client σ :=
  { c with baseURL := url }

/-- The method `SetUserAgent`: overrides the User-Agent header. -/
def Client.SetUserAgent {σ : Type} (c : Client σ) (ua : Bytes) : Client σ :=
  { c with userAgent := ua }

/-- The first lines of `Client.do`: the payload, when there is one, is serialized with
`json.Marshal`; `none` is the nil reader of a call without payload. -/
def Codec.encode {α β : Type} (codec : Codec α β) (body : Option α) :
    Except GoError (Option Bytes) :=
  match body with
  | none => .ok none
  | some b =>
    match codec.marshal b with
    | .error err => .error err
    | .ok data => .ok (some data)

/-- The request `Client.do` builds once the payload is serialized: the URL is the base
URL followed by the path, and the three headers are set under their guards. -/
def Client.request {σ : Type} (c : Client σ) (method path : Bytes) (hasBody : Bool)
    (bodyReader : Option Bytes) : Request :=
  let h0 : Header := []
  let h1 := if hasBody then h0.set (utf8 "Content-Type") (utf8 "application/json") else h0
  let h2 := if c.apiKey ≠ [] then h1.set (utf8 "Authorization") (utf8 "ApiKey " ++ c.apiKey)
    else h1
  let h3 := if c.userAgent ≠ [] then h2.set (utf8 "User-Agent") c.userAgent else h2
  { method := method, url := c.baseURL ++ path, header := h3, body := bodyReader }

/-- The method `Client.do`: executes an API request with auth and error handling.
`body` and `out` are `none` for Go's `nil`. The result is the error returned (`none` for
`nil`), the output value afterwards, and the state of the network afterwards. -/
def Client.do {σ α β : Type} (codec : Codec α β) (c : Client σ) (method path : Bytes)
    (body : Option α) (out : Option β) (w : σ) : Option GoError × Option β × σ :=
  match codec.encode body with
  | .error err => (some (.wrapped "marshal request" err), out, w)
  | .ok bodyReader =>
    match codec.newRequest method (c.baseURL ++ path) with
    | some err => (some (.wrapped "create request" err), out, w)
    | none =>
      match c.httpClient (c.request method path body.isSome bodyReader) w with
      | (.error err, w1) => (some (.wrapped "execute request" err), out, w1)
      | (.ok resp, w1) =>
        match resp.Body with
        | .error err => (some (.wrapped "read response" err), out, w1)
        | .ok respBody =>
          if resp.StatusCode < 200 ∨ resp.StatusCode ≥ 300 then
            (some (NewAPIError resp.StatusCode respBody), out, w1)
          else
            match out with
            | none => (none, out, w1)
            | some o =>
              if respBody.length > 0 then
                match codec.unmarshal respBody o with
                | (some err, o1) => (some (.wrapped "decode response" err), some o1, w1)
                | (none, o1) => (none, some o1, w1)
              else (none, out, w1)

/-! ## `internal/api/types.go`: pagination, and its JSON encoding -/

/-- The struct `Pagination`: offset-based pagination metadata, with the JSON field names
`limit`, `offset` and `total`. -/
structure Pagination where
  Limit : Int
  Offset : Int
  Total : Int
  deriving DecidableEq, Repr

/-- The decimal digits of `n`, most significant first, in front of `acc`; the first
argument bounds the number of digits. -/
def formatNatAux : Nat → Nat → Bytes → Bytes
  | 0, _, acc => acc
  | f + 1, n, acc =>
    if n < 10 then (48 + n) :: acc else formatNatAux f (n / 10) ((48 + n % 10) :: acc)

/-- The decimal text of a natural number. -/
def formatNat (n : Nat) : Bytes :=
  formatNatAux (n + 1) n []

/-- The call `strconv.AppendInt(nil, x, 10)`: the decimal text of an integer. -/
def formatInt (x : Int) : Bytes :=
  if x < 0 then 45 :: formatNat x.natAbs else formatNat x.natAbs

/-- The call `json.Marshal(p)` for a `Pagination`: the fields in declaration order. -/
def marshalPagination (p : Pagination) : Bytes :=
  utf8 "\x7b\"limit\":" ++ formatInt p.Limit ++ utf8 ",\"offset\":" ++ formatInt p.Offset
    ++ utf8 ",\"total\":" ++ formatInt p.Total ++ utf8 "\x7d"

/-- Decode one member of a JSON object into a `Pagination`. -/
def decodePaginationMember (acc : Pagination × Bool) (m : Bytes × JSON) : Pagination × Bool :=
  if fieldMatches "limit" m.1 then
    let r := decodeInt m.2 acc.1.Limit
    ({ acc.1 with Limit := r.1 }, acc.2 || r.2)
  else if fieldMatches "offset" m.1 then
    let r := decodeInt m.2 acc.1.Offset
    ({ acc.1 with Offset := r.1 }, acc.2 || r.2)
  else if fieldMatches "total" m.1 then
    let r := decodeInt m.2 acc.1.Total
    ({ acc.1 with Total := r.1 }, acc.2 || r.2)
  else acc

/-- Decode a JSON value into a `Pagination`. -/
def decodePagination (v : JSON) (acc : Pagination × Bool) : Pagination × Bool :=
  match v with
  | .null => acc
  | .obj ms => ms.foldl decodePaginationMember acc
  | _ => (acc.1, true)

/-- The call `json.Unmarshal(data, out)` for `out` a `*Pagination`. -/
def unmarshalPagination (data : Bytes) (out : Pagination) : Option GoError × Pagination :=
  match parseJSON data with
  | none => (some (.json .malformed), out)
  | some v =>
    let r := decodePagination v (out, false)
    (if r.2 then some (.json .typeMismatch) else none, r.1)

/-- The standard library for a call of `Client.do` whose payload and output are both a
`Pagination`; `newRequest` is the check of the method and the URL. -/
def paginationCodec (newRequest : Bytes → Bytes → Option GoError) :
    Codec Pagination Pagination where
  marshal := fun p => .ok (marshalPagination p)
  newRequest := newRequest
  unmarshal := unmarshalPagination

/-! ## The network, and the retrying transport -/

/-- The state of the network for one call: the replies the server side will give to the
round trips still to come, the requests sent so far, and the delays waited between
attempts. -/
structure Net where
  replies : List (Except GoError Response)
  sent : List Request
  waited : List Nat

/-- One round trip of the base transport (`http.DefaultTransport`): the request is sent
and the next reply is received; with no reply left the round trip fails. -/
def Net.roundTrip (req : Request) (w : Net) : Except GoError Response × Net :=
  match w.replies with
  | [] => (.error (.lib (utf8 "connection refused")), { w with sent := w.sent ++ [req] })
  | r :: rs => (r, { w with replies := rs, sent := w.sent ++ [req] })

/-- Modelled from the spec: the variants of `ClassifiedError` (section 3), which the
missing retrying transport works on: `Auth` (401/403), `NotFound` (404), `RateLimited`
(429, with the retry-after duration), `Generic` (any other non-2xx, with the status
code), `Transport` and `Validation`. -/
inductive ErrorKind where
  | auth
  | notFound
  | rateLimited (retryAfter : Int)
  | generic (status : Int)
  | transport
  | validation
  deriving DecidableEq, Repr

/-- The variant of `ClassifiedError` an error value of the client belongs to: the typed
errors of `errors.go` by their type, every other error value as `Transport`. The
retrying transport applies it to the results of `NewAPIError`. -/
def classify : GoError → ErrorKind
  | .authError _ => .auth
  | .notFoundError _ => .notFound
  | .rateLimitError _ d => .rateLimited d
  | .apiError e => .generic e.StatusCode
  | .validationError _ _ => .validation
  | _ => .transport

/-- Modelled from the spec: the configuration of `RetryPolicy` (section 4.3): the hard
ceiling on the attempt count, the base delay and the cap of the exponential backoff, and
the backoff floor used when a rate-limited reply carries no delay. -/
structure RetryConfig where
  maxAttempts : Nat
  baseDelay : Nat
  maxDelay : Nat
  floorDelay : Nat

/-- Modelled from the spec: the value `RetryDecision` (section 3). -/
structure RetryDecision where
  shouldRetry : Bool
  delay : Int
  deriving DecidableEq, Repr

/-- Modelled from the spec: `RetryPolicy` (section 4.3), which is the policy of the
retrying transport `NewRetryTransport` that the source files do not include. A
rate-limited attempt is retried below the ceiling after the delay the server supplied, or
the floor if that is zero; a transport failure and a 5xx are retried below the ceiling
with exponential backoff from the base delay, capped; `Auth`, `NotFound`, `Validation`
and every other status are never retried. -/
def retryPolicy (cfg : RetryConfig) (attempt : Nat) (kind : ErrorKind) : RetryDecision :=
  let backoff : Int := min (cfg.baseDelay * 2 ^ (attempt - 1)) cfg.maxDelay
  match kind with
  | .rateLimited d =>
    { shouldRetry := decide (attempt < cfg.maxAttempts),
      delay := if d = 0 then cfg.floorDelay else d }
  | .transport => { shouldRetry := decide (attempt < cfg.maxAttempts), delay := backoff }
  | .generic s =>
    if 500 ≤ s ∧ s ≤ 599 then
      { shouldRetry := decide (attempt < cfg.maxAttempts), delay := backoff }
    else { shouldRetry := false, delay := 0 }
  | .auth => { shouldRetry := false, delay := 0 }
  | .notFound => { shouldRetry := false, delay := 0 }
  | .validation => { shouldRetry := false, delay := 0 }

/-- The variant of `ClassifiedError` of one attempt's outcome, or `none` for a 2xx
response: a failed round trip or an unreadable body is a transport failure, and a
non-2xx response is classified by `NewAPIError`. -/
def attemptKind (r : Except GoError Response) : Option ErrorKind :=
  match r with
  | .error _ => some .transport
  | .ok resp =>
    if resp.StatusCode < 200 ∨ resp.StatusCode ≥ 300 then
      match resp.Body with
      | .error _ => some .transport
      | .ok body => some (classify (NewAPIError resp.StatusCode body))
    else none

/-- Modelled from the spec: the attempts of the retrying transport (sections 4.1 and 5),
strictly in sequence: send, look at the outcome, ask `RetryPolicy`, and either wait the
delay and try again or hand the outcome to the caller. The first argument counts the
attempts the ceiling still allows after this one. -/
def retryLoop (cfg : RetryConfig) : Nat → Nat → Request → Net → Except GoError Response × Net
  | 0, _, req, w => Net.roundTrip req w
  | left + 1, attempt, req, w =>
    let r := Net.roundTrip req w
    match attemptKind r.1 with
    | none => r
    | some kind =>
      let d := retryPolicy cfg attempt kind
      if d.shouldRetry then
        retryLoop cfg left (attempt + 1) req { r.2 with waited := r.2.waited ++ [d.delay.toNat] }
      else r

/-- Modelled from the spec: the transport `NewRetryTransport(http.DefaultTransport)`
that `NewClient` installs. -/
def RetryTransport (cfg : RetryConfig) (req : Request) (w : Net) :
    Except GoError Response × Net :=
  retryLoop cfg (cfg.maxAttempts - 1) 1 req w

/-! ## Auxiliary notions used to state the properties -/

/-- The exact value of a decimal number. -/
def Decimal.value (x : Decimal) : ℚ :=
  (if x.neg then -1 else 1) * (x.mant : ℚ) * (10 : ℚ) ^ x.exp10

/-- The function `errors.As` for one of the error types: whether the error, or an error
it wraps, has the dynamic type `t`. -/
def GoError.as (t : ErrorType) : GoError → Bool
  | .wrapped _ cause => cause.as t
  | .apiError _ => t == .APIError
  | .authError _ => t == .AuthError
  | .rateLimitError _ _ => t == .RateLimitError
  | .notFoundError _ => t == .NotFoundError
  | .validationError _ _ => t == .ValidationError
  | .json _ => t == .library
  | .lib _ => t == .library

/-- A transport that records each request it is handed and gives one fixed reply. -/
def recorder (reply : Except GoError Response) (req : Request) (sent : List Request) :
    Except GoError Response × List Request :=
  (reply, sent ++ [req])

/-- A server that answers each request with the given status code and, as the response
body, the body of the request; the requests are recorded. -/
def echo (status : Int) (req : Request) (sent : List Request) :
    Except GoError Response × List Request :=
  (.ok { StatusCode := status, Body := .ok (req.body.getD []) }, sent ++ [req])

/-- A call of `Client.do` whose payload `json.Marshal` cannot serialize (a Go channel, for
which it returns an `UnsupportedTypeError`), with no output expected. -/
def unsupportedCodec : Codec Unit Unit where
  marshal := fun _ => .error (.lib (utf8 "json: unsupported type: chan int"))
  newRequest := fun _ _ => none
  unmarshal := fun _ o => (none, o)

/-- Whether a value is in the range of Go's 64-bit `int`. -/
def isInt64 (x : Int) : Prop :=
  -(2 ^ 63) ≤ x ∧ x < 2 ^ 63

/-! ## The standard library as `internal/api/isproxy.go` calls it -/

/-- The width in bytes of the white space character at the head of `s`, as
`unicode.IsSpace` defines white space, or 0 when the head is none: the ASCII characters
tab, line feed, vertical tab, form feed, carriage return and space, and the UTF-8
encodings of U+0085, U+00A0, U+1680, U+2000 to U+200A, U+2028, U+2029, U+202F, U+205F
and U+3000. -/
def spaceLen : Bytes → Nat
  | [] => 0
  | c :: rest =>
    if (9 ≤ c ∧ c ≤ 13) ∨ c = 32 then 1
    else
      match rest with
      | [] => 0
      | d :: rest1 =>
        if c = 0xC2 ∧ (d = 0x85 ∨ d = 0xA0) then 2
        else
          match rest1 with
          | [] => 0
          | e :: _ =>
            if c = 0xE1 ∧ d = 0x9A ∧ e = 0x80 then 3
            else if c = 0xE2 ∧ d = 0x80 ∧ ((0x80 ≤ e ∧ e ≤ 0x8A) ∨ e = 0xA8 ∨ e = 0xA9 ∨ e = 0xAF)
              then 3
            else if c = 0xE2 ∧ d = 0x81 ∧ e = 0x9F then 3
            else if c = 0xE3 ∧ d = 0x80 ∧ e = 0x80 then 3
            else 0

/-- The loop of `strings.Fields`: `skip` counts the bytes still to pass of a white space
character of several bytes, `cur` holds the field being read, most recent byte first. -/
def fieldsAux : Nat → Bytes → Bytes → List Bytes
  | _, cur, [] => if cur = [] then [] else [cur.reverse]
  | skip + 1, cur, _ :: rest => fieldsAux skip cur rest
  | 0, cur, c :: rest =>
    if spaceLen (c :: rest) = 0 then fieldsAux 0 (c :: cur) rest
    else if cur = [] then fieldsAux (spaceLen (c :: rest) - 1) [] rest
    else cur.reverse :: fieldsAux (spaceLen (c :: rest) - 1) [] rest

/-- The function `strings.Fields`: the maximal runs of bytes free of white space. -/
def Fields (s : Bytes) : List Bytes :=
  fieldsAux 0 [] s

/-- The function `strings.TrimLeft` for white space; `skip` as in `fieldsAux`. -/
def trimLeftAux : Nat → Bytes → Bytes
  | _, [] => []
  | skip + 1, _ :: rest => trimLeftAux skip rest
  | 0, c :: rest =>
    if spaceLen (c :: rest) = 0 then c :: rest else trimLeftAux (spaceLen (c :: rest) - 1) rest

/-- The bytes of `s` up to the end of its last character that is not white space; `skip`
as in `fieldsAux`, `pending` holds the white space read since that character. -/
def trimRightAux : Nat → Bytes → Bytes → Bytes
  | _, _, [] => []
  | skip + 1, pending, c :: rest => trimRightAux skip (c :: pending) rest
  | 0, pending, c :: rest =>
    if spaceLen (c :: rest) = 0 then pending.reverse ++ c :: trimRightAux 0 [] rest
    else trimRightAux (spaceLen (c :: rest) - 1) (c :: pending) rest

/-- The function `strings.TrimSpace`: `s` without leading and trailing white space. -/
def TrimSpace (s : Bytes) : Bytes :=
  trimRightAux 0 [] (trimLeftAux 0 s)

/-- The bytes of `s` before its first `sep`, and those after it if there is one. -/
def cutByte (sep : Nat) : Bytes → Bytes × Option Bytes
  | [] => ([], none)
  | c :: rest =>
    if c = sep then ([], some rest)
    else ((c :: (cutByte sep rest).1), (cutByte sep rest).2)

/-- The call `strings.SplitN(s, ".", 2)`: `s` alone when it holds no dot, else what
stands before the first dot and what stands after it. -/
def SplitN2 (s : Bytes) : List Bytes :=
  match cutByte 46 s with
  | (a, none) => [a]
  | (a, some b) => [a, b]

/-- A `float64` value. -/
inductive F64 where
  | finite (f : Float64)
  | inf (neg : Bool)
  | nan

/-- The function `lower` of `strconv`: the byte with the bit of lower case set. -/
def lowerByte (c : Nat) : Nat :=
  if 65 ≤ c ∧ c ≤ 90 then c + 32 else c

/-- The function `commonPrefixLenIgnoreCase`: how many leading bytes of `s`, upper case
letters taken as lower case, agree with `pattern`. -/
def commonPrefixLen : Bytes → Bytes → Nat
  | c :: s, p :: pattern => if lowerByte c = p then commonPrefixLen s pattern + 1 else 0
  | _, _ => 0

/-- The function `special` of `strconv`: an infinity (`inf` or `infinity`, with an
optional sign) or `nan` at the head of `s`, in any letter case, with the number of bytes
it takes. -/
def special (s : Bytes) : Option (F64 × Nat) :=
  let infinity (neg : Bool) (nsign : Nat) (t : Bytes) : Option (F64 × Nat) :=
    let n := commonPrefixLen t (utf8 "infinity")
    let n := if 3 < n ∧ n < 8 then 3 else n
    if n = 3 ∨ n = 8 then some (.inf neg, nsign + n) else none
  match s with
  | [] => none
  | c :: rest =>
    if c = 43 then infinity false 1 rest
    else if c = 45 then infinity true 1 rest
    else if c = 105 ∨ c = 73 then infinity false 0 s
    else if c = 110 ∨ c = 78 then
      if commonPrefixLen s (utf8 "nan") = 3 then some (.nan, 3) else none
    else none

/-- What `readFloat` has read of the digits of a number: their value, how many of them
stand after the point, and whether a point, a digit and an underscore were seen. -/
structure Mantissa where
  value : Nat
  fracDigits : Nat
  sawDot : Bool
  sawDigits : Bool
  underscores : Bool

/-- The digit loop of `readFloat` in base 10 or, with `hex`, base 16: digits, at most
one point, and underscores; it stops at the first other byte and returns the rest. -/
def readMantissa (hex : Bool) : Mantissa → Bytes → Mantissa × Bytes
  | m, [] => (m, [])
  | m, c :: rest =>
    if c = 95 then readMantissa hex { m with underscores := true } rest
    else if c = 46 then
      if m.sawDot then (m, c :: rest) else readMantissa hex { m with sawDot := true } rest
    else if isDigit c then
      readMantissa hex
        { m with value := m.value * (if hex then 16 else 10) + (c - 48),
                 fracDigits := if m.sawDot then m.fracDigits + 1 else m.fracDigits,
                 sawDigits := true } rest
    else if hex ∧ 97 ≤ lowerByte c ∧ lowerByte c ≤ 102 then
      readMantissa hex
        { m with value := m.value * 16 + (lowerByte c - 87),
                 fracDigits := if m.sawDot then m.fracDigits + 1 else m.fracDigits,
                 sawDigits := true } rest
    else (m, c :: rest)

/-- The optional sign at the head of a number: whether it is a minus, and the rest. -/
def readSign : Bytes → Bool × Bytes
  | 43 :: r => (false, r)
  | 45 :: r => (true, r)
  | r => (false, r)

/-- Whether `readFloat` takes the number for a hexadecimal one: `0x` or `0X` with at
least one more byte after it. -/
def hasHexPrefix : Bytes → Bool
  | 48 :: x :: _ :: _ => lowerByte x = 120
  | _ => false

/-- The optional exponent of `readFloat`, introduced by `e` in base 10 and by `p` in base
16, where it is required: the exponent, whether an underscore was seen, and the rest;
`none` when the text is malformed. -/
def readExponent (hex : Bool) (s : Bytes) : Option (Int × Bool × Bytes) :=
  match s with
  | [] => if hex then none else some (0, false, [])
  | c :: rest =>
    if lowerByte c = (if hex then 112 else 101) then
      match (readSign rest).2 with
      | [] => none
      | d :: _ =>
        if isDigit d then
          let r := readExpDigits 0 false (readSign rest).2
          some (if (readSign rest).1 then -(r.1 : Int) else (r.1 : Int), r.2.1, r.2.2)
        else none
    else if hex then none
    else some (0, false, c :: rest)

/-- The loop of `underscoreOK`: `saw` is 0 at the beginning, 1 after a digit, 2 after an
underscore and 3 after any other byte. -/
def underscoreLoop (hex : Bool) : Nat → Bytes → Bool
  | saw, [] => saw != 2
  | saw, c :: rest =>
    if isDigit c ∨ (hex ∧ 97 ≤ lowerByte c ∧ lowerByte c ≤ 102) then underscoreLoop hex 1 rest
    else if c = 95 then (if saw != 1 then false else underscoreLoop hex 2 rest)
    else if saw = 2 then false
    else underscoreLoop hex 3 rest

/-- The function `underscoreOK`: an underscore may stand only between digits, or between
a base prefix and a digit. -/
def underscoreOK (s : Bytes) : Bool :=
  match (readSign s).2 with
  | 48 :: x :: r =>
    if lowerByte x = 98 ∨ lowerByte x = 111 ∨ lowerByte x = 120 then
      underscoreLoop (lowerByte x = 120) 1 r
    else underscoreLoop false 0 (readSign s).2
  | _ => underscoreLoop false 0 (readSign s).2

/-- The `float64` nearest to the rational `n / d` with the given sign, ties to even, in
its one representation: the mantissa is below `2 ^ 53`, and zero has the exponent 0;
`none` when the value rounds to an infinity. -/
def nearestFloat64 (neg : Bool) (n d : Nat) : Option F64 :=
  let r := roundFloat64 n d
  if r.1 = 0 then some (.finite ⟨neg, 0, 0⟩)
  else if 0 ≤ r.2 ∧ 2 ^ 1024 ≤ r.1 * 2 ^ r.2.toNat then none
  else if r.1 = 2 ^ 53 then some (.finite ⟨neg, 2 ^ 52, r.2 + 1⟩)
  else some (.finite ⟨neg, r.1, r.2⟩)

/-- The call `strconv.ParseFloat(s, 64)`: the value when the error is nil, `none` when
it is not, be it for malformed text or for a value out of range. The text is an
infinity or `nan`, or an optional sign followed by a decimal number or, after `0x`, a
hexadecimal one with a binary exponent; the value is correctly rounded. -/
def strconvParseFloat (s : Bytes) : Option F64 :=
  match special s with
  | some (v, n) => if n = s.length then some v else none
  | none =>
    let neg := (readSign s).1
    let hex := hasHexPrefix (readSign s).2
    let m := readMantissa hex ⟨0, 0, false, false, false⟩
      (if hex then (readSign s).2.drop 2 else (readSign s).2)
    if m.1.sawDigits = false then none
    else
      match readExponent hex m.2 with
      | none => none
      | some (e, us, rest) =>
        if rest ≠ [] then none
        else if (m.1.underscores || us) && !underscoreOK s then none
        else
          let scale : Int := if hex then e - 4 * m.1.fracDigits else e - m.1.fracDigits
          let base : Nat := if hex then 2 else 10
          if 0 ≤ scale then nearestFloat64 neg (m.1.value * base ^ scale.toNat) 1
          else nearestFloat64 neg m.1.value (base ^ (-scale).toNat)

/-! ## `internal/api/isproxy.go` -/

deriving instance DecidableEq for Float64

deriving instance DecidableEq for Except

deriving instance DecidableEq for F64

/-- The struct `IsProxyResult`: a single domain check result. -/
structure IsProxyResult where
  Domain : Bytes
  TLD : Bytes
  Available : Bool
  Price : F64
  deriving DecidableEq

/-- The zero value of a `float64` field: the price that was not set. -/
def F64.zero : F64 := .finite ⟨false, 0, 0⟩

/-- The function `parseCheckResponse`. -/
def parseCheckResponse (resp : Bytes) : Except GoError IsProxyResult :=
  let resp := TrimSpace resp
  let parts := Fields resp
  if parts.length < 2 then .error (.lib (utf8 "invalid IsProxy response: " ++ resp))
  else
    let fullDomain := parts.getD 0 []
    let status := parts.getD 1 []
    let domainParts := SplitN2 fullDomain
    let domain := domainParts.getD 0 []
    let tld := if domainParts.length > 1 then domainParts.getD 1 [] else []
    let available : Bool := status == utf8 "AVAILABLE"
    let price : F64 :=
      if parts.length ≥ 3 ∧ available then
        match strconvParseFloat (parts.getD 2 []) with
        | some price => price
        | none => F64.zero
      else F64.zero
    .ok { Domain := domain, TLD := tld, Available := available, Price := price }

/-- The connection of an `IsProxyClient` (the TLS `net.Conn` with the `bufio.Reader` on
it) and its far end. `reads` holds what the calls of `ReadString` to come return, in
order, `writeErrors` the errors of the writes to come (`none` for a write that goes
through), `closeError` what closing the open connection returns. `written` records the
data that went out, `closed` whether the connection is closed, `closeCalls` how often
`Close` was called on it. -/
structure Conn where
  reads : List (Except GoError Bytes)
  writeErrors : List (Option GoError)
  closeError : Option GoError
  written : List Bytes
  closed : Bool
  closeCalls : Nat

/-- The error `net.ErrClosed`. -/
def ErrClosed : GoError := .lib (utf8 "use of closed network connection")

/-- The error `io.EOF`. -/
def EOF : GoError := .lib (utf8 "EOF")

/-- One call of `Write` with `data` (a call of `fmt.Fprintf` makes one): on a closed
connection it fails with `net.ErrClosed`; a write that fails sends nothing. -/
def Conn.write (conn : Conn) (data : Bytes) : Option GoError × Conn :=
  if conn.closed then (some ErrClosed, conn)
  else
    match conn.writeErrors with
    | [] => (none, { conn with written := conn.written ++ [data] })
    | none :: es => (none, { conn with written := conn.written ++ [data], writeErrors := es })
    | some err :: es => (some err, { conn with writeErrors := es })

/-- One call of `ReadString` on the reader. -/
def Conn.readString (conn : Conn) : Except GoError Bytes × Conn :=
  if conn.closed then (.error ErrClosed, conn)
  else
    match conn.reads with
    | [] => (.error EOF, conn)
    | r :: rs => (r, { conn with reads := rs })

/-- One call of `Close` on the connection: a second call fails with `net.ErrClosed`. -/
def Conn.close (conn : Conn) : Option GoError × Conn :=
  if conn.closed then (some ErrClosed, { conn with closeCalls := conn.closeCalls + 1 })
  else (conn.closeError, { conn with closed := true, closeCalls := conn.closeCalls + 1 })

/-- The struct `IsProxyClient`; `conn` is `none` for a nil connection, and stands for
the reader as well. -/
structure IsProxyClient where
  conn : Option Conn
  apiKey : Bytes

/-- How a call ends: it returns, or it panics (a method called on the nil connection). -/
inductive Outcome (α : Type) where
  | ret (a : α)
  | panic
  deriving DecidableEq

/-- The function `NewIsProxyClient`. -/
def NewIsProxyClient (apiKey : Bytes) : IsProxyClient :=
  { conn := none, apiKey := apiKey }

/-- The method `Close`: closes the connection after sending QUIT. -/
def IsProxyClient.Close (c : IsProxyClient) : Option GoError × IsProxyClient :=
  match c.conn with
  | none => (none, c)
  | some conn =>
    let w := conn.write (utf8 "QUIT\r\n")
    let r := w.2.close
    (r.1, { c with conn := some r.2 })

/-- The method `auth`. -/
def IsProxyClient.auth (c : IsProxyClient) : Outcome (Option GoError × IsProxyClient) :=
  match c.conn with
  | none => .panic
  | some conn =>
    match conn.write (utf8 "AUTH " ++ c.apiKey ++ utf8 "\r\n") with
    | (some err, conn1) => .ret (some (.wrapped "send AUTH" err), { c with conn := some conn1 })
    | (none, conn1) =>
      match conn1.readString with
      | (.error err, conn2) =>
        .ret (some (.wrapped "read AUTH response" err), { c with conn := some conn2 })
      | (.ok resp, conn2) =>
        if TrimSpace resp ≠ utf8 "OK" then
          .ret (some (.lib (utf8 "IsProxy auth failed: " ++ TrimSpace resp)),
            { c with conn := some conn2 })
        else .ret (none, { c with conn := some conn2 })

/-- The method `Connect`: establishes a TLS connection to the IsProxy server; `dial` is
what `tls.DialWithDialer` returns. -/
def IsProxyClient.Connect (c : IsProxyClient) (dial : Except GoError Conn) :
    Outcome (Option GoError × IsProxyClient) :=
  match dial with
  | .error err => .ret (some (.wrapped "connect to IsProxy" err), c)
  | .ok conn =>
    match IsProxyClient.auth { c with conn := some conn } with
    | .panic => .panic
    | .ret (some err, c1) => .ret (some err, c1.Close.2)
    | .ret (none, c1) => .ret (none, c1)

/-- The method `Check`: checks a single domain availability. -/
def IsProxyClient.Check (c : IsProxyClient) (domain tld : Bytes) :
    Outcome (Except GoError IsProxyResult × IsProxyClient) :=
  match c.conn with
  | none => .panic
  | some conn =>
    match conn.write (utf8 "CHECK " ++ domain ++ utf8 " " ++ tld ++ utf8 "\r\n") with
    | (some err, conn1) => .ret (.error (.wrapped "send CHECK" err), { c with conn := some conn1 })
    | (none, conn1) =>
      match conn1.readString with
      | (.error err, conn2) =>
        .ret (.error (.wrapped "read CHECK response" err), { c with conn := some conn2 })
      | (.ok resp, conn2) => .ret (parseCheckResponse resp, { c with conn := some conn2 })

/-- The loop of `CheckMany` over the entries still to check, with the results so far.
`quote` stands for `strconv.Quote`, which the verb `%q` of the error message applies to
the entry. The first component of the value returned is the slice of results, `none`
for nil. -/
def checkManyLoop (quote : Bytes → Bytes) :
    List Bytes → List IsProxyResult → IsProxyClient →
      Outcome ((Option (List IsProxyResult) × Option GoError) × IsProxyClient)
  | [], results, c => .ret ((some results, none), c)
  | full :: rest, results, c =>
    if (SplitN2 full).length ≠ 2 then
      .ret ((none, some (.lib (utf8 "invalid domain format: " ++ quote full
        ++ utf8 " (expected name.tld)"))), c)
    else
      match c.Check ((SplitN2 full).getD 0 []) ((SplitN2 full).getD 1 []) with
      | .panic => .panic
      | .ret (.error err, c1) => .ret ((some results, some err), c1)
      | .ret (.ok result, c1) => checkManyLoop quote rest (results ++ [result]) c1

/-- The method `CheckMany`: checks multiple domains efficiently. -/
def IsProxyClient.CheckMany (quote : Bytes → Bytes) (c : IsProxyClient) (domains : List Bytes) :
    Outcome ((Option (List IsProxyResult) × Option GoError) × IsProxyClient) :=
  checkManyLoop quote domains [] c

/-! ## Notions used to state the properties of the bulk-check client -/

/-- The value of a run of decimal digits. -/
def digitsValue (ds : Bytes) : Nat :=
  ds.foldl (fun acc c => acc * 10 + (c - 48)) 0

/-- A decimal number as text: the digits `ip`, followed by a point and the digits `fp`
unless `fp` is empty. -/
def plainDecimal (ip fp : Bytes) : Bytes :=
  if fp = [] then ip else ip ++ 46 :: fp

/-- The request line `CHECK <name> <tld>` that `Check` writes. -/
def checkLine (name tld : Bytes) : Bytes :=
  utf8 "CHECK " ++ name ++ utf8 " " ++ tld ++ utf8 "\r\n"

/-- The error `CheckMany` returns for an entry it rejects. -/
def invalidDomainFormat (quote : Bytes → Bytes) (full : Bytes) : GoError :=
  .lib (utf8 "invalid domain format: " ++ quote full ++ utf8 " (expected name.tld)")

/-- The checks of the entries one after the other on the same client, each entry cut at
its first dot: the results of the checks before the first that fails, in order, the error
of that check if there is one, and the client afterwards. -/
def checksInOrder :
    List Bytes → IsProxyClient → Outcome ((List IsProxyResult × Option GoError) × IsProxyClient)
  | [], c => .ret (([], none), c)
  | full :: rest, c =>
    match c.Check (cutByte 46 full).1 ((cutByte 46 full).2.getD []) with
    | .panic => .panic
    | .ret (.error err, c1) => .ret (([], some err), c1)
    | .ret (.ok result, c1) =>
      match checksInOrder rest c1 with
      | .panic => .panic
      | .ret ((results, err), c2) => .ret ((result :: results, err), c2)

/-- A connection to a server that answers, without failure, the lines given. -/
def server (lines : List Bytes) : Conn :=
  { reads := lines.map .ok, writeErrors := [], closeError := none, written := [],
    closed := false, closeCalls := 0 }

/-- The quoting of `strconv.Quote` for a text of printable ASCII characters with no quote
and no backslash in it: the text between double quotes. -/
def quotePlain (s : Bytes) : Bytes :=
  34 :: s ++ [34]

/-! ## `time.Duration`, as `internal/errfmt` and `internal/api/errors.go` print it -/

/-- The method `Duration.Seconds`: `float64(sec) + float64(nsec)/1e9`, where `sec` and
`nsec` are the quotient and the remainder of the duration by `time.Second`; both carry
the sign of the duration, so the computation is made on the magnitude. The conversions
are exact, the quotient by `1e9` and the sum are each rounded to the nearest `float64`. -/
def Seconds (d : Int) : Float64 :=
  let sec := d.natAbs / 1000000000
  let nsec := d.natAbs % 1000000000
  let q := roundFloat64 nsec 1000000000
  let s := roundFloat64 (sec * 2 ^ (-q.2).toNat + q.1) (2 ^ (-q.2).toNat)
  ⟨decide (d < 0), s.1, s.2⟩

/-- The method `Error` of the error types of `errors.go` and of the errors that wrap
them; `jsonText` gives the message of an error of `encoding/json`. -/
def GoError.Error (jsonText : JSONError → Bytes) : GoError → Bytes
  | .apiError e => utf8 "api error (" ++ formatInt e.StatusCode ++ utf8 "): " ++ e.Message
  | .authError e => utf8 "authentication failed: " ++ e.Message
  | .rateLimitError _ d =>
    utf8 "rate limited: retry after " ++ formatInt (truncToInt64 (Seconds d)) ++ utf8 "s"
  | .notFoundError e => utf8 "not found: " ++ e.Message
  | .validationError f m => utf8 "validation: " ++ f ++ utf8 " " ++ m
  | .json e => jsonText e
  | .lib text => text
  | .wrapped msg cause => utf8 msg ++ utf8 ": " ++ cause.Error jsonText

/-- The function `errors.As` on an error of package `api`, for a target of one of the
error types of `errors.go`: the first error of the chain that has the dynamic type `t`. -/
def GoError.find (t : ErrorType) : GoError → Option GoError
  | .wrapped _ cause => cause.find t
  | .apiError e => if t = .APIError then some (.apiError e) else none
  | .authError e => if t = .AuthError then some (.authError e) else none
  | .rateLimitError e d => if t = .RateLimitError then some (.rateLimitError e d) else none
  | .notFoundError e => if t = .NotFoundError then some (.notFoundError e) else none
  | .validationError f m => if t = .ValidationError then some (.validationError f m) else none
  | .json _ => none
  | .lib _ => none

/-! ## `internal/cmd/exit.go` -/

/-- The constant `CodeSuccess`. -/
def CodeSuccess : Int := 0

/-- The constant `CodeError`. -/
def CodeError : Int := 1

/-- The constant `CodeUsage`. -/
def CodeUsage : Int := 2

/-- The constant `CodeAuth`. -/
def CodeAuth : Int := 3

/-- The constant `CodeAPI`. -/
def CodeAPI : Int := 4

/-- The constant `CodeRateLimit`. -/
def CodeRateLimit : Int := 5

/-- A Go `error` value as the packages `cmd` and `errfmt` handle it: an error that comes
from package `api` or from a library, the sentinel `auth.ErrNoAPIKey`, an `*ExitError`
(the struct `ExitError` wraps an error, possibly nil, with a process exit code), or
`fmt.Errorf(msg + ": %w", cause)`. -/
inductive CmdError where
  | of (e : GoError)
  | errNoAPIKey
  | exitError (Code : Int) (Err : Option CmdError)
  | wrapped (msg : String) (cause : CmdError)

/-- The method `Error`; for an `*ExitError` it is the message of the wrapped error, or
`exit` when there is none. -/
def CmdError.Error (jsonText : JSONError → Bytes) : CmdError → Bytes
  | .of e => e.Error jsonText
  | .errNoAPIKey => utf8 "no API key configured"
  | .exitError _ (some err) => err.Error jsonText
  | .exitError _ none => utf8 "exit"
  | .wrapped msg cause => utf8 msg ++ utf8 ": " ++ cause.Error jsonText

/-- The method `Unwrap`, where the error has one: the error that `errors.As` and
`errors.Is` look at next. An error of package `api` is unwrapped inside that package. -/
def CmdError.Unwrap : CmdError → Option CmdError
  | .of (.wrapped _ cause) => some (.of cause)
  | .of _ => none
  | .errNoAPIKey => none
  | .exitError _ err => err
  | .wrapped _ cause => some cause

/-- The call `errors.As(err, &ee)` for `ee` of type `*ExitError`: the first `*ExitError`
of the chain, as its code and the error it wraps. -/
def CmdError.asExitError : CmdError → Option (Int × Option CmdError)
  | .of _ => none
  | .errNoAPIKey => none
  | .exitError code err => some (code, err)
  | .wrapped _ cause => cause.asExitError

/-- The function `ExitCode`: returns the exit code for an error. Returns `CodeSuccess`
for nil, or `CodeError` if not an `ExitError`. -/
def ExitCode (err : Option CmdError) : Int :=
  match err with
  | none => CodeSuccess
  | some err =>
    match err.asExitError with
    | some ee => ee.1
    | none => CodeError

/-! ## `internal/errfmt/errfmt.go` -/

/-- The call `errors.Is(err, auth.ErrNoAPIKey)`. -/
def CmdError.isNoAPIKey : CmdError → Bool
  | .of _ => false
  | .errNoAPIKey => true
  | .exitError _ (some err) => err.isNoAPIKey
  | .exitError _ none => false
  | .wrapped _ cause => cause.isNoAPIKey

/-- The function `errors.As` for a target of one of the error types of `errors.go`. -/
def CmdError.find (t : ErrorType) : CmdError → Option GoError
  | .of e => e.find t
  | .errNoAPIKey => none
  | .exitError _ (some err) => err.find t
  | .exitError _ none => none
  | .wrapped _ cause => cause.find t

/-- The function `Format`: returns a user-friendly error message with hints. -/
def Format (jsonText : JSONError → Bytes) (err : Option CmdError) : Bytes :=
  match err with
  | none => []
  | some err =>
    if err.isNoAPIKey then
      utf8 "Error: Not authenticated.\n\n" ++ utf8 "To authenticate:\n"
        ++ utf8 "  rr auth login\n\n" ++ utf8 "Or set environment variable:\n"
        ++ utf8 "  export RR_API_KEY=your-api-key\n"
    else
      match err.find .AuthError, err.find .NotFoundError, err.find .RateLimitError,
        err.find .APIError with
      | some authErr, _, _, _ =>
        utf8 "Error: Authentication failed.\n\n"
          ++ (utf8 "Details: " ++ ((authErr.base.map fun e => e.Message).getD []) ++ utf8 "\n\n")
          ++ utf8 "Check your API key:\n" ++ utf8 "  rr auth status\n"
      | none, some notFoundErr, _, _ =>
        utf8 "Error: " ++ ((notFoundErr.base.map fun e => e.Message).getD []) ++ utf8 "\n"
      | none, none, some rateLimitErr, _ =>
        utf8 "Error: Rate limited by API.\n\n"
          ++ (utf8 "Retry after: "
            ++ formatInt (truncToInt64 (Seconds (rateLimitErr.retryAfter.getD 0)))
            ++ utf8 " seconds\n")
      | none, none, none, some apiErr =>
        utf8 "Error: API error ("
          ++ formatInt ((apiErr.base.map fun e => e.StatusCode).getD 0) ++ utf8 ")\n\n"
          ++ (utf8 "Message: " ++ ((apiErr.base.map fun e => e.Message).getD []) ++ utf8 "\n")
          ++ (if (apiErr.base.map fun e => e.Details).getD [] ≠ [] then
              utf8 "Details: " ++ ((apiErr.base.map fun e => e.Details).getD []) ++ utf8 "\n"
            else [])
      | none, none, none, none => utf8 "Error: " ++ err.Error jsonText ++ utf8 "\n"

/-! ## `internal/cmd/domain.go`: the command `domain get` -/

/-- The struct `DomainGetCmd`: gets a single domain. -/
structure DomainGetCmd where
  Domain : Bytes

/-- The method `DomainGetCmd.Run`, as far as the error it returns goes. `getAPIKey` is
what the function `getAPIKey` returns; `GetDomain` is the call `client.GetDomain` of the
client made with the key; `output` is the rest of the method, which prints the domain. -/
def DomainGetCmd.Run {δ : Type} (getAPIKey : Except CmdError Bytes)
    (GetDomain : Bytes → Bytes → Except GoError δ) (output : δ → Option CmdError)
    (c : DomainGetCmd) : Option CmdError :=
  match getAPIKey with
  | .error err => some err
  | .ok apiKey =>
    match GetDomain apiKey c.Domain with
    | .error err => some (.exitError CodeAPI (some (.of err)))
    | .ok domain => output domain

/-! ## `internal/api/types.go`: the pricelist, zones and their records -/

/-- The struct `PricelistEntry`: a price from the customer pricelist; `Price` is in
cents. -/
structure PricelistEntry where
  Product : Bytes
  Action : Bytes
  Currency : Bytes
  Price : Int
  deriving DecidableEq

/-- The struct `Pricelist`: the response from the pricelist endpoint. -/
structure Pricelist where
  Prices : List PricelistEntry
  deriving DecidableEq

/-- The loop of `GetTLDPrice` over the entries still to look at. -/
def getTLDPriceLoop (product : Bytes) : List PricelistEntry → Int × Bytes × Bool
  | [] => (0, [], false)
  | entry :: rest =>
    if entry.Product = product ∧ entry.Action = utf8 "CREATE" then
      (entry.Price, entry.Currency, true)
    else getTLDPriceLoop product rest

/-- The method `GetTLDPrice`: finds the CREATE price for a TLD in cents, returns price
and currency. -/
def Pricelist.GetTLDPrice (p : Pricelist) (tld : Bytes) : Int × Bytes × Bool :=
  let product := utf8 "domain_" ++ tld
  getTLDPriceLoop product p.Prices

/-- The struct `DNSRecord`: a DNS resource record; `Typ` is its field `Type`. -/
structure DNSRecord where
  Name : Bytes
  Typ : Bytes
  Content : Bytes
  TTL : Int
  Prio : Int
  deriving DecidableEq

/-- The struct `Zone`; the two dates are kept as the text they arrive in. -/
structure Zone where
  ID : Int
  Name : Bytes
  Customer : Bytes
  Service : Bytes
  TTL : Int
  DNSSec : Bool
  Records : List DNSRecord
  CreatedDate : Bytes
  UpdatedDate : Bytes
  deriving DecidableEq

/-- The struct `ZoneRequest` of `internal/api/zones.go`, for creating and updating
zones. -/
structure ZoneRequest where
  Name : Bytes
  TTL : Int
  Refresh : Int
  Retry : Int
  Expire : Int
  DNSSecMode : Bytes
  Records : List DNSRecord
  deriving DecidableEq

/-! ## `internal/cmd/zone.go`: the command `zone record delete` -/

/-- The function `strings.EqualFold`: whether two texts are equal under simple Unicode
case folding. This is its loop over ASCII bytes, in which a letter matches itself in
either case; at the first byte outside ASCII on either side the function goes on rune
by rune with the tables of package `unicode`, which `unicodeFold` stands for, on what is
left of the two texts. -/
def EqualFold (unicodeFold : Bytes → Bytes → Bool) : Bytes → Bytes → Bool
  | [], [] => true
  | [], _ :: _ => false
  | _ :: _, [] => false
  | sr :: s, tr :: t =>
    if 128 ≤ sr ∨ 128 ≤ tr then unicodeFold (sr :: s) (tr :: t)
    else if tr = sr then EqualFold unicodeFold s t
    else if 65 ≤ min sr tr ∧ min sr tr ≤ 90 ∧ max sr tr = min sr tr + 32 then
      EqualFold unicodeFold s t
    else false

/-- The loop of `findRecords` from the index `i` on. -/
def findRecordsFrom (unicodeFold : Bytes → Bytes → Bool) (typ name content : Bytes) :
    Nat → List DNSRecord → List Nat
  | _, [] => []
  | i, r :: rest =>
    if EqualFold unicodeFold r.Typ typ ∧ r.Name = name then
      if content = [] ∨ r.Content = content then
        i :: findRecordsFrom unicodeFold typ name content (i + 1) rest
      else findRecordsFrom unicodeFold typ name content (i + 1) rest
    else findRecordsFrom unicodeFold typ name content (i + 1) rest

/-- The function `findRecords`: returns indices of records matching type, name, and
optionally content. -/
def findRecords (unicodeFold : Bytes → Bytes → Bool) (records : List DNSRecord)
    (typ name content : Bytes) : List Nat :=
  findRecordsFrom unicodeFold typ name content 0 records

/-- The records at the given indices, `none` if an index is out of range. -/
def recordsAt (records : List DNSRecord) : List Nat → Option (List DNSRecord)
  | [] => some []
  | i :: rest =>
    match records[i]?, recordsAt records rest with
    | some r, some rs => some (r :: rs)
    | _, _ => none

/-- The struct `RootFlags`: global flags available to all commands. -/
structure RootFlags where
  JSON : Bool
  Plain : Bool
  Verbose : Bool
  Yes : Bool
  Color : Bytes

/-- The struct `ZoneRecordDeleteCmd`: deletes a record from a zone; `Typ` is its field
`Type`. -/
structure ZoneRecordDeleteCmd where
  ZoneID : Int
  Typ : Bytes
  Name : Bytes
  Content : Bytes

/-- What a command meets outside itself: what `getAPIKey` returns, what the calls
`GetZone` and `UpdateZone` of the client made with the key return, and the word that
`fmt.Scanln` reads from the standard input. -/
structure Session where
  getAPIKey : Except CmdError Bytes
  GetZone : Bytes → Int → Except GoError Zone
  UpdateZone : Bytes → Int → ZoneRequest → Option GoError
  answer : Bytes

/-- What a command has done when it ends: the calls of `UpdateZone` it made, with the
zone and the request of each, and what it wrote to the standard output and to the
standard error. -/
structure Trace where
  updates : List (Int × ZoneRequest)
  stdout : List Bytes
  stderr : List Bytes
  deriving DecidableEq

/-- The method `ZoneRecordDeleteCmd.Run`. `ToUpper` stands for `strings.ToUpper` and
`quote` for `strconv.Quote`, which the verb `%q` applies. The call panics if an index is
out of range. -/
def ZoneRecordDeleteCmd.Run (ToUpper quote : Bytes → Bytes)
    (unicodeFold : Bytes → Bytes → Bool) (env : Session) (c : ZoneRecordDeleteCmd)
    (flags : RootFlags) : Outcome (Option CmdError × Trace) :=
  match env.getAPIKey with
  | .error err => .ret (some err, ⟨[], [], []⟩)
  | .ok apiKey =>
    match env.GetZone apiKey c.ZoneID with
    | .error err => .ret (some (.exitError CodeAPI (some (.of err))), ⟨[], [], []⟩)
    | .ok zone =>
      if zone.Records.length = 0 then
        .ret (some (.exitError CodeError (some (.of (.lib (utf8 "zone has no records"))))),
          ⟨[], [], []⟩)
      else
        let typ := ToUpper c.Typ
        let indices := findRecords unicodeFold zone.Records typ c.Name c.Content
        if indices.length = 0 then
          .ret (some (.exitError CodeError (some (.of (.lib
            (utf8 "no " ++ typ ++ utf8 " record found for name " ++ quote c.Name))))),
            ⟨[], [], []⟩)
        else if indices.length > 1 then
          match recordsAt zone.Records indices with
          | none => .panic
          | some rs =>
            .ret (some (.exitError CodeError (some (.of (.lib
              (utf8 "use --content to specify which record to delete"))))),
              ⟨[], [], (utf8 "Multiple " ++ typ ++ utf8 " records found for " ++ quote c.Name
                  ++ utf8 ":\n") :: rs.map fun r => utf8 "  - " ++ r.Content ++ utf8 "\n"⟩)
        else
          match indices[0]? with
          | none => .panic
          | some idx =>
            match zone.Records[idx]? with
            | none => .panic
            | some record =>
              let ask : List Bytes :=
                if flags.Yes then []
                else [utf8 "Delete " ++ typ ++ utf8 " " ++ c.Name ++ utf8 " → " ++ record.Content
                  ++ utf8 "? [y/N]: "]
              if ¬ flags.Yes ∧ env.answer ≠ utf8 "y" ∧ env.answer ≠ utf8 "Y" then
                .ret (none, ⟨[], ask, [utf8 "Cancelled.\n"]⟩)
              else
                let records := zone.Records.take idx ++ zone.Records.drop (idx + 1)
                let req : ZoneRequest := ⟨[], 0, 0, 0, 0, [], records⟩
                match env.UpdateZone apiKey c.ZoneID req with
                | some err =>
                  .ret (some (.exitError CodeAPI (some (.of err))), ⟨[(c.ZoneID, req)], ask, []⟩)
                | none =>
                  .ret (none, ⟨[(c.ZoneID, req)],
                    ask ++ [utf8 "Deleted " ++ typ ++ utf8 " " ++ c.Name ++ utf8 " → "
                      ++ record.Content ++ utf8 "\n"], []⟩)

/-! ## Notions used to state the properties of the commands -/

/-- The chain of an error of package `api`: the error, the error it unwraps to, and so
on. -/
def GoError.chain : GoError → List GoError
  | .wrapped msg cause => .wrapped msg cause :: cause.chain
  | e => [e]

/-- The chain of an error: the error, the error it unwraps to, and so on. -/
def CmdError.chain : CmdError → List CmdError
  | .of e => e.chain.map .of
  | .errNoAPIKey => [.errNoAPIKey]
  | .exitError code (some err) => .exitError code (some err) :: err.chain
  | .exitError code none => [.exitError code none]
  | .wrapped msg cause => .wrapped msg cause :: cause.chain

/-- The code of an error that is an `*ExitError`. -/
def CmdError.code? : CmdError → Option Int
  | .exitError code _ => some code
  | _ => none

/-- Whether a record matches the type, the name and, unless it is empty, the content
asked for. -/
def DNSRecord.matches (unicodeFold : Bytes → Bytes → Bool) (typ name content : Bytes)
    (r : DNSRecord) : Bool :=
  EqualFold unicodeFold r.Typ typ && decide (r.Name = name)
    && (decide (content = []) || decide (r.Content = content))

/-- The function `strings.ToUpper` on ASCII text. -/
def upperASCII (s : Bytes) : Bytes :=
  s.map fun c => if 97 ≤ c ∧ c ≤ 122 then c - 32 else c

/-- A session with a key, one zone whatever the identifier, updates that succeed, and
the given answer at the prompt. -/
def sessionOf (zone : Zone) (answer : Bytes) : Session :=
  { getAPIKey := .ok (utf8 "key"), GetZone := fun _ _ => .ok zone,
    UpdateZone := fun _ _ _ => none, answer := answer }

/-- The constant `defaultUserAgent` of `net/http`, for HTTP/1.1 and, with `h2`, for
HTTP/2. -/
def defaultUserAgent (h2 : Bool) : Bytes :=
  if h2 then utf8 "Go-http-client/2.0" else utf8 "Go-http-client/1.1"

/-- What HTTP/1.1 does to the value of `User-Agent` before writing it: line breaks
become spaces (`headerNewlineToSpace`), then `textproto.TrimString` removes the spaces
and tabs at both ends. -/
def sanitizeUserAgent (v : Bytes) : Bytes :=
  let isBlank : Nat → Bool := fun c => c = 32 || c = 9 || c = 10 || c = 13
  let v1 := v.map fun c => if c = 10 ∨ c = 13 then 32 else c
  ((v1.dropWhile isBlank).reverse.dropWhile isBlank).reverse

/-- The `User-Agent` field that `net/http` sends with a request, `none` if it sends none:
the method `Request.write` of HTTP/1.1 and the header encoder of HTTP/2 use the default
unless the header holds a `User-Agent`, which may be blank to not send the field. -/
def sentUserAgent (h2 : Bool) (req : Request) : Option Bytes :=
  match req.header.get (utf8 "User-Agent") with
  | none => some (defaultUserAgent h2)
  | some ua => if ua = [] then none else some (if h2 then ua else sanitizeUserAgent ua)

/-- The magnitude of a `float64`, as a rational number. -/
def Float64.magnitude (f : Float64) : ℚ :=
  (f.mant : ℚ) * (2 : ℚ) ^ f.exp2

/-! ## Properties of `NewAPIError` -/

/-- The message of the error `NewAPIError` returns: the decoded `error.message` when the
body decodes without error and the message is not empty, else the fallback. -/
theorem NewAPIError_message (s : Int) (b : Bytes) :
    (NewAPIError s b).base.map (fun e => e.Message) =
      some (if (unmarshalErrorResponse b ⟨⟨[], 0⟩⟩).1 = none
              ∧ (unmarshalErrorResponse b ⟨⟨[], 0⟩⟩).2.Error.Message ≠ []
            then (unmarshalErrorResponse b ⟨⟨[], 0⟩⟩).2.Error.Message
            else utf8 "unknown error") := by
  unfold NewAPIError
  by_cases h1 : s = 401 ∨ s = 403
  · simp [h1, GoError.base]
  · by_cases h2 : s = 404
    · simp [h2, GoError.base]
    · by_cases h3 : s = 429
      · simp [h3, GoError.base]
      · simp [h1, h2, h3, GoError.base]

/-- The status code and details of the error `NewAPIError` returns. -/
theorem NewAPIError_base (s : Int) (b : Bytes) :
    ∃ e, (NewAPIError s b).base = some e ∧ e.StatusCode = s ∧ e.Details = [] := by
  unfold NewAPIError
  by_cases h1 : s = 401 ∨ s = 403
  · simp [h1, GoError.base]
  · by_cases h2 : s = 404
    · simp [h2, GoError.base]
    · by_cases h3 : s = 429
      · simp [h3, GoError.base]
      · simp [h1, h2, h3, GoError.base]

/-- The retry-after of the error `NewAPIError` returns for a 429. -/
theorem NewAPIError_429 (b : Bytes) :
    (NewAPIError 429 b).retryAfter = some (parseRetryAfter b) := by
  simp [NewAPIError, GoError.retryAfter]

/-- C1. For every status code `s` and body `b`, the variant of the error `NewAPIError s b`
is decided by `s` alone: `*AuthError` for 401 and 403, `*NotFoundError` for 404,
`*RateLimitError` for 429 and a plain `*APIError` otherwise; its `StatusCode` is `s`. -/
theorem NewAPIError_variant_by_status (s : Int) (b : Bytes) :
    (NewAPIError s b).type =
        (if s = 401 ∨ s = 403 then ErrorType.AuthError
         else if s = 404 then ErrorType.NotFoundError
         else if s = 429 then ErrorType.RateLimitError
         else ErrorType.APIError)
      ∧ (NewAPIError s b).base.map (fun e => e.StatusCode) = some s := by
  unfold NewAPIError
  by_cases h1 : s = 401 ∨ s = 403
  · simp [h1, GoError.type, GoError.base]
  · by_cases h2 : s = 404
    · simp [h2, GoError.type, GoError.base]
    · by_cases h3 : s = 429
      · simp [h3, GoError.type, GoError.base]
      · simp [h1, h2, h3, GoError.type, GoError.base]

/-- The empty body is not a JSON document. -/
theorem parseJSON_nil : parseJSON [] = none := by rfl

/-- The fallback message is not empty. -/
theorem unknown_error_ne_nil : utf8 "unknown error" ≠ [] := by decide

/-- C4. `NewAPIError` is total: for every status code and every body it returns one of the
typed errors, populated with the status code and a non-empty message; and whenever the
body is empty, is not a JSON document, does not decode into the error payload, or decodes
to an empty `error.message`, the message is the literal `unknown error`. -/
theorem NewAPIError_total (s : Int) (b : Bytes) :
    ∃ e, (NewAPIError s b).base = some e ∧ e.StatusCode = s ∧ e.Message ≠ []
      ∧ (b = [] → e.Message = utf8 "unknown error")
      ∧ (parseJSON b = none → e.Message = utf8 "unknown error")
      ∧ ((unmarshalErrorResponse b ⟨⟨[], 0⟩⟩).1 ≠ none → e.Message = utf8 "unknown error")
      ∧ ((unmarshalErrorResponse b ⟨⟨[], 0⟩⟩).2.Error.Message = [] →
          e.Message = utf8 "unknown error") := by
  obtain ⟨e, he, hs, _⟩ := NewAPIError_base s b
  have hm := NewAPIError_message s b
  rw [he] at hm
  simp only [Option.map_some', Option.some.injEq] at hm
  have hbad : (unmarshalErrorResponse b ⟨⟨[], 0⟩⟩).1 ≠ none → e.Message = utf8 "unknown error" := by
    intro h
    rw [hm, if_neg]
    exact fun hh => h hh.1
  have hparse : parseJSON b = none → e.Message = utf8 "unknown error" := by
    intro h
    apply hbad
    simp [unmarshalErrorResponse, h]
  refine ⟨e, he, hs, ?_, ?_, hparse, hbad, ?_⟩
  · rw [hm]
    split
    · rename_i h
      exact h.2
    · exact unknown_error_ne_nil
  · intro h
    exact hparse (h ▸ parseJSON_nil)
  · intro h
    rw [hm, if_neg]
    exact fun hh => hh.2 h

/-! ## Exactness of `parseFloat` on whole numbers -/

/-- The halving loop computes the binary logarithm. -/
theorem log2Aux_spec (f : Nat) : ∀ n, 0 < n → n ≤ f →
    2 ^ log2Aux f n ≤ n ∧ n < 2 ^ (log2Aux f n + 1) := by
  induction f with
  | zero => intro n h0 h1; omega
  | succ f ih =>
    intro n h0 h1
    unfold log2Aux
    by_cases h : n < 2
    · have : n = 1 := by omega
      subst this
      simp
    · rw [if_neg h]
      have h2 := ih (n / 2) (by omega) (by omega)
      constructor
      · rw [pow_succ]; omega
      · rw [pow_succ]; omega

/-- The bounds that define `log2`. -/
theorem log2_spec (n : Nat) (h : 0 < n) : 2 ^ log2 n ≤ n ∧ n < 2 ^ (log2 n + 1) :=
  log2Aux_spec n n h le_rfl

/-- The binary logarithm is the only exponent within its bounds. -/
theorem log2_unique (n e : Nat) (h1 : 2 ^ e ≤ n) (h2 : n < 2 ^ (e + 1)) : log2 n = e := by
  have h0 : 0 < n := lt_of_lt_of_le (Nat.two_pow_pos e) h1
  obtain ⟨h3, h4⟩ := log2_spec n h0
  have a : log2 n < e + 1 := (Nat.pow_lt_pow_iff_right (by norm_num : 1 < 2)).mp (lt_of_le_of_lt h3 h2)
  have b : e < log2 n + 1 := (Nat.pow_lt_pow_iff_right (by norm_num : 1 < 2)).mp (lt_of_le_of_lt h1 h4)
  omega

/-- Rounding an exact quotient changes nothing. -/
theorem roundHalfEven_mul (m d : Nat) (hd : 0 < d) : roundHalfEven (m * d) d = m := by
  unfold roundHalfEven
  simp [Nat.mul_div_cancel _ hd, hd]

/-- The binary exponent of a whole quotient. -/
theorem floorLog2_mul (N d : Nat) (hN : 0 < N) (hd : 0 < d) :
    floorLog2 (N * d) d = (log2 N : Int) := by
  obtain ⟨a1, a2⟩ := log2_spec N hN
  obtain ⟨b1, b2⟩ := log2_spec d hd
  obtain ⟨c1, c2⟩ := log2_spec (N * d) (Nat.mul_pos hN hd)
  have p1 : 2 ^ (log2 N + log2 d) ≤ N * d := by
    rw [pow_add]; exact Nat.mul_le_mul a1 b1
  have p2 : N * d < 2 ^ (log2 N + log2 d + 2) := by
    have : 2 ^ (log2 N + log2 d + 2) = 2 ^ (log2 N + 1) * 2 ^ (log2 d + 1) := by ring
    rw [this]
    exact Nat.mul_lt_mul'' a2 b2
  have q1 : log2 N + log2 d < log2 (N * d) + 1 :=
    (Nat.pow_lt_pow_iff_right (by norm_num : 1 < 2)).mp (lt_of_le_of_lt p1 c2)
  have q2 : log2 (N * d) < log2 N + log2 d + 2 :=
    (Nat.pow_lt_pow_iff_right (by norm_num : 1 < 2)).mp (lt_of_le_of_lt c1 p2)
  have hk : log2 (N * d) = log2 N + log2 d ∨ log2 (N * d) = log2 N + log2 d + 1 := by omega
  unfold floorLog2
  rcases hk with hk | hk
  · have e1 : ((log2 (N * d) : Nat) : Int) - (log2 d : Int) = (log2 N : Int) := by
      rw [hk]; push_cast; ring
    simp only [e1]
    have : ¬ (N * d < d * 2 ^ log2 N) := by
      rw [Nat.mul_comm d]
      exact not_lt.mpr (Nat.mul_le_mul_right d a1)
    simp [this]
  · have e1 : ((log2 (N * d) : Nat) : Int) - (log2 d : Int) = ((log2 N + 1 : Nat) : Int) := by
      rw [hk]; push_cast; ring
    simp only [e1]
    have : N * d < d * 2 ^ (log2 N + 1) := by
      rw [Nat.mul_comm d]
      exact Nat.mul_lt_mul_of_pos_right a2 hd
    have hnn : (0 : Int) ≤ ((log2 N + 1 : Nat) : Int) := Int.ofNat_nonneg _
    rw [if_pos hnn]
    simp only [Int.toNat_ofNat, this, decide_True, if_true]
    push_cast
    ring
/-- Rounding a whole number below `2 ^ 53` to `float64` is exact. -/
theorem roundFloat64_whole (N d : Nat) (hN : 0 < N) (hN2 : N < 2 ^ 53) (hd : 0 < d) :
    roundFloat64 (N * d) d = (N * 2 ^ (52 - log2 N), (log2 N : Int) - 52) := by
  obtain ⟨a1, _⟩ := log2_spec N hN
  have ha : log2 N < 53 :=
    (Nat.pow_lt_pow_iff_right (by norm_num : 1 < 2)).mp (lt_of_le_of_lt a1 hN2)
  unfold roundFloat64
  have hnz : ¬ (N * d = 0 ∨ d = 0) := by
    intro h
    rcases h with h | h
    · have := Nat.mul_pos hN hd
      omega
    · omega
  rw [if_neg hnz, floorLog2_mul N d hN hd]
  have hmax : max (log2 N : Int) (-1022) = (log2 N : Int) := by
    apply max_eq_left
    have : (0 : Int) ≤ (log2 N : Int) := Int.ofNat_nonneg _
    omega
  simp only [hmax]
  by_cases h52 : log2 N = 52
  · rw [h52]
    simp only [Nat.cast_ofNat, sub_self, le_refl, if_true, Int.toNat_zero, pow_zero, mul_one,
      Nat.sub_self]
    rw [roundHalfEven_mul N d hd]
  · have hq : ¬ ((0 : Int) ≤ (log2 N : Int) - 52) := by omega
    rw [if_neg hq]
    have hk : (-((log2 N : Int) - 52)).toNat = 52 - log2 N := by omega
    rw [hk]
    have : N * d * 2 ^ (52 - log2 N) = (N * 2 ^ (52 - log2 N)) * d := by ring
    rw [this, roundHalfEven_mul _ d hd]

/-- The whole number a `float64` with an exact integer value truncates to. -/
theorem truncToInt64_whole (neg : Bool) (N : Nat) (hN : 0 < N) (hN2 : N < 2 ^ 53) :
    truncToInt64 ⟨neg, N * 2 ^ (52 - log2 N), (log2 N : Int) - 52⟩
      = if neg then -(N : Int) else (N : Int) := by
  obtain ⟨a1, _⟩ := log2_spec N hN
  have ha : log2 N < 53 :=
    (Nat.pow_lt_pow_iff_right (by norm_num : 1 < 2)).mp (lt_of_le_of_lt a1 hN2)
  have hNi : (N : Int) < 2 ^ 53 := by exact_mod_cast hN2
  unfold truncToInt64
  have hval : (if (0 : Int) ≤ (log2 N : Int) - 52
      then N * 2 ^ (52 - log2 N) * 2 ^ ((log2 N : Int) - 52).toNat
      else N * 2 ^ (52 - log2 N) / 2 ^ (-((log2 N : Int) - 52)).toNat) = N := by
    by_cases h52 : log2 N = 52
    · rw [h52]; simp
    · have hq : ¬ ((0 : Int) ≤ (log2 N : Int) - 52) := by omega
      rw [if_neg hq]
      have hk : (-((log2 N : Int) - 52)).toNat = 52 - log2 N := by omega
      rw [hk]
      exact Nat.mul_div_cancel _ (Nat.two_pow_pos _)
  simp only [hval]
  cases neg
  · simp only [Bool.false_eq_true, if_false]
    rw [if_pos]
    constructor <;> omega
  · simp only [if_true]
    rw [if_pos]
    constructor <;> omega

/-- A decimal with a whole value is the quotient of a multiple of its denominator. -/
theorem decimal_whole (x : Decimal) (n : Int) (h : x.value = (n : ℚ)) :
    ∃ d : Nat, 0 < d
      ∧ (if 0 ≤ x.exp10 then (x.mant * 10 ^ x.exp10.toNat, 1)
          else (x.mant, 10 ^ (-x.exp10).toNat)) = (n.natAbs * d, d)
      ∧ n = (if x.neg then -(n.natAbs : Int) else (n.natAbs : Int)) := by
  unfold Decimal.value at h
  by_cases he : 0 ≤ x.exp10
  · obtain ⟨k, hk⟩ := Int.eq_ofNat_of_zero_le he
    rw [if_pos he, hk, Int.toNat_ofNat]
    rw [hk, zpow_natCast] at h
    refine ⟨1, by norm_num, ?_⟩
    cases hneg : x.neg
    · rw [hneg] at h
      have h2 : ((x.mant * 10 ^ k : Nat) : Int) = n := by
        have : (((x.mant * 10 ^ k : Nat) : Int) : ℚ) = (n : ℚ) := by
          rw [← h]; push_cast; simp
        exact_mod_cast this
      have h3 : n.natAbs = x.mant * 10 ^ k := by rw [← h2]; exact Int.natAbs_ofNat _
      constructor
      · rw [h3]; simp
      · simp only [Bool.false_eq_true, if_false]
        rw [h3]; exact h2.symm
    · rw [hneg] at h
      have h2 : -((x.mant * 10 ^ k : Nat) : Int) = n := by
        have : ((-((x.mant * 10 ^ k : Nat) : Int) : Int) : ℚ) = (n : ℚ) := by
          rw [← h]; push_cast; simp
        exact_mod_cast this
      have h3 : n.natAbs = x.mant * 10 ^ k := by
        rw [← h2, Int.natAbs_neg]; exact Int.natAbs_ofNat _
      constructor
      · rw [h3]; simp
      · simp only [if_true]
        rw [h3]; exact h2.symm
  · obtain ⟨k, hk⟩ := Int.eq_ofNat_of_zero_le (by omega : 0 ≤ -x.exp10)
    have hx : x.exp10 = -(k : Int) := by omega
    rw [if_neg he, hk, Int.toNat_ofNat]
    rw [hx, zpow_neg, zpow_natCast] at h
    have hp : (0 : ℚ) < (10 : ℚ) ^ k := by positivity
    refine ⟨10 ^ k, by positivity, ?_⟩
    cases hneg : x.neg
    · rw [hneg] at h
      have h2 : (x.mant : Int) = n * ((10 ^ k : Nat) : Int) := by
        have : ((x.mant : Int) : ℚ) = ((n * ((10 ^ k : Nat) : Int) : Int) : ℚ) := by
          push_cast
          rw [← h]
          field_simp
        exact_mod_cast this
      have hn : 0 ≤ n := by
        by_contra hc
        have : n * ((10 ^ k : Nat) : Int) < 0 :=
          Int.mul_neg_of_neg_of_pos (by omega) (by positivity)
        have : (0 : Int) ≤ (x.mant : Int) := Int.ofNat_nonneg _
        omega
      obtain ⟨N, hN⟩ := Int.eq_ofNat_of_zero_le hn
      subst hN
      constructor
      · simp only [Int.natAbs_ofNat, Prod.mk.injEq, and_true]
        exact_mod_cast h2
      · simp
    · rw [hneg] at h
      have h2 : -(x.mant : Int) = n * ((10 ^ k : Nat) : Int) := by
        have : ((-(x.mant : Int) : Int) : ℚ) = ((n * ((10 ^ k : Nat) : Int) : Int) : ℚ) := by
          push_cast
          rw [← h]
          field_simp
        exact_mod_cast this
      have hn : n ≤ 0 := by
        by_contra hc
        have : 0 < n * ((10 ^ k : Nat) : Int) :=
          Int.mul_pos (by omega) (by positivity)
        have : (0 : Int) ≤ (x.mant : Int) := Int.ofNat_nonneg _
        omega
      obtain ⟨N, hN⟩ := Int.eq_ofNat_of_zero_le (by omega : 0 ≤ -n)
      have hn2 : n = -(N : Int) := by omega
      subst hn2
      constructor
      · simp only [Int.natAbs_neg, Int.natAbs_ofNat, Prod.mk.injEq, and_true]
        have : (x.mant : Int) = ((N * 10 ^ k : Nat) : Int) := by
          push_cast
          push_cast at h2
          linarith
        exact_mod_cast this
      · simp
/-- The number `strconv.ParseFloat` followed by the conversion to `int64` yields for a
literal whose value is a whole number below `2 ^ 53` in magnitude: that number. -/
theorem parseFloat_whole (lit : Bytes) (n : Int) (h : (decimalOf lit).value = (n : ℚ))
    (hn : n.natAbs < 2 ^ 53) :
    ∃ f, parseFloat lit = some f ∧ truncToInt64 f = n := by
  obtain ⟨d, hd, hpair, hsign⟩ := decimal_whole _ n h
  unfold parseFloat
  simp only [hpair]
  by_cases hN : n.natAbs = 0
  · have hr : roundFloat64 (n.natAbs * d) d = (0, 0) := by
      unfold roundFloat64
      simp [hN]
    simp only [hr]
    refine ⟨⟨(decimalOf lit).neg, 0, 0⟩, by simp, ?_⟩
    have : n = 0 := Int.natAbs_eq_zero.mp hN
    subst this
    unfold truncToInt64
    cases (decimalOf lit).neg <;> simp
  · have hpos : 0 < n.natAbs := Nat.pos_of_ne_zero hN
    obtain ⟨a1, _⟩ := log2_spec n.natAbs hpos
    have ha : log2 n.natAbs < 53 :=
      (Nat.pow_lt_pow_iff_right (by norm_num : 1 < 2)).mp (lt_of_le_of_lt a1 hn)
    simp only [roundFloat64_whole n.natAbs d hpos hn hd]
    have hov : ¬ ((0 : Int) ≤ (log2 n.natAbs : Int) - 52
        ∧ 2 ^ 1024 ≤ n.natAbs * 2 ^ (52 - log2 n.natAbs)
            * 2 ^ ((log2 n.natAbs : Int) - 52).toNat) := by
      rintro ⟨h1, h2⟩
      have h52 : log2 n.natAbs = 52 := by omega
      rw [h52] at h2
      simp only [Nat.sub_self, pow_zero, mul_one, Nat.cast_ofNat, sub_self, Int.toNat_zero] at h2
      have : (2 : Nat) ^ 53 ≤ 2 ^ 1024 := Nat.pow_le_pow_right (by norm_num) (by norm_num)
      omega
    rw [if_neg hov]
    refine ⟨_, rfl, ?_⟩
    rw [truncToInt64_whole _ _ hpos hn]
    exact hsign.symm

/-- A whole number of seconds below the overflow bound is not wrapped. -/
theorem wrapInt64_seconds (n : Int) (h1 : -9223372036 ≤ n) (h2 : n ≤ 9223372036) :
    wrapInt64 (n * second) = n * second := by
  unfold wrapInt64 second
  have h3 : (0 : Int) ≤ n * 1000000000 + 2 ^ 63 := by norm_num; omega
  have h4 : n * 1000000000 + 2 ^ 63 < 2 ^ 64 := by norm_num; omega
  rw [Int.emod_eq_of_lt h3 h4]
  ring

/-- What `parseRetryAfter` returns once the body is known to be a JSON object. -/
theorem parseRetryAfter_obj (b : Bytes) (ms : List (Bytes × JSON))
    (hb : parseJSON b = some (.obj ms)) :
    parseRetryAfter b =
      if floatErrorMembers ms then 0
      else match AnyMap.lookup (some ms) (utf8 "retry_after") with
        | some v =>
          match asFloat64 v with
          | some val => wrapInt64 (truncToInt64 val * second)
          | none => 0
        | none => 0 := by
  unfold parseRetryAfter unmarshalMap
  rw [hb]
  by_cases h : floatErrorMembers ms = true <;> simp [h]

/-- What `parseRetryAfter` returns for a body that is not a JSON object. -/
theorem parseRetryAfter_not_obj (b : Bytes) (hb : ∀ ms, parseJSON b ≠ some (.obj ms)) :
    parseRetryAfter b = 0 := by
  unfold parseRetryAfter unmarshalMap
  cases h : parseJSON b with
  | none => simp
  | some v =>
    cases v with
    | obj ms => exact absurd h (hb ms)
    | null => simp [AnyMap.lookup]
    | bool _ => simp
    | num _ => simp
    | str _ => simp
    | arr _ => simp
/-- The conversion `int64(f)` truncates toward zero: it yields the whole part of the
magnitude of `f`, with the sign of `f`. -/
theorem truncToInt64_floor (f : Float64) (h : truncToInt64 f ≠ -(2 ^ 63)) :
    truncToInt64 f = (if f.neg then -1 else 1) * ⌊f.magnitude⌋ := by
  have hfl : ⌊f.magnitude⌋
      = ((if 0 ≤ f.exp2 then f.mant * 2 ^ f.exp2.toNat
          else f.mant / 2 ^ (-f.exp2).toNat : Nat) : Int) := by
    unfold Float64.magnitude
    by_cases he : 0 ≤ f.exp2
    · rw [if_pos he]
      have : (2 : ℚ) ^ f.exp2 = ((2 ^ f.exp2.toNat : Nat) : ℚ) := by
        conv_lhs => rw [← Int.toNat_of_nonneg he]
        rw [zpow_natCast]
        push_cast
        rfl
      rw [this, ← Nat.cast_mul, Int.floor_natCast]
    · rw [if_neg he]
      have hk : f.exp2 = -((-f.exp2).toNat : Int) := by omega
      have : (2 : ℚ) ^ f.exp2 = 1 / ((2 ^ (-f.exp2).toNat : Nat) : ℚ) := by
        conv_lhs => rw [hk]
        rw [zpow_neg, zpow_natCast]
        push_cast
        rw [one_div]
      rw [this, mul_one_div]
      have hc : ((f.mant : ℚ) / ((2 ^ (-f.exp2).toNat : Nat) : ℚ))
          = (((f.mant : Int) : ℚ) / ((2 ^ (-f.exp2).toNat : Nat) : ℚ)) := by
        push_cast
        rfl
      rw [hc, Rat.floor_intCast_div_natCast]
      push_cast
      rfl
  rw [hfl]
  unfold truncToInt64 at h ⊢
  simp only at h ⊢
  generalize (if 0 ≤ f.exp2 then f.mant * 2 ^ f.exp2.toNat
    else f.mant / 2 ^ (-f.exp2).toNat : Nat) = a at h ⊢
  cases hneg : f.neg
  · simp only [hneg, Bool.false_eq_true, if_false, one_mul] at h ⊢
    by_cases hin : -(2 ^ 63) ≤ (a : Int) ∧ (a : Int) < 2 ^ 63
    · rw [if_pos hin]
    · rw [if_neg hin] at h
      exact absurd rfl h
  · simp only [hneg, if_true, neg_mul, one_mul] at h ⊢
    by_cases hin : -(2 ^ 63) ≤ -(a : Int) ∧ -(a : Int) < 2 ^ 63
    · rw [if_pos hin]
    · rw [if_neg hin] at h
      exact absurd rfl h

/-- C2, as amended. For a 429 whose body is a JSON object, with no number too large for a
`float64`, and whose `retry_after` field (the last one, if the key is repeated) is a
number, the error carries `RetryAfter` equal to `t` seconds, where `t` is the `float64`
that `strconv.ParseFloat` reads from the number, truncated toward zero to a whole
number, provided `t` is at most 9223372036 in magnitude; so it is `n` seconds for a
number read as the whole number `n`. `RetryAfter` is 0 when the body is not a JSON
object, has no `retry_after` field, or has one that is not a number. -/
theorem NewAPIError_retryAfter (b : Bytes) :
    (∀ ms lit f, parseJSON b = some (.obj ms) → floatErrorMembers ms = false →
        AnyMap.lookup (some ms) (utf8 "retry_after") = some (.num lit) →
        parseFloat lit = some f →
        -9223372036 ≤ truncToInt64 f → truncToInt64 f ≤ 9223372036 →
        (NewAPIError 429 b).retryAfter = some (truncToInt64 f * second)
          ∧ truncToInt64 f = (if f.neg then -1 else 1) * ⌊f.magnitude⌋)
    ∧ (∀ ms lit (n : Int), parseJSON b = some (.obj ms) → floatErrorMembers ms = false →
        AnyMap.lookup (some ms) (utf8 "retry_after") = some (.num lit) →
        (decimalOf lit).value = (n : ℚ) → -9223372036 ≤ n → n ≤ 9223372036 →
        (NewAPIError 429 b).retryAfter = some (n * second))
    ∧ ((∀ ms, parseJSON b ≠ some (.obj ms)) → (NewAPIError 429 b).retryAfter = some 0)
    ∧ (∀ ms, parseJSON b = some (.obj ms) →
        AnyMap.lookup (some ms) (utf8 "retry_after") = none →
        (NewAPIError 429 b).retryAfter = some 0)
    ∧ (∀ ms v, parseJSON b = some (.obj ms) →
        AnyMap.lookup (some ms) (utf8 "retry_after") = some v → (∀ lit, v ≠ .num lit) →
        (NewAPIError 429 b).retryAfter = some 0) := by
  rw [NewAPIError_429]
  refine ⟨?_, ?_, ?_, ?_, ?_⟩
  · intro ms lit f hb hf hl hp h1 h2
    constructor
    · rw [parseRetryAfter_obj b ms hb, hf, hl]
      simp only [Bool.false_eq_true, if_false, asFloat64, hp]
      rw [wrapInt64_seconds _ h1 h2]
    · apply truncToInt64_floor
      intro h63
      rw [h63] at h1
      norm_num at h1
  · intro ms lit n hb hf hl hv h1 h2
    obtain ⟨f, hf1, hf2⟩ := parseFloat_whole lit n hv (by omega)
    rw [parseRetryAfter_obj b ms hb, hf, hl]
    simp only [Bool.false_eq_true, if_false, asFloat64, hf1, hf2]
    rw [wrapInt64_seconds n h1 h2]
  · intro h
    rw [parseRetryAfter_not_obj b h]
  · intro ms hb hl
    rw [parseRetryAfter_obj b ms hb, hl]
    simp
  · intro ms v hb hl hv
    rw [parseRetryAfter_obj b ms hb, hl]
    have : asFloat64 v = none := by
      cases v with
      | num lit => exact absurd rfl (hv lit)
      | null => rfl
      | bool _ => rfl
      | str _ => rfl
      | arr _ => rfl
      | obj _ => rfl
    simp [this]

/-- C2 at the body `{"retry_after":30,"error":{"code":429,"message":"slow down"}}`, where
the field is the number 30 and the error carries 30 seconds, and at the body
`{"retry_after":2.9}`, where the field is read as the `float64` nearest to 2.9 and the
error carries 2 seconds. -/
theorem NewAPIError_retryAfter_witness :
    (NewAPIError 429
        (utf8 "\x7b\"retry_after\":30,\"error\":\x7b\"code\":429,\"message\":\"slow down\"\x7d\x7d")).retryAfter
      = some (30 * second)
    ∧ (NewAPIError 429 (utf8 "\x7b\"retry_after\":2.9\x7d")).retryAfter
      = some (truncToInt64 ⟨false, 6530219459687219, -51⟩ * second)
    ∧ truncToInt64 ⟨false, 6530219459687219, -51⟩ = 2 :=
  ⟨(NewAPIError_retryAfter
      (utf8 "\x7b\"retry_after\":30,\"error\":\x7b\"code\":429,\"message\":\"slow down\"\x7d\x7d")).2.1
    [(utf8 "retry_after", .num (utf8 "30")),
      (utf8 "error", .obj [(utf8 "code", .num (utf8 "429")),
        (utf8 "message", .str (utf8 "slow down"))])]
    (utf8 "30") 30 (by rfl) (by decide) (by rfl)
    (by simp [Decimal.value, decimalOf, utf8, encodeRune, takeDigits, isDigit])
    (by norm_num) (by norm_num),
   ((NewAPIError_retryAfter (utf8 "\x7b\"retry_after\":2.9\x7d")).1
    [(utf8 "retry_after", .num (utf8 "2.9"))] (utf8 "2.9") ⟨false, 6530219459687219, -51⟩
    (by rfl) (by decide) (by rfl) (by rfl) (by decide) (by decide)).1,
   by decide⟩

/-- The exponent of a number literal counts no further than 10000, as in `strconv`: of
the exponent `123456` the first five digits are read. -/
theorem decimalOf_exponent_cut : (decimalOf (utf8 "1e123456")).exp10 = 12345 := by
  decide

/-- C2 as stated fails at the body `{"retry_after":1.5}`: the field is the number 1.5,
that is 1500000000 nanoseconds, and the error carries 1000000000 nanoseconds, one second. -/
theorem NewAPIError_retryAfter_fraction :
    parseJSON (utf8 "\x7b\"retry_after\":1.5\x7d")
        = some (.obj [(utf8 "retry_after", .num (utf8 "1.5"))])
      ∧ (decimalOf (utf8 "1.5")).value * 1000000000 = 1500000000
      ∧ (NewAPIError 429 (utf8 "\x7b\"retry_after\":1.5\x7d")).retryAfter = some 1000000000
      ∧ ((1000000000 : Int) : ℚ) ≠ (decimalOf (utf8 "1.5")).value * 1000000000 := by
  have hv : (decimalOf (utf8 "1.5")).value * 1000000000 = 1500000000 := by
    simp [Decimal.value, decimalOf, utf8, encodeRune, takeDigits, isDigit]
    norm_num
  refine ⟨by rfl, hv, by decide, ?_⟩
  rw [hv]
  norm_num
/-- The message `NewAPIError` takes from a body that decodes without error. -/
theorem NewAPIError_message_decoded (s : Int) (b : Bytes) (r : apiErrorResponse)
    (hu : unmarshalErrorResponse b ⟨⟨[], 0⟩⟩ = (none, r)) (hm : r.Error.Message ≠ []) :
    (NewAPIError s b).base.map (fun e => e.Message) = some r.Error.Message := by
  rw [NewAPIError_message, hu]
  simp [hm]

/-- C3, as amended. For every status code and every body that `json.Unmarshal` decodes
without error into the error response, leaving a message `m` that is not empty, the
error `NewAPIError` returns has `Message` equal to `m`, unchanged. Such is every body
that is a JSON object of the shape `{"error": {"code": c, "message": m}}`, the two
members in either order, with `m` a non-empty string and `c` either `null` or an integer
literal within the range of `int`. -/
theorem NewAPIError_message_of_error_body (s : Int) (b : Bytes) :
    (∀ r, unmarshalErrorResponse b ⟨⟨[], 0⟩⟩ = (none, r) → r.Error.Message ≠ [] →
        (NewAPIError s b).base.map (fun e => e.Message) = some r.Error.Message)
      ∧ (∀ c m,
        (parseJSON b = some (.obj [(utf8 "error",
            .obj [(utf8 "code", c), (utf8 "message", .str m)])])
          ∨ parseJSON b = some (.obj [(utf8 "error",
            .obj [(utf8 "message", .str m), (utf8 "code", c)])])) →
        m ≠ [] → (c = .null ∨ ∃ lit k, c = .num lit ∧ parseInt lit = some k) →
        (NewAPIError s b).base.map (fun e => e.Message) = some m) := by
  refine ⟨fun r hu hm => NewAPIError_message_decoded s b r hu hm, ?_⟩
  intro c m hb hm hc
  have h1 : fieldMatches "error" (utf8 "error") = true := by decide
  have h2 : fieldMatches "message" (utf8 "code") = false := by decide
  have h3 : fieldMatches "code" (utf8 "code") = true := by decide
  have h4 : fieldMatches "message" (utf8 "message") = true := by decide
  have h5 : fieldMatches "code" (utf8 "message") = false := by decide
  have hd : ∃ k, decodeInt c 0 = (k, false) := by
    rcases hc with hc | ⟨lit, k, hc, hk⟩
    · exact ⟨0, by rw [hc]; rfl⟩
    · exact ⟨k, by rw [hc]; simp [decodeInt, hk]⟩
  obtain ⟨k, hk⟩ := hd
  have hu : unmarshalErrorResponse b ⟨⟨[], 0⟩⟩ = (none, ⟨⟨m, k⟩⟩) := by
    unfold unmarshalErrorResponse
    rcases hb with hb | hb
    · rw [hb]
      simp [decodeErrorResponse, decodeResponseMember, decodeErrorBody, decodeErrorMember,
        decodeString, h1, h2, h3, h4, h5, hk]
    · rw [hb]
      simp [decodeErrorResponse, decodeResponseMember, decodeErrorBody, decodeErrorMember,
        decodeString, h1, h2, h3, h4, h5, hk]
  exact NewAPIError_message_decoded s b _ hu hm

/-- C3 at the body `{"error":{"message":"Domain not found","code":404}}` of a 404, the
message written first. -/
theorem NewAPIError_message_of_error_body_witness :
    (NewAPIError 404
        (utf8 "\x7b\"error\":\x7b\"message\":\"Domain not found\",\"code\":404\x7d\x7d")).base.map
        (fun e => e.Message)
      = some (utf8 "Domain not found") :=
  (NewAPIError_message_of_error_body 404
    (utf8 "\x7b\"error\":\x7b\"message\":\"Domain not found\",\"code\":404\x7d\x7d")).2
    (.num (utf8 "404")) (utf8 "Domain not found") (Or.inr (by rfl)) (by decide)
    (Or.inr ⟨utf8 "404", 404, rfl, by decide⟩)

/-- C3 as stated fails at the body `{"error":{"code":"E42","message":"Domain not found"}}`:
it has the shape, with a non-empty message, and the code is a string, which does not
decode into the `int` field; `json.Unmarshal` reports that, and the error carries the
message `unknown error`. -/
theorem NewAPIError_message_lost :
    parseJSON (utf8 "\x7b\"error\":\x7b\"code\":\"E42\",\"message\":\"Domain not found\"\x7d\x7d")
        = some (.obj [(utf8 "error", .obj [(utf8 "code", .str (utf8 "E42")),
            (utf8 "message", .str (utf8 "Domain not found"))])])
      ∧ (NewAPIError 404
          (utf8 "\x7b\"error\":\x7b\"code\":\"E42\",\"message\":\"Domain not found\"\x7d\x7d")).base.map
          (fun e => e.Message) = some (utf8 "unknown error")
      ∧ utf8 "unknown error" ≠ utf8 "Domain not found" :=
  ⟨by rfl, by decide, by decide⟩

/-! ## Properties of `Client.do` -/

/-- C5, as amended. Once the request has been sent and a response obtained: when the
body of the response is read without error and the status code is outside 200..299,
`Client.do` returns exactly `NewAPIError(status, body)` and leaves the output value as
it was; when reading the body fails, `Client.do` returns the error of the read, wrapped
with the text `read response`, whatever the status code; for a status code inside
200..299 the error it returns, if any, is not one of the API error types. -/
theorem do_status_error {σ α β : Type} (codec : Codec α β) (c : Client σ)
    (method path : Bytes) (body : Option α) (out : Option β) (w w1 : σ)
    (data : Option Bytes) (resp : Response)
    (hm : codec.encode body = .ok data)
    (hr : codec.newRequest method (c.baseURL ++ path) = none)
    (hd : c.httpClient (c.request method path body.isSome data) w = (.ok resp, w1)) :
    (∀ respBody, resp.Body = .ok respBody →
        (resp.StatusCode < 200 ∨ 300 ≤ resp.StatusCode) →
        c.do codec method path body out w
          = (some (NewAPIError resp.StatusCode respBody), out, w1))
    ∧ (∀ err, resp.Body = .error err →
        c.do codec method path body out w = (some (.wrapped "read response" err), out, w1))
    ∧ ((200 ≤ resp.StatusCode ∧ resp.StatusCode < 300) →
        ∀ e, (c.do codec method path body out w).1 = some e → e.base = none) := by
  refine ⟨?_, ?_, ?_⟩
  · intro respBody hb hs
    have hs2 : resp.StatusCode < 200 ∨ resp.StatusCode ≥ 300 := hs
    simp only [Client.do, hm, hr, hd, hb, hs2, if_true]
  · intro err hb
    simp only [Client.do, hm, hr, hd, hb]
  · intro hs e he
    have hs2 : ¬ (resp.StatusCode < 200 ∨ resp.StatusCode ≥ 300) := by omega
    cases hb : resp.Body with
    | error err =>
      simp only [Client.do, hm, hr, hd, hb, Option.some.injEq] at he
      rw [← he]
      rfl
    | ok respBody =>
      simp only [Client.do, hm, hr, hd, hb, hs2, if_false] at he
      cases out with
      | none => simp at he
      | some o =>
        simp only at he
        by_cases hl : respBody.length > 0
        · rw [if_pos hl] at he
          cases hu : codec.unmarshal respBody o with
          | mk err o1 =>
            rw [hu] at he
            cases err with
            | none => simp at he
            | some err =>
              simp only [Option.some.injEq] at he
              rw [← he]
              rfl
        · rw [if_neg hl] at he
          simp at he

/-- C5 at the reply of the mock server in `TestMockServer_APIError`: a 400 with the body
`{"message":"Bad request"}` comes back as `NewAPIError` of the two, the output untouched. -/
theorem do_status_error_witness :
    (NewClient (recorder (.ok ⟨400, .ok (utf8 "\x7b\"message\":\"Bad request\"\x7d")⟩))
        (utf8 "test-api-key")).do (paginationCodec fun _ _ => none) (utf8 "GET")
        (utf8 "/domains/bad.com") none (some ⟨0, 0, 0⟩) []
      = (some (NewAPIError 400 (utf8 "\x7b\"message\":\"Bad request\"\x7d")), some ⟨0, 0, 0⟩,
          [(NewClient (recorder (.ok ⟨400, .ok (utf8 "\x7b\"message\":\"Bad request\"\x7d")⟩))
            (utf8 "test-api-key")).request (utf8 "GET") (utf8 "/domains/bad.com") false none]) :=
  (do_status_error (paginationCodec fun _ _ => none)
      (NewClient (recorder (.ok ⟨400, .ok (utf8 "\x7b\"message\":\"Bad request\"\x7d")⟩))
        (utf8 "test-api-key"))
      (utf8 "GET") (utf8 "/domains/bad.com") none (some ⟨0, 0, 0⟩) [] _ none
      ⟨400, .ok (utf8 "\x7b\"message\":\"Bad request\"\x7d")⟩ rfl rfl rfl).1
    (utf8 "\x7b\"message\":\"Bad request\"\x7d") rfl (Or.inr (by decide))

/-- C5 as stated fails for a response with the status 500 whose body cannot be read, the
connection ending before the end of the body: `Client.do` returns the error of the read,
wrapped, which is not `NewAPIError` of the status and any body and is none of the API
error types. -/
theorem do_status_error_unread_body :
    (NewClient (recorder (.ok ⟨500, .error (.lib (utf8 "unexpected EOF"))⟩))
        (utf8 "test-api-key")).do (paginationCodec fun _ _ => none) (utf8 "GET")
        (utf8 "/domains") none (some ⟨0, 0, 0⟩) []
      = (some (.wrapped "read response" (.lib (utf8 "unexpected EOF"))), some ⟨0, 0, 0⟩,
          [(NewClient (recorder (.ok ⟨500, .ok []⟩)) (utf8 "test-api-key")).request
            (utf8 "GET") (utf8 "/domains") false none])
    ∧ (GoError.wrapped "read response" (.lib (utf8 "unexpected EOF"))).base = none
    ∧ ∀ body, (NewAPIError 500 body).base ≠ none := by
  refine ⟨by decide, rfl, ?_⟩
  intro body
  obtain ⟨e, he, _⟩ := NewAPIError_base 500 body
  rw [he]
  simp

/-- C6, as amended. For a 2xx response, once the request has been sent and a response
obtained: when the body is read without error, `Client.do` succeeds and leaves the
output value alone if the body is empty or no output is expected, and otherwise the
output becomes what `json.Unmarshal` leaves in it and the call succeeds exactly when
`json.Unmarshal` does, its error coming back wrapped; when reading the body fails,
`Client.do` fails with the error of the read, wrapped, and leaves the output alone. -/
theorem do_success {σ α β : Type} (codec : Codec α β) (c : Client σ)
    (method path : Bytes) (body : Option α) (out : Option β) (w w1 : σ)
    (data : Option Bytes) (resp : Response)
    (hm : codec.encode body = .ok data)
    (hr : codec.newRequest method (c.baseURL ++ path) = none)
    (hd : c.httpClient (c.request method path body.isSome data) w = (.ok resp, w1))
    (hs : 200 ≤ resp.StatusCode ∧ resp.StatusCode < 300) :
    (∀ respBody, resp.Body = .ok respBody → (respBody = [] ∨ out = none) →
        c.do codec method path body out w = (none, out, w1))
    ∧ (∀ respBody o, resp.Body = .ok respBody → out = some o → respBody ≠ [] →
        c.do codec method path body out w
          = ((codec.unmarshal respBody o).1.map (GoError.wrapped "decode response"),
              some (codec.unmarshal respBody o).2, w1))
    ∧ (∀ err, resp.Body = .error err →
        c.do codec method path body out w
          = (some (.wrapped "read response" err), out, w1)) := by
  have hs2 : ¬ (resp.StatusCode < 200 ∨ resp.StatusCode ≥ 300) := by omega
  refine ⟨?_, ?_, ?_⟩
  · intro respBody hb h
    simp only [Client.do, hm, hr, hd, hb, hs2, if_false]
    cases out with
    | none => rfl
    | some o =>
      rcases h with h | h
      · subst h; simp
      · cases h
  · intro respBody o hb ho hne
    subst ho
    have hl : respBody.length > 0 := List.length_pos.mpr hne
    simp only [Client.do, hm, hr, hd, hb, hs2, if_false, hl, if_true]
    cases hu : codec.unmarshal respBody o with
    | mk err o1 =>
      cases err <;> simp
  · intro err hb
    simp only [Client.do, hm, hr, hd, hb]

/-- C6 at a 200 whose body is `{"limit":50,"offset":0,"total":2}`, decoded into a
`Pagination`. -/
theorem do_success_witness :
    (NewClient (recorder (.ok ⟨200, .ok (utf8 "\x7b\"limit\":50,\"offset\":0,\"total\":2\x7d")⟩))
        (utf8 "test-api-key")).do (paginationCodec fun _ _ => none) (utf8 "GET")
        (utf8 "/domains") none (some ⟨0, 0, 0⟩) []
      = (none, some ⟨50, 0, 2⟩,
          [(NewClient (recorder (.ok ⟨200, .ok []⟩)) (utf8 "test-api-key")).request
            (utf8 "GET") (utf8 "/domains") false none]) :=
  ((do_success (paginationCodec fun _ _ => none)
      (NewClient (recorder (.ok ⟨200, .ok (utf8 "\x7b\"limit\":50,\"offset\":0,\"total\":2\x7d")⟩))
        (utf8 "test-api-key"))
      (utf8 "GET") (utf8 "/domains") none (some ⟨0, 0, 0⟩) [] _ none
      ⟨200, .ok (utf8 "\x7b\"limit\":50,\"offset\":0,\"total\":2\x7d")⟩ rfl rfl rfl
      (by decide)).2.1 (utf8 "\x7b\"limit\":50,\"offset\":0,\"total\":2\x7d") ⟨0, 0, 0⟩ rfl rfl
      (by decide)).trans (by decide)

/-- C6 as stated fails for a response with the status 204, no output being expected,
whose body cannot be read: `Client.do` does not succeed, it returns the error of the
read, wrapped. -/
theorem do_success_unread_body :
    (NewClient (recorder (.ok ⟨204, .error (.lib (utf8 "unexpected EOF"))⟩))
        (utf8 "test-api-key")).do (paginationCodec fun _ _ => none) (utf8 "DELETE")
        (utf8 "/domains/example.com") none none []
      = (some (.wrapped "read response" (.lib (utf8 "unexpected EOF"))), none,
          [(NewClient (recorder (.ok ⟨204, .ok []⟩)) (utf8 "test-api-key")).request
            (utf8 "DELETE") (utf8 "/domains/example.com") false none]) := by
  decide

/-- The three headers of the request `Client.do` builds. -/
theorem request_headers {σ : Type} (c : Client σ) (method path : Bytes) (hasBody : Bool)
    (bodyReader : Option Bytes) :
    (c.request method path hasBody bodyReader).header.get (utf8 "Authorization")
        = (if c.apiKey ≠ [] then some (utf8 "ApiKey " ++ c.apiKey) else none)
      ∧ (c.request method path hasBody bodyReader).header.get (utf8 "User-Agent")
        = (if c.userAgent ≠ [] then some c.userAgent else none)
      ∧ (c.request method path hasBody bodyReader).header.get (utf8 "Content-Type")
        = (if hasBody then some (utf8 "application/json") else none) := by
  have n1 : (utf8 "Content-Type" == utf8 "Authorization") = false := by decide
  have n2 : (utf8 "Content-Type" == utf8 "User-Agent") = false := by decide
  have n3 : (utf8 "Authorization" == utf8 "User-Agent") = false := by decide
  have n4 : (utf8 "Authorization" == utf8 "Content-Type") = false := by decide
  have n5 : (utf8 "User-Agent" == utf8 "Content-Type") = false := by decide
  have n6 : (utf8 "User-Agent" == utf8 "Authorization") = false := by decide
  cases hasBody <;> by_cases hk : c.apiKey = [] <;> by_cases hu : c.userAgent = [] <;>
    simp [Client.request, Header.set, Header.get, hk, hu, n1, n2, n3, n4, n5, n6,
      List.find?, List.filter]

/-- The requests `Client.do` hands to a recording transport. -/
theorem do_recorded {α β : Type} (codec : Codec α β) (reply : Except GoError Response)
    (apiKey baseURL userAgent method path : Bytes) (body : Option α) (out : Option β)
    (req : Request)
    (h : req ∈ (Client.do codec ⟨recorder reply, apiKey, baseURL, userAgent⟩ method path
      body out []).2.2) :
    ∃ data, req = (Client.request (⟨recorder reply, apiKey, baseURL, userAgent⟩ :
      Client (List Request)) method path body.isSome data) := by
  unfold Client.do at h
  cases hm : codec.encode body with
  | error err => rw [hm] at h; simp at h
  | ok data =>
    rw [hm] at h
    simp only at h
    cases hr : codec.newRequest method (baseURL ++ path) with
    | some err => rw [hr] at h; simp at h
    | none =>
      rw [hr] at h
      refine ⟨data, ?_⟩
      cases reply with
      | error err => simpa [recorder] using h
      | ok resp =>
        simp only [recorder, List.nil_append] at h
        cases hb : resp.Body with
        | error err => rw [hb] at h; simpa using h
        | ok respBody =>
          rw [hb] at h
          simp only at h
          split at h
          · simpa using h
          · cases out with
            | none => simpa using h
            | some o =>
              simp only at h
              split at h
              · cases hu : codec.unmarshal respBody o with
                | mk e o1 =>
                  rw [hu] at h
                  cases e <;> simpa using h
              · simpa using h

/-- C7. Every request `Client.do` hands to the transport carries
`Authorization: ApiKey <key>` exactly when the configured key is non-empty, goes out with
a `User-Agent` field, and carries `Content-Type: application/json` exactly when a payload
is present. The `User-Agent` is the configured user agent (`rr/dev` unless overridden)
when that is not empty; when it is empty the header is not set and `net/http` sends its
default. -/
theorem do_request_headers {α β : Type} (codec : Codec α β) (reply : Except GoError Response)
    (apiKey baseURL userAgent method path : Bytes) (body : Option α) (out : Option β)
    (req : Request)
    (h : req ∈ (Client.do codec ⟨recorder reply, apiKey, baseURL, userAgent⟩ method path
      body out []).2.2) :
    req.header.get (utf8 "Authorization")
        = (if apiKey ≠ [] then some (utf8 "ApiKey " ++ apiKey) else none)
      ∧ (∀ h2, ∃ ua, sentUserAgent h2 req = some ua)
      ∧ (userAgent ≠ [] → req.header.get (utf8 "User-Agent") = some userAgent)
      ∧ (userAgent = [] → ∀ h2, sentUserAgent h2 req = some (defaultUserAgent h2))
      ∧ req.header.get (utf8 "Content-Type")
        = (if body.isSome then some (utf8 "application/json") else none) := by
  obtain ⟨data, hreq⟩ := do_recorded codec reply apiKey baseURL userAgent method path body out
    req h
  rw [hreq]
  obtain ⟨h1, h2, h3⟩ := request_headers (⟨recorder reply, apiKey, baseURL, userAgent⟩ :
    Client (List Request)) method path body.isSome data
  simp only at h1 h2 h3
  refine ⟨h1, ?_, ?_, ?_, h3⟩
  · intro v
    unfold sentUserAgent
    rw [h2]
    by_cases hu : userAgent = []
    · simp [hu]
    · simp [hu]
  · intro hu
    rw [h2, if_pos hu]
  · intro hu v
    unfold sentUserAgent
    rw [h2]
    simp [hu]

/-- C7 for the client of `NewClient` with the key `test-api-key`, posting a `Pagination`:
the request sent carries the key, the default user agent `rr/dev` and the content type. -/
theorem do_request_headers_witness :
    ((NewClient (recorder (.ok ⟨200, .ok []⟩)) (utf8 "test-api-key")).request (utf8 "POST")
        (utf8 "/domains") true (some (marshalPagination ⟨50, 0, 2⟩))).header
      = [(utf8 "Content-Type", utf8 "application/json"),
          (utf8 "Authorization", utf8 "ApiKey test-api-key"),
          (utf8 "User-Agent", utf8 "rr/dev")]
    ∧ ((NewClient (recorder (.ok ⟨200, .ok []⟩)) (utf8 "test-api-key")).request (utf8 "POST")
        (utf8 "/domains") true (some (marshalPagination ⟨50, 0, 2⟩))).header.get
          (utf8 "User-Agent") = some (utf8 "rr/dev")
    ∧ sentUserAgent false ((NewClient (recorder (.ok ⟨200, .ok []⟩)) (utf8 "test-api-key")).request
        (utf8 "POST") (utf8 "/domains") true (some (marshalPagination ⟨50, 0, 2⟩)))
      = some (utf8 "rr/dev") :=
  ⟨by decide,
    ((do_request_headers (paginationCodec fun _ _ => none) (.ok ⟨200, .ok []⟩)
      (utf8 "test-api-key") ProductionURL (utf8 "rr/dev") (utf8 "POST") (utf8 "/domains")
      (some ⟨50, 0, 2⟩) none _ (by decide)).2.2.1 (by decide)).trans (by decide),
    by decide⟩

/-- C8, as amended. When the payload cannot be serialized, `Client.do` returns the
failure of `json.Marshal` wrapped with the text `marshal request`, whatever the transport:
the output value and the state of the network are as before, so nothing was sent. The
error is a wrapped error, not a `*ValidationError`. -/
theorem do_marshal_failure {σ α β : Type} (codec : Codec α β) (c : Client σ)
    (method path : Bytes) (b : α) (out : Option β) (w : σ) (err : GoError)
    (h : codec.marshal b = .error err) :
    c.do codec method path (some b) out w = (some (.wrapped "marshal request" err), out, w)
      ∧ (c.do codec method path (some b) out w).1.map GoError.type = some .wrapError := by
  have he : codec.encode (some b) = .error err := by
    simp [Codec.encode, h]
  have hd : c.do codec method path (some b) out w
      = (some (.wrapped "marshal request" err), out, w) := by
    simp only [Client.do, he]
  exact ⟨hd, by rw [hd]; rfl⟩

/-- C8 for a payload that holds a Go channel, sent through a recording transport: the
call fails and the record of requests stays empty. -/
theorem do_marshal_failure_witness :
    (NewClient (recorder (.ok ⟨200, .ok []⟩)) (utf8 "test-api-key")).do unsupportedCodec
        (utf8 "POST") (utf8 "/domains") (some ()) none []
      = (some (.wrapped "marshal request"
          (.lib (utf8 "json: unsupported type: chan int"))), none, []) :=
  (do_marshal_failure unsupportedCodec
    (NewClient (recorder (.ok ⟨200, .ok []⟩)) (utf8 "test-api-key"))
    (utf8 "POST") (utf8 "/domains") () none [] _ rfl).1

/-- C8 as stated fails for a payload that holds a Go channel: the error `Client.do`
returns is not a `*ValidationError` and wraps none, although nothing was sent. -/
theorem do_marshal_failure_not_validation :
    ((NewClient (recorder (.ok ⟨200, .ok []⟩)) (utf8 "test-api-key")).do unsupportedCodec
        (utf8 "POST") (utf8 "/domains") (some ()) none []).1.map
        (fun e => (e.type, e.as .ValidationError))
      = some (.wrapError, false)
    ∧ ((NewClient (recorder (.ok ⟨200, .ok []⟩)) (utf8 "test-api-key")).do unsupportedCodec
        (utf8 "POST") (utf8 "/domains") (some ()) none []).2.2 = [] := by
  decide

/-! ## The retry policy -/

/-- The class of a 4xx other than 429 is never retried. -/
theorem retryPolicy_client_error (cfg : RetryConfig) (attempt : Nat) (s : Int) (b : Bytes)
    (hs : 400 ≤ s ∧ s ≤ 499 ∧ s ≠ 429) :
    (retryPolicy cfg attempt (classify (NewAPIError s b))).shouldRetry = false := by
  unfold NewAPIError
  by_cases h1 : s = 401 ∨ s = 403
  · simp [h1, classify, retryPolicy]
  · by_cases h2 : s = 404
    · simp [h2, classify, retryPolicy]
    · have h3 : ¬ s = 429 := hs.2.2
      have h5 : ¬ (500 ≤ s ∧ s ≤ 599) := by omega
      simp [h1, h2, h3, classify, retryPolicy, h5]

/-- An attempt the policy does not retry is the last one. -/
theorem retryLoop_stop (cfg : RetryConfig) (left attempt : Nat) (req : Request) (w : Net)
    (kind : ErrorKind) (hk : attemptKind (Net.roundTrip req w).1 = some kind)
    (hp : (retryPolicy cfg attempt kind).shouldRetry = false) :
    retryLoop cfg left attempt req w = Net.roundTrip req w := by
  cases left with
  | zero => rfl
  | succ n => simp [retryLoop, hk, hp]

/-- No attempt of the retrying transport ends in the class `Validation`: the outcome of
a round trip is a transport failure or the class of `NewAPIError`. -/
theorem attemptKind_ne_validation (r : Except GoError Response) :
    attemptKind r ≠ some .validation := by
  unfold attemptKind
  cases r with
  | error e => simp
  | ok resp =>
    simp only
    split
    · cases resp.Body with
      | error e => simp
      | ok body =>
        simp only [ne_eq, Option.some.injEq]
        unfold NewAPIError
        by_cases h1 : resp.StatusCode = 401 ∨ resp.StatusCode = 403
        · simp [h1, classify]
        · by_cases h2 : resp.StatusCode = 404
          · simp [h2, classify]
          · by_cases h3 : resp.StatusCode = 429
            · simp [h3, classify]
            · simp [h1, h2, h3, classify]
    · simp

/-- C9. A request answered with 401, 403, 404 or any other 4xx except 429 is never
retried, whatever the attempt count and the ceiling: `RetryPolicy` declines at every
attempt number, for these classes and for `Validation`, and the call makes exactly one
round trip, waits for nothing, leaves the later replies unread and returns
`NewAPIError` of the first reply. No round trip ends in the class `Validation`. -/
theorem no_retry_of_client_error {α β : Type} (cfg : RetryConfig) (codec : Codec α β)
    (apiKey method path : Bytes) (body : Option α) (out : Option β) (data : Option Bytes)
    (s : Int) (respBody : Bytes) (rest : List (Except GoError Response))
    (hs : 400 ≤ s ∧ s ≤ 499 ∧ s ≠ 429)
    (hm : codec.encode body = .ok data)
    (hr : codec.newRequest method (ProductionURL ++ path) = none) :
    (∀ attempt, (retryPolicy cfg attempt (classify (NewAPIError s respBody))).shouldRetry = false)
    ∧ (∀ attempt, (retryPolicy cfg attempt .validation).shouldRetry = false)
    ∧ (NewClient (RetryTransport cfg) apiKey).do codec method path body out
          ⟨.ok ⟨s, .ok respBody⟩ :: rest, [], []⟩
        = (some (NewAPIError s respBody), out,
            ⟨rest, [(NewClient (RetryTransport cfg) apiKey).request method path body.isSome data],
              []⟩)
    ∧ (∀ r, attemptKind r ≠ some .validation) := by
  refine ⟨fun attempt => retryPolicy_client_error cfg attempt s respBody hs, fun _ => rfl, ?_,
    attemptKind_ne_validation⟩
  have hk : attemptKind (Net.roundTrip
      ((NewClient (RetryTransport cfg) apiKey).request method path body.isSome data)
      ⟨.ok ⟨s, .ok respBody⟩ :: rest, [], []⟩).1
      = some (classify (NewAPIError s respBody)) := by
    have : s < 200 ∨ s ≥ 300 := by omega
    simp [Net.roundTrip, attemptKind, this]
  have hl := retryLoop_stop cfg (cfg.maxAttempts - 1) 1 _ _ _ hk
    (retryPolicy_client_error cfg 1 s respBody hs)
  have hs2 : s < 200 ∨ s ≥ 300 := by omega
  have hurl : (NewClient (RetryTransport cfg) apiKey).baseURL = ProductionURL := rfl
  have hc : (NewClient (RetryTransport cfg) apiKey).httpClient = RetryTransport cfg := rfl
  simp only [Client.do, hm, hurl, hr, hc, RetryTransport, hl, Net.roundTrip, hs2, if_true,
    List.nil_append]

/-- C9 at the reply of the mock server in `TestMockServer_NotFoundError`, with a ceiling
of three attempts and a second reply that would succeed: one request is sent. -/
theorem no_retry_of_client_error_witness :
    (NewClient (RetryTransport ⟨3, 100, 1000, 50⟩) (utf8 "test-api-key")).do
        (paginationCodec fun _ _ => none) (utf8 "GET") (utf8 "/domains/notfound.com") none
        (some ⟨0, 0, 0⟩)
        ⟨[.ok ⟨404, .ok (utf8 "\x7b\"message\":\"Domain not found\"\x7d")⟩, .ok ⟨200, .ok []⟩],
          [], []⟩
      = (some (NewAPIError 404 (utf8 "\x7b\"message\":\"Domain not found\"\x7d")),
          some ⟨0, 0, 0⟩,
          ⟨[.ok ⟨200, .ok []⟩],
            [(NewClient (RetryTransport ⟨3, 100, 1000, 50⟩) (utf8 "test-api-key")).request
              (utf8 "GET") (utf8 "/domains/notfound.com") false none], []⟩) :=
  (no_retry_of_client_error ⟨3, 100, 1000, 50⟩ (paginationCodec fun _ _ => none)
    (utf8 "test-api-key") (utf8 "GET") (utf8 "/domains/notfound.com") none (some ⟨0, 0, 0⟩)
    none 404 (utf8 "\x7b\"message\":\"Domain not found\"\x7d") [.ok ⟨200, .ok []⟩]
    (by decide) rfl rfl).2.2.1

/-! ## The round trip of a `Pagination` through JSON -/

/-- The scanner over two pieces of input, one after the other. -/
theorem scan_append (a b : Bytes) : ∀ s : Scanner,
    scan s (a ++ b) = (scan s a).bind fun s1 => scan s1 b := by
  induction a with
  | nil => intro s; rfl
  | cons c a ih =>
    intro s
    simp only [List.cons_append, scan]
    cases step s c with
    | none => rfl
    | some s1 => simpa using ih s1

/-- The decimal text of a positive number: a digit from 1 to 9, then digits. -/
theorem formatNatAux_shape (f : Nat) : ∀ n acc, n < f → 0 < n →
    ∃ d ds, formatNatAux f n acc = d :: (ds ++ acc) ∧ 49 ≤ d ∧ d ≤ 57
      ∧ ∀ x ∈ ds, isDigit x = true := by
  induction f with
  | zero => intro n acc h; omega
  | succ f ih =>
    intro n acc h h0
    unfold formatNatAux
    by_cases h10 : n < 10
    · rw [if_pos h10]
      exact ⟨48 + n, [], rfl, by omega, by omega, by simp⟩
    · rw [if_neg h10]
      obtain ⟨d, ds, he, h1, h2, h3⟩ := ih (n / 10) ((48 + n % 10) :: acc) (by omega) (by omega)
      refine ⟨d, ds ++ [48 + n % 10], by rw [he]; simp, h1, h2, ?_⟩
      intro x hx
      rcases List.mem_append.mp hx with hx | hx
      · exact h3 x hx
      · have : x = 48 + n % 10 := by simpa using hx
        subst this
        have : n % 10 < 10 := Nat.mod_lt _ (by norm_num)
        simp [isDigit]
        omega

/-- Reading back the digits written in front of `acc`. -/
theorem parseDigitsAux_formatNatAux (f : Nat) : ∀ n acc a, n < f →
    ∃ k, parseDigitsAux a (formatNatAux f n acc) = parseDigitsAux (a * 10 ^ k + n) acc := by
  induction f with
  | zero => intro n acc a h; omega
  | succ f ih =>
    intro n acc a h
    unfold formatNatAux
    by_cases h10 : n < 10
    · rw [if_pos h10]
      refine ⟨1, ?_⟩
      have hd : isDigit (48 + n) = true := by simp [isDigit]; omega
      simp [parseDigitsAux, hd]
    · rw [if_neg h10]
      obtain ⟨k, hk⟩ := ih (n / 10) ((48 + n % 10) :: acc) a (by omega)
      refine ⟨k + 1, ?_⟩
      rw [hk]
      have hd : isDigit (48 + n % 10) = true := by
        have : n % 10 < 10 := Nat.mod_lt _ (by norm_num)
        simp [isDigit]; omega
      simp only [parseDigitsAux, hd, if_true]
      congr 1
      have : n / 10 * 10 + n % 10 = n := by omega
      rw [pow_succ]
      have e : 48 + n % 10 - 48 = n % 10 := by omega
      rw [e]
      calc (a * 10 ^ k + n / 10) * 10 + n % 10
          = a * (10 ^ k * 10) + (n / 10 * 10 + n % 10) := by ring
        _ = a * (10 ^ k * 10) + n := by rw [this]

/-- The decimal text of zero. -/
theorem formatNat_zero : formatNat 0 = [48] := by rfl

/-- The decimal text of a positive number: a digit from 1 to 9, then digits. -/
theorem formatNat_shape (n : Nat) (h0 : 0 < n) :
    ∃ d ds, formatNat n = d :: ds ∧ 49 ≤ d ∧ d ≤ 57 ∧ ∀ x ∈ ds, isDigit x = true := by
  obtain ⟨d, ds, he, h1, h2, h3⟩ := formatNatAux_shape (n + 1) n [] (by omega) h0
  exact ⟨d, ds, by simpa [formatNat] using he, h1, h2, h3⟩

/-- The decimal text of a natural number starts with a digit. -/
theorem formatNat_head (n : Nat) :
    ∃ d ds, formatNat n = d :: ds ∧ 48 ≤ d ∧ d ≤ 57 := by
  by_cases h0 : n = 0
  · subst h0
    exact ⟨48, [], formatNat_zero, by norm_num, by norm_num⟩
  · obtain ⟨d, ds, he, h1, h2, _⟩ := formatNat_shape n (by omega)
    exact ⟨d, ds, he, by omega, h2⟩

/-- The decimal text of a natural number reads back as the number. -/
theorem parseDigits_formatNat (n : Nat) : parseDigits (formatNat n) = some n := by
  obtain ⟨d, ds, he, _, _⟩ := formatNat_head n
  obtain ⟨k, hk⟩ := parseDigitsAux_formatNatAux (n + 1) n [] 0 (by omega)
  have hk2 : parseDigitsAux 0 (formatNat n) = some n := by
    unfold formatNat
    rw [hk]
    simp [parseDigitsAux]
  rw [he] at hk2 ⊢
  simpa [parseDigits] using hk2

/-- The call `strconv.ParseInt` reads the text of `strconv.AppendInt` back. -/
theorem parseInt_formatInt (x : Int) (hx : isInt64 x) : parseInt (formatInt x) = some x := by
  obtain ⟨h1, h2⟩ := hx
  unfold formatInt
  by_cases hneg : x < 0
  · rw [if_pos hneg]
    have hle : x.natAbs ≤ 2 ^ 63 := by omega
    simp only [parseInt, parseDigits_formatNat, Option.bind, hle, if_true]
    congr 1
    omega
  · rw [if_neg hneg]
    obtain ⟨d, ds, he, hd1, hd2⟩ := formatNat_head x.natAbs
    have hp := parseDigits_formatNat x.natAbs
    rw [he] at hp ⊢
    have hlt : x.natAbs < 2 ^ 63 := by omega
    have e45 : d ≠ 45 := by omega
    have e43 : d ≠ 43 := by omega
    unfold parseInt
    split
    · rename_i heq
      simp only [List.cons.injEq] at heq
      exact absurd heq.1 e45
    · rename_i heq
      simp only [List.cons.injEq] at heq
      exact absurd heq.1 e43
    · rw [hp]
      simp only [Option.bind, hlt, if_true]
      congr 1
      omega
/-- The scanner on a first byte. -/
theorem scan_cons (s : Scanner) (c : Nat) (rest : Bytes) :
    scan s (c :: rest) = (step s c).bind fun s1 => scan s1 rest := rfl

/-- The scanner inside the digits of a number, up to the byte that ends it. -/
theorem scan_one (stk : List Frame) (c : Nat) (rest : Bytes)
    (hc : isDigit c = false) (h46 : c ≠ 46) (h101 : c ≠ 101) (h69 : c ≠ 69) :
    ∀ ds lit, (∀ x ∈ ds, isDigit x = true) →
      scan ⟨.one lit, stk, none⟩ (ds ++ c :: rest)
        = (endNumber (ds.reverse ++ lit) stk c).bind fun s => scan s rest := by
  intro ds
  induction ds with
  | nil =>
    intro lit _
    rw [List.nil_append, scan_cons]
    simp [step, hc, h46, h101, h69]
  | cons d ds ih =>
    intro lit hd
    have h1 : isDigit d = true := hd d (List.mem_cons_self _ _)
    have h2 : ∀ x ∈ ds, isDigit x = true := fun x hx => hd x (List.mem_cons_of_mem _ hx)
    have hs : step ⟨.one lit, stk, none⟩ d = some ⟨.one (d :: lit), stk, none⟩ := by
      simp [step, h1]
    rw [List.cons_append, scan_cons, hs, Option.some_bind, ih (d :: lit) h2]
    simp

/-- The scanner over the digits of a natural number that continue a literal begun with
`lit`, from a state that takes a first digit as the states `stateBeginValue` and
`stateNeg` do. -/
theorem scan_digits (stk : List Frame) (c : Nat) (rest : Bytes)
    (hc : isDigit c = false) (h46 : c ≠ 46) (h101 : c ≠ 101) (h69 : c ≠ 69)
    (n : Nat) (lit : Bytes) (s0 : Scanner)
    (hzero : step s0 48 = some ⟨.zero (48 :: lit), stk, none⟩)
    (hone : ∀ d, 49 ≤ d → d ≤ 57 → step s0 d = some ⟨.one (d :: lit), stk, none⟩) :
    scan s0 (formatNat n ++ c :: rest)
      = (endNumber ((formatNat n).reverse ++ lit) stk c).bind fun s => scan s rest := by
  by_cases h0 : n = 0
  · subst h0
    have hs : step ⟨.zero (48 :: lit), stk, none⟩ c = endNumber (48 :: lit) stk c := by
      simp [step, h46, h101, h69]
    rw [formatNat_zero, List.cons_append, List.nil_append, scan_cons, hzero, Option.some_bind,
      scan_cons, hs]
    simp
  · obtain ⟨d, ds, he, h1, h2, h3⟩ := formatNat_shape n (by omega)
    rw [he, List.cons_append, scan_cons, hone d h1 h2, Option.some_bind,
      scan_one stk c rest hc h46 h101 h69 ds (d :: lit) h3]
    simp

/-- The scanner over the text of an integer where a value begins, up to the byte that
ends the number. -/
theorem scan_int (stk : List Frame) (c : Nat) (rest : Bytes)
    (hc : isDigit c = false) (h46 : c ≠ 46) (h101 : c ≠ 101) (h69 : c ≠ 69) (x : Int) :
    scan ⟨.beginValue, stk, none⟩ (formatInt x ++ c :: rest)
      = (endNumber (formatInt x).reverse stk c).bind fun s => scan s rest := by
  unfold formatInt
  by_cases hneg : x < 0
  · rw [if_pos hneg]
    have hstart : step ⟨.beginValue, stk, none⟩ 45 = some ⟨.neg [45], stk, none⟩ := by
      simp [step, beginValue, isSpace]
    rw [List.cons_append, scan_cons, hstart, Option.some_bind,
      scan_digits stk c rest hc h46 h101 h69 x.natAbs [45] ⟨.neg [45], stk, none⟩
      (by simp [step]) (by
        intro d h1 h2
        have : d ≠ 48 := by omega
        simp [step, this, h1, h2])]
    simp
  · rw [if_neg hneg]
    rw [scan_digits stk c rest hc h46 h101 h69 x.natAbs [] ⟨.beginValue, stk, none⟩
      (by simp [step, beginValue, isSpace]) (by
        intro d h1 h2
        have e1 : d ≠ 32 := by omega
        have e2 : d ≠ 9 := by omega
        have e3 : d ≠ 13 := by omega
        have e4 : d ≠ 10 := by omega
        have e5 : d ≠ 123 := by omega
        have e6 : d ≠ 91 := by omega
        have e7 : d ≠ 34 := by omega
        have e8 : d ≠ 45 := by omega
        have e9 : d ≠ 48 := by omega
        have e10 : d ≠ 116 := by omega
        have e11 : d ≠ 102 := by omega
        have e12 : d ≠ 110 := by omega
        simp [step, beginValue, isSpace, e1, e2, e3, e4, e5, e6, e7, e8, e9, e10, e11, e12,
          h1, h2])]
    simp
/-- The scanner at the end of a number that is the value of an object member and is
followed by a comma. -/
theorem endNumber_comma (lit key : Bytes) (ms : List (Bytes × JSON)) :
    endNumber lit [.obj ms (some key)] 44
      = some ⟨.beginString, [.obj ((key, .num lit.reverse) :: ms) none], none⟩ := by
  simp [endNumber, deliver, afterValue, isSpace]

/-- The scanner at the end of a number that is the value of the last member of the
top-level object. -/
theorem endNumber_close (lit key : Bytes) (ms : List (Bytes × JSON)) :
    endNumber lit [.obj ms (some key)] 125
      = some ⟨.endTop, [], some (.obj ((key, .num lit.reverse) :: ms).reverse)⟩ := by
  simp [endNumber, deliver, afterValue, isSpace]

/-- The document `json.Marshal` writes for a `Pagination`, as the scanner reads it. -/
theorem parseJSON_marshalPagination (p : Pagination) :
    parseJSON (marshalPagination p)
      = some (.obj [(utf8 "limit", .num (formatInt p.Limit)),
          (utf8 "offset", .num (formatInt p.Offset)),
          (utf8 "total", .num (formatInt p.Total))]) := by
  have hA : scan ⟨.beginValue, [], none⟩ (utf8 "\x7b\"limit\":")
      = some ⟨.beginValue, [.obj [] (some (utf8 "limit"))], none⟩ := by rfl
  have hB : ∀ ms, scan ⟨.beginString, [.obj ms none], none⟩ (utf8 "\"offset\":")
      = some ⟨.beginValue, [.obj ms (some (utf8 "offset"))], none⟩ := fun _ => by rfl
  have hC : ∀ ms, scan ⟨.beginString, [.obj ms none], none⟩ (utf8 "\"total\":")
      = some ⟨.beginValue, [.obj ms (some (utf8 "total"))], none⟩ := fun _ => by rfl
  have e1 : utf8 ",\"offset\":" = 44 :: utf8 "\"offset\":" := by rfl
  have e2 : utf8 ",\"total\":" = 44 :: utf8 "\"total\":" := by rfl
  have e3 : utf8 "\x7d" = [125] := by rfl
  have hform : marshalPagination p
      = utf8 "\x7b\"limit\":" ++ (formatInt p.Limit ++ 44 :: (utf8 "\"offset\":"
          ++ (formatInt p.Offset ++ 44 :: (utf8 "\"total\":"
          ++ (formatInt p.Total ++ 125 :: []))))) := by
    unfold marshalPagination
    rw [e1, e2, e3]
    simp only [List.append_assoc, List.cons_append]
  have d44 : isDigit 44 = false := by decide
  have d125 : isDigit 125 = false := by decide
  unfold parseJSON
  rw [hform, scan_append, hA, Option.some_bind,
    scan_int _ 44 _ d44 (by decide) (by decide) (by decide), endNumber_comma, Option.some_bind,
    scan_append, hB, Option.some_bind,
    scan_int _ 44 _ d44 (by decide) (by decide) (by decide), endNumber_comma, Option.some_bind,
    scan_append, hC, Option.some_bind,
    scan_int _ 125 _ d125 (by decide) (by decide) (by decide), endNumber_close,
    Option.some_bind]
  simp [scan, finish]

/-- Decoding what `json.Marshal` wrote for a `Pagination` gives the value back. -/
theorem unmarshalPagination_marshalPagination (p init : Pagination)
    (h1 : isInt64 p.Limit) (h2 : isInt64 p.Offset) (h3 : isInt64 p.Total) :
    unmarshalPagination (marshalPagination p) init = (none, p) := by
  have f1 : fieldMatches "limit" (utf8 "limit") = true := by decide
  have f2 : fieldMatches "limit" (utf8 "offset") = false := by decide
  have f3 : fieldMatches "offset" (utf8 "offset") = true := by decide
  have f4 : fieldMatches "limit" (utf8 "total") = false := by decide
  have f5 : fieldMatches "offset" (utf8 "total") = false := by decide
  have f6 : fieldMatches "total" (utf8 "total") = true := by decide
  unfold unmarshalPagination
  rw [parseJSON_marshalPagination]
  simp [decodePagination, decodePaginationMember, decodeInt, f1, f2, f3, f4, f5, f6,
    parseInt_formatInt _ h1, parseInt_formatInt _ h2, parseInt_formatInt _ h3]

/-- C10. For every pagination value `p` whose fields are in the range of `int`: when
`Client.do` serializes `p` as the request payload and the server answers with a 2xx whose
body is those very bytes, `Client.do` succeeds and the output value it decodes is equal to
`p` in every field, whatever the output value held before. -/
theorem pagination_roundtrip (p init : Pagination) (newRequest : Bytes → Bytes → Option GoError)
    (apiKey baseURL userAgent method path : Bytes) (status : Int) (sent : List Request)
    (h1 : isInt64 p.Limit) (h2 : isInt64 p.Offset) (h3 : isInt64 p.Total)
    (hs : 200 ≤ status ∧ status < 300)
    (hr : newRequest method (baseURL ++ path) = none) :
    (Client.do (paginationCodec newRequest) ⟨echo status, apiKey, baseURL, userAgent⟩ method
        path (some p) (some init) sent).1 = none
      ∧ (Client.do (paginationCodec newRequest) ⟨echo status, apiKey, baseURL, userAgent⟩ method
        path (some p) (some init) sent).2.1 = some p
      ∧ ∃ req, req.body = some (marshalPagination p)
        ∧ (Client.do (paginationCodec newRequest) ⟨echo status, apiKey, baseURL, userAgent⟩
          method path (some p) (some init) sent).2.2 = sent ++ [req] := by
  have hs2 : ¬ (status < 200 ∨ status ≥ 300) := by omega
  have hlen : (marshalPagination p).length > 0 := by
    unfold marshalPagination
    simp [utf8, encodeRune]
  have hrt := unmarshalPagination_marshalPagination p init h1 h2 h3
  have hdo : Client.do (paginationCodec newRequest) ⟨echo status, apiKey, baseURL, userAgent⟩
      method path (some p) (some init) sent
      = (none, some p, sent ++ [Client.request (⟨echo status, apiKey, baseURL, userAgent⟩ :
          Client (List Request)) method path true (some (marshalPagination p))]) := by
    simp only [Client.do, Codec.encode, paginationCodec, hr, echo, Client.request,
      Option.isSome_some, Option.getD_some, hs2, if_false, hlen, if_true, hrt]
  rw [hdo]
  exact ⟨rfl, rfl, _, rfl, rfl⟩

/-- C10 at the pagination of `TestMockServer_ListDomains`, limit 50 and total 2. -/
theorem pagination_roundtrip_witness :
    (Client.do (paginationCodec fun _ _ => none)
        ⟨echo 200, utf8 "test-api-key", ProductionURL, utf8 "rr/dev"⟩ (utf8 "POST")
        (utf8 "/echo") (some ⟨50, 0, 2⟩) (some ⟨7, 7, 7⟩) []).2.1 = some ⟨50, 0, 2⟩ :=
  (pagination_roundtrip ⟨50, 0, 2⟩ ⟨7, 7, 7⟩ (fun _ _ => none) (utf8 "test-api-key")
    ProductionURL (utf8 "rr/dev") (utf8 "POST") (utf8 "/echo") 200 []
    (by unfold isInt64; decide) (by unfold isInt64; decide) (by unfold isInt64; decide)
    (by decide) rfl).2.1

/-! ## Properties of `parseCheckResponse` -/

/-- What `parseCheckResponse` returns for a line with two fields or more. -/
theorem parseCheckResponse_ok (resp : Bytes) (h : 2 ≤ (Fields (TrimSpace resp)).length) :
    parseCheckResponse resp = .ok
      { Domain := (SplitN2 ((Fields (TrimSpace resp)).getD 0 [])).getD 0 [],
        TLD := if (SplitN2 ((Fields (TrimSpace resp)).getD 0 [])).length > 1
          then (SplitN2 ((Fields (TrimSpace resp)).getD 0 [])).getD 1 [] else [],
        Available := (Fields (TrimSpace resp)).getD 1 [] == utf8 "AVAILABLE",
        Price :=
          if (Fields (TrimSpace resp)).length ≥ 3
              ∧ ((Fields (TrimSpace resp)).getD 1 [] == utf8 "AVAILABLE") = true then
            match strconvParseFloat ((Fields (TrimSpace resp)).getD 2 []) with
            | some price => price
            | none => F64.zero
          else F64.zero } := by
  have h2 : ¬ (Fields (TrimSpace resp)).length < 2 := by omega
  simp only [parseCheckResponse, h2, if_false]

/-- C13. `parseCheckResponse` fails if and only if the response line, trimmed and split
on white space as the function splits it, has fewer than two fields, and every line with
two fields or more yields a result; the empty line and a line of white space fail. -/
theorem parseCheckResponse_fails_iff (resp : Bytes) :
    ((∃ err, parseCheckResponse resp = .error err) ↔ (Fields (TrimSpace resp)).length < 2)
      ∧ ((∃ r, parseCheckResponse resp = .ok r) ↔ 2 ≤ (Fields (TrimSpace resp)).length)
      ∧ (∃ err, parseCheckResponse [] = .error err)
      ∧ (∃ err, parseCheckResponse (utf8 " \t \r\n") = .error err) := by
  refine ⟨?_, ?_, ⟨_, rfl⟩, ⟨.lib (utf8 "invalid IsProxy response: "), by decide⟩⟩
  · constructor
    · rintro ⟨err, he⟩
      by_contra hc
      rw [parseCheckResponse_ok resp (by omega)] at he
      cases he
    · intro h
      refine ⟨.lib (utf8 "invalid IsProxy response: " ++ TrimSpace resp), ?_⟩
      simp only [parseCheckResponse, h, if_true]
  · constructor
    · rintro ⟨r, hr⟩
      by_contra hc
      have h : (Fields (TrimSpace resp)).length < 2 := by omega
      simp only [parseCheckResponse, h, if_true] at hr
      cases hr
    · intro h
      exact ⟨_, parseCheckResponse_ok resp h⟩

/-- C12. For every response line with at least two fields whose second field is not
exactly `AVAILABLE`, `parseCheckResponse` succeeds with `Available` false and the price
unset, whatever the fields that follow. -/
theorem parseCheckResponse_not_available (resp : Bytes)
    (h : 2 ≤ (Fields (TrimSpace resp)).length)
    (hs : (Fields (TrimSpace resp)).getD 1 [] ≠ utf8 "AVAILABLE") :
    ∃ r, parseCheckResponse resp = .ok r ∧ r.Available = false ∧ r.Price = F64.zero := by
  have hb : ((Fields (TrimSpace resp)).getD 1 [] == utf8 "AVAILABLE") = false := by
    simpa using hs
  refine ⟨_, parseCheckResponse_ok resp h, ?_, ?_⟩
  · simp only [hb]
  · simp only [hb, Bool.false_eq_true, and_false, if_false]

/-- C12 at the lines `example.com TAKEN`, `example.com available 9.95` and
`example.com TAKEN 9.95`. -/
theorem parseCheckResponse_not_available_witness :
    parseCheckResponse (utf8 "example.com TAKEN\r\n")
        = .ok ⟨utf8 "example", utf8 "com", false, F64.zero⟩
      ∧ parseCheckResponse (utf8 "example.com available 9.95\r\n")
        = .ok ⟨utf8 "example", utf8 "com", false, F64.zero⟩
      ∧ ∃ r, parseCheckResponse (utf8 "example.com TAKEN 9.95\r\n") = .ok r
          ∧ r.Available = false ∧ r.Price = F64.zero :=
  ⟨by decide, by decide,
    parseCheckResponse_not_available (utf8 "example.com TAKEN 9.95\r\n") (by decide) (by decide)⟩

/-- Cutting at the first dot a text with a dot in it. -/
theorem cutByte_append (sep : Nat) (a b : Bytes) (h : sep ∉ a) :
    cutByte sep (a ++ sep :: b) = (a, some b) := by
  induction a with
  | nil => simp [cutByte]
  | cons c a ih =>
    have hc : c ≠ sep := fun e => h (e ▸ List.mem_cons_self _ _)
    have ha : sep ∉ a := fun e => h (List.mem_cons_of_mem _ e)
    simp [cutByte, hc, ih ha]

/-- Cutting at the first dot a text without a dot. -/
theorem cutByte_none (sep : Nat) (a : Bytes) (h : sep ∉ a) : cutByte sep a = (a, none) := by
  induction a with
  | nil => rfl
  | cons c a ih =>
    have hc : c ≠ sep := fun e => h (e ▸ List.mem_cons_self _ _)
    have ha : sep ∉ a := fun e => h (List.mem_cons_of_mem _ e)
    simp [cutByte, hc, ih ha]

/-- The two parts of a text with a dot in it. -/
theorem SplitN2_dot (a b : Bytes) (h : 46 ∉ a) : SplitN2 (a ++ 46 :: b) = [a, b] := by
  simp [SplitN2, cutByte_append 46 a b h]

/-- The one part of a text without a dot. -/
theorem SplitN2_no_dot (a : Bytes) (h : 46 ∉ a) : SplitN2 a = [a] := by
  simp [SplitN2, cutByte_none 46 a h]

/-- C14. For every response line with at least two fields, the domain of the result is
what stands in the first field before its first dot and the TLD is everything after that
dot, dots included; when the first field has no dot the domain is the whole field and
the TLD is empty. -/
theorem parseCheckResponse_domain_tld (resp : Bytes)
    (h : 2 ≤ (Fields (TrimSpace resp)).length) :
    ∃ r, parseCheckResponse resp = .ok r
      ∧ (∀ a b, (Fields (TrimSpace resp)).getD 0 [] = a ++ 46 :: b → 46 ∉ a →
          r.Domain = a ∧ r.TLD = b)
      ∧ (46 ∉ (Fields (TrimSpace resp)).getD 0 [] →
          r.Domain = (Fields (TrimSpace resp)).getD 0 [] ∧ r.TLD = []) := by
  refine ⟨_, parseCheckResponse_ok resp h, ?_, ?_⟩
  · intro a b hab ha
    dsimp only
    rw [hab, SplitN2_dot a b ha]
    simp
  · intro hn
    dsimp only
    rw [SplitN2_no_dot _ hn]
    simp

/-- C14 at the lines `shop.co.uk TAKEN` and `localhost TAKEN`. -/
theorem parseCheckResponse_domain_tld_witness :
    (∃ r, parseCheckResponse (utf8 "shop.co.uk TAKEN\r\n") = .ok r
        ∧ r.Domain = utf8 "shop" ∧ r.TLD = utf8 "co.uk")
      ∧ parseCheckResponse (utf8 "localhost TAKEN\r\n")
        = .ok ⟨utf8 "localhost", [], false, F64.zero⟩ := by
  refine ⟨?_, by decide⟩
  obtain ⟨r, hr, h1, _⟩ := parseCheckResponse_domain_tld (utf8 "shop.co.uk TAKEN\r\n") (by decide)
  exact ⟨r, hr, h1 (utf8 "shop") (utf8 "co.uk") (by decide) (by decide)⟩

/-- The digit loop of `readFloat` over a run of decimal digits. -/
theorem readMantissa_digits (rest : Bytes) : ∀ (ds : Bytes) (m : Mantissa),
    (∀ c ∈ ds, isDigit c = true) →
    readMantissa false m (ds ++ rest)
      = readMantissa false
          { m with value := ds.foldl (fun acc c => acc * 10 + (c - 48)) m.value,
                   fracDigits := if m.sawDot then m.fracDigits + ds.length else m.fracDigits,
                   sawDigits := m.sawDigits || !ds.isEmpty } rest := by
  intro ds
  induction ds with
  | nil =>
    intro m _
    simp
  | cons d ds ih =>
    intro m hd
    have h1 : isDigit d = true := hd d (List.mem_cons_self _ _)
    have h2 : ∀ c ∈ ds, isDigit c = true := fun c hc => hd c (List.mem_cons_of_mem _ hc)
    have h95 : d ≠ 95 := by
      intro e; rw [e] at h1; exact absurd h1 (by decide)
    have h46 : d ≠ 46 := by
      intro e; rw [e] at h1; exact absurd h1 (by decide)
    rw [List.cons_append, readMantissa]
    simp only [h95, h46, h1, if_false, if_true, Bool.false_eq_true]
    rw [ih _ h2]
    congr 1
    cases hs : m.sawDot <;> simp [hs, Nat.add_assoc, Nat.add_comm 1]

/-- A byte that is a decimal digit. -/
theorem isDigit_iff (c : Nat) : isDigit c = true ↔ 48 ≤ c ∧ c ≤ 57 := by
  simp [isDigit]

/-- The text of a decimal number does not start an infinity or a `nan`. -/
theorem special_digit (d : Nat) (rest : Bytes) (h : isDigit d = true) :
    special (d :: rest) = none := by
  obtain ⟨h1, h2⟩ := (isDigit_iff d).mp h
  have e1 : d ≠ 43 := by omega
  have e2 : d ≠ 45 := by omega
  have e3 : ¬ (d = 105 ∨ d = 73) := by omega
  have e4 : ¬ (d = 110 ∨ d = 78) := by omega
  simp [special, e1, e2, e3, e4]

/-- The value `strconv.ParseFloat` returns for a decimal number written with digits
and at most one point: the `float64` nearest to it. -/
theorem strconvParseFloat_plainDecimal (ip fp : Bytes) (hip : ip ≠ [])
    (hipd : ∀ c ∈ ip, isDigit c = true) (hfpd : ∀ c ∈ fp, isDigit c = true) :
    strconvParseFloat (plainDecimal ip fp)
      = nearestFloat64 false (digitsValue (ip ++ fp)) (10 ^ fp.length) := by
  obtain ⟨d, ds, rfl⟩ := List.exists_cons_of_ne_nil hip
  have hd : isDigit d = true := hipd d (List.mem_cons_self _ _)
  have hds : ∀ c ∈ ds, isDigit c = true := fun c hc => hipd c (List.mem_cons_of_mem _ hc)
  obtain ⟨hd1, hd2⟩ := (isDigit_iff d).mp hd
  have e43 : d ≠ 43 := by omega
  have e45 : d ≠ 45 := by omega
  -- the text, as a first digit followed by the rest
  obtain ⟨tail, htail, hnohex⟩ : ∃ tail, plainDecimal (d :: ds) fp = d :: tail
      ∧ ∀ x a b, tail = x :: a :: b → lowerByte x ≠ 120 := by
    unfold plainDecimal
    by_cases hfp : fp = []
    · refine ⟨ds, by simp [hfp], ?_⟩
      intro x a b hx
      have : isDigit x = true := hds x (by rw [hx]; exact List.mem_cons_self _ _)
      obtain ⟨x1, x2⟩ := (isDigit_iff x).mp this
      unfold lowerByte
      split <;> omega
    · refine ⟨ds ++ 46 :: fp, by simp [hfp], ?_⟩
      intro x a b hx
      have hx2 : isDigit x = true ∨ x = 46 := by
        cases ds with
        | nil =>
          simp only [List.nil_append, List.cons.injEq] at hx
          exact Or.inr hx.1.symm
        | cons y ys =>
          simp only [List.cons_append, List.cons.injEq] at hx
          exact Or.inl (hx.1 ▸ hds y (List.mem_cons_self _ _))
      unfold lowerByte
      rcases hx2 with hx2 | hx2
      · obtain ⟨x1, x2⟩ := (isDigit_iff x).mp hx2
        split <;> omega
      · subst hx2; decide
  have hval : (readMantissa false ⟨0, 0, false, false, false⟩ (plainDecimal (d :: ds) fp))
      = (⟨digitsValue (d :: ds ++ fp), fp.length, !fp.isEmpty, true, false⟩, []) := by
    unfold plainDecimal digitsValue
    by_cases hfp : fp = []
    · subst hfp
      have := readMantissa_digits [] (d :: ds) ⟨0, 0, false, false, false⟩ hipd
      simp only [List.append_nil] at this
      rw [if_pos rfl, this]
      simp [readMantissa]
    · rw [if_neg hfp, readMantissa_digits (46 :: fp) (d :: ds) ⟨0, 0, false, false, false⟩ hipd]
      rw [readMantissa]
      simp only [show (46 : Nat) ≠ 95 by decide, if_false, if_true, Bool.false_eq_true]
      have := readMantissa_digits [] fp
        ⟨List.foldl (fun acc c => acc * 10 + (c - 48)) 0 (d :: ds), 0, true,
          false || !(d :: ds).isEmpty, false⟩ hfpd
      simp only [List.append_nil] at this
      rw [this]
      simp [readMantissa, hfp, List.foldl_append]
  have hsign : readSign (d :: tail) = (false, d :: tail) := by
    unfold readSign
    split
    · rename_i heq; simp only [List.cons.injEq] at heq; exact absurd heq.1 e43
    · rename_i heq; simp only [List.cons.injEq] at heq; exact absurd heq.1 e45
    · rfl
  have hhex : hasHexPrefix (d :: tail) = false := by
    unfold hasHexPrefix
    split
    · rename_i x a b heq
      simp only [List.cons.injEq] at heq
      simpa using hnohex x a b heq.2
    · rfl
  unfold strconvParseFloat
  rw [htail, special_digit d tail hd]
  simp only [hsign, hhex, Bool.false_eq_true, if_false]
  rw [← htail, hval]
  simp only [readExponent, Bool.false_eq_true, if_false, ne_eq, not_true_eq_false,
    Bool.or_self, Bool.false_and, Int.Nat.cast_ofNat_Int]
  by_cases hfp : fp = []
  · subst hfp
    simp
  · have hlen : 0 < fp.length := List.length_pos.mpr hfp
    have hneg : ¬ ((0 : Int) ≤ 0 - (fp.length : Int)) := by omega
    have hto : (-(0 - (fp.length : Int))).toNat = fp.length := by omega
    simp only [hneg, if_false, hto]
    simp

/-- C11, as amended. For every response line whose fields are `<name>.<tld>`,
`AVAILABLE` and `<price>`, with `<price>` a decimal number written with digits and at
most one point whose nearest `float64` is finite, `parseCheckResponse` succeeds with
the domain `<name>`, the TLD `<tld>`, `Available` true and the price that `float64`. -/
theorem parseCheckResponse_available_price (resp name tld ip fp : Bytes) (f : F64)
    (hparts : Fields (TrimSpace resp) = [name ++ 46 :: tld, utf8 "AVAILABLE", plainDecimal ip fp])
    (hname : 46 ∉ name) (hip : ip ≠ [])
    (hipd : ∀ c ∈ ip, isDigit c = true) (hfpd : ∀ c ∈ fp, isDigit c = true)
    (hf : nearestFloat64 false (digitsValue (ip ++ fp)) (10 ^ fp.length) = some f) :
    parseCheckResponse resp
      = .ok { Domain := name, TLD := tld, Available := true, Price := f } := by
  rw [parseCheckResponse_ok resp (by rw [hparts]; simp), hparts]
  have hav : (utf8 "AVAILABLE" == utf8 "AVAILABLE") = true := by decide
  simp [SplitN2_dot name tld hname, strconvParseFloat_plainDecimal ip fp hip hipd hfpd, hf, hav]

/-- C11 at the line `example.com AVAILABLE 9.95`: the price is the `float64` nearest to
9.95, which is 5601352036542054 / 2 ^ 49. -/
theorem parseCheckResponse_available_price_witness :
    parseCheckResponse (utf8 "example.com AVAILABLE 9.95\r\n")
      = .ok { Domain := utf8 "example", TLD := utf8 "com", Available := true,
              Price := .finite ⟨false, 5601352036542054, -49⟩ } :=
  parseCheckResponse_available_price (utf8 "example.com AVAILABLE 9.95\r\n") (utf8 "example")
    (utf8 "com") (utf8 "9") (utf8 "95") _ (by decide) (by decide) (by decide) (by decide)
    (by decide) (by decide)

set_option maxRecDepth 100000 in
/-- C11 as stated fails at the line `example.com AVAILABLE 1000...0` whose price is a 1
followed by 309 zeros, a decimal number too large for a `float64`: `strconv.ParseFloat`
reports a range error and the price is left unset. -/
theorem parseCheckResponse_price_out_of_range :
    Fields (TrimSpace (utf8 "example.com AVAILABLE 1" ++ List.replicate 309 48 ++ utf8 "\r\n"))
        = [utf8 "example.com", utf8 "AVAILABLE", plainDecimal (49 :: List.replicate 309 48) []]
      ∧ parseCheckResponse (utf8 "example.com AVAILABLE 1" ++ List.replicate 309 48 ++ utf8 "\r\n")
        = .ok { Domain := utf8 "example", TLD := utf8 "com", Available := true,
                Price := F64.zero } := by
  constructor <;> decide

/-! ## Properties of the bulk-check client -/

/-- An entry without a dot is one part. -/
theorem SplitN2_length_no_dot (full : Bytes) (h : 46 ∉ full) : (SplitN2 full).length ≠ 2 := by
  rw [SplitN2_no_dot full h]
  simp

/-- An entry with a dot, cut at its first dot. -/
theorem exists_cut_of_mem (sep : Nat) : ∀ s : Bytes, sep ∈ s →
    ∃ a b, s = a ++ sep :: b ∧ sep ∉ a := by
  intro s
  induction s with
  | nil => intro h; cases h
  | cons c s ih =>
    intro h
    by_cases hc : c = sep
    · exact ⟨[], s, by simp [hc], by simp⟩
    · have hs : sep ∈ s := by
        rcases List.mem_cons.mp h with h | h
        · exact absurd h.symm hc
        · exact h
      obtain ⟨a, b, hab, ha⟩ := ih hs
      refine ⟨c :: a, b, by simp [hab], ?_⟩
      intro hm
      rcases List.mem_cons.mp hm with hm | hm
      · exact hc hm.symm
      · exact ha hm

/-- On a client with a connection, `Check` returns, and the connection stays. -/
theorem Check_connected (c : IsProxyClient) (k : Conn) (domain tld : Bytes)
    (hc : c.conn = some k) :
    ∃ r k1, c.Check domain tld = .ret (r, { c with conn := some k1 }) := by
  unfold IsProxyClient.Check
  rw [hc]
  simp only
  cases hw : k.write (utf8 "CHECK " ++ domain ++ utf8 " " ++ tld ++ utf8 "\r\n") with
  | mk e k1 =>
    cases e with
    | some err => exact ⟨_, k1, rfl⟩
    | none =>
      simp only
      cases hr : k1.readString with
      | mk r k2 =>
        cases r with
        | error err => exact ⟨_, k2, rfl⟩
        | ok resp => exact ⟨_, k2, rfl⟩

/-- On a client with a connection, the loop of `CheckMany` returns. -/
theorem checkManyLoop_connected (quote : Bytes → Bytes) : ∀ (entries : List Bytes)
    (acc : List IsProxyResult) (c : IsProxyClient) (k : Conn), c.conn = some k →
    ∃ r k1, checkManyLoop quote entries acc c = .ret (r, { c with conn := some k1 }) := by
  intro entries
  induction entries with
  | nil =>
    intro acc c k hc
    refine ⟨(some acc, none), k, ?_⟩
    simp only [checkManyLoop, ← hc]
  | cons full rest ih =>
    intro acc c k hc
    unfold checkManyLoop
    by_cases hlen : (SplitN2 full).length ≠ 2
    · rw [if_pos hlen]
      refine ⟨(none, some (invalidDomainFormat quote full)), k, ?_⟩
      simp only [← hc, invalidDomainFormat]
    · rw [if_neg hlen]
      obtain ⟨r, k1, hr⟩ := Check_connected c k ((SplitN2 full).getD 0 [])
        ((SplitN2 full).getD 1 []) hc
      rw [hr]
      cases r with
      | error err => exact ⟨_, k1, rfl⟩
      | ok result =>
        simp only
        obtain ⟨r2, k2, hr2⟩ := ih (acc ++ [result]) { c with conn := some k1 } k1 rfl
        exact ⟨r2, k2, hr2⟩

/-- The loop of `CheckMany` over entries the first malformed of which is `bad`: the loop
over the entries before it, and if that comes through, nil and the error. -/
theorem checkManyLoop_malformed (quote : Bytes → Bytes) (bad : Bytes) (post : List Bytes)
    (hbad : 46 ∉ bad) : ∀ (pre : List Bytes) (acc : List IsProxyResult) (c : IsProxyClient),
    checkManyLoop quote (pre ++ bad :: post) acc c
      = match checkManyLoop quote pre acc c with
        | .ret ((some _, none), c1) => .ret ((none, some (invalidDomainFormat quote bad)), c1)
        | r => r := by
  intro pre
  induction pre with
  | nil =>
    intro acc c
    simp [checkManyLoop, SplitN2_length_no_dot bad hbad, invalidDomainFormat]
  | cons full rest ih =>
    intro acc c
    rw [List.cons_append]
    unfold checkManyLoop
    by_cases hlen : (SplitN2 full).length ≠ 2
    · rw [if_pos hlen, if_pos hlen]
    · rw [if_neg hlen, if_neg hlen]
      cases hch : c.Check ((SplitN2 full).getD 0 []) ((SplitN2 full).getD 1 []) with
      | panic => rfl
      | ret p =>
        obtain ⟨r, c1⟩ := p
        cases r with
        | error err => rfl
        | ok result => exact ih (acc ++ [result]) c1

/-- C15, as amended. For every input list with an entry `bad` that has no dot, on a
client with a connection, `CheckMany` fails, and it leaves the client as `CheckMany` on
the entries before `bad` leaves it: no CHECK line is written for `bad` or for an entry
after it, while the entries before it are checked first. -/
theorem CheckMany_stops_at_malformed (quote : Bytes → Bytes) (c : IsProxyClient) (k : Conn)
    (pre post : List Bytes) (bad : Bytes) (hc : c.conn = some k) (hbad : 46 ∉ bad) :
    ∃ rs err c1 r0, c.CheckMany quote (pre ++ bad :: post) = .ret ((rs, some err), c1)
      ∧ c.CheckMany quote pre = .ret (r0, c1) := by
  unfold IsProxyClient.CheckMany
  rw [checkManyLoop_malformed quote bad post hbad pre [] c]
  obtain ⟨r, k1, hr⟩ := checkManyLoop_connected quote pre [] c k hc
  rw [hr]
  obtain ⟨rs, err⟩ := r
  cases rs with
  | none =>
    cases err with
    | none =>
      -- the loop returns nil only along with an error
      exfalso
      have key : ∀ (entries : List Bytes) (acc : List IsProxyResult) (c0 c2 : IsProxyClient),
          checkManyLoop quote entries acc c0 ≠ .ret ((none, none), c2) := by
        intro entries
        induction entries with
        | nil => intro acc c0 c2 h; simp [checkManyLoop] at h
        | cons full rest ih =>
          intro acc c0 c2 h
          unfold checkManyLoop at h
          by_cases hlen : (SplitN2 full).length ≠ 2
          · simp [hlen] at h
          · simp only [hlen, if_false] at h
            cases hch : c0.Check ((SplitN2 full).getD 0 []) ((SplitN2 full).getD 1 []) with
            | panic => rw [hch] at h; cases h
            | ret p =>
              obtain ⟨r, c3⟩ := p
              rw [hch] at h
              cases r with
              | error e => simp at h
              | ok result => exact ih _ _ _ h
      exact key pre [] c _ hr
    | some e => exact ⟨_, e, _, _, rfl, rfl⟩
  | some rs =>
    cases err with
    | none => exact ⟨_, _, _, _, rfl, rfl⟩
    | some e => exact ⟨_, e, _, _, rfl, rfl⟩

/-- C15 at the list `a.com`, `bad` against a server that answers the first check: the
call fails, nothing beyond the check of `a.com` was sent. -/
theorem CheckMany_stops_at_malformed_witness :
    ∃ rs err c1 r0,
      (IsProxyClient.mk (some (server [utf8 "a.com AVAILABLE 9.95\r\n"])) (utf8 "key")).CheckMany
          quotePlain ([utf8 "a.com"] ++ utf8 "bad" :: []) = .ret ((rs, some err), c1)
        ∧ (IsProxyClient.mk (some (server [utf8 "a.com AVAILABLE 9.95\r\n"]))
            (utf8 "key")).CheckMany quotePlain [utf8 "a.com"] = .ret (r0, c1) :=
  CheckMany_stops_at_malformed quotePlain _ (server [utf8 "a.com AVAILABLE 9.95\r\n"])
    [utf8 "a.com"] [] (utf8 "bad") rfl (by decide)

/-- C15 as stated fails at the list `a.com`, `bad` against a server that answers the
first check: `CheckMany` fails, and the line `CHECK a com` has been written. -/
theorem CheckMany_writes_before_malformed :
    (match (IsProxyClient.mk (some (server [utf8 "a.com AVAILABLE 9.95\r\n"]))
        (utf8 "key")).CheckMany quotePlain [utf8 "a.com", utf8 "bad"] with
      | .ret ((_, err), c1) => (err.isSome, c1.conn.map fun k => k.written)
      | .panic => (false, none))
      = (true, some [utf8 "CHECK a com\r\n"]) := by
  decide

/-- The two parts of an entry with a dot, as `CheckMany` and `checksInOrder` take them. -/
theorem SplitN2_of_mem (full : Bytes) (h : 46 ∈ full) :
    (SplitN2 full).length = 2 ∧ (SplitN2 full).getD 0 [] = (cutByte 46 full).1
      ∧ (SplitN2 full).getD 1 [] = (cutByte 46 full).2.getD [] := by
  obtain ⟨a, b, hab, ha⟩ := exists_cut_of_mem 46 full h
  rw [hab, SplitN2_dot a b ha, cutByte_append 46 a b ha]
  simp

/-- The loop of `CheckMany` over well-formed entries adds to the results so far what the
checks in order give. -/
theorem checkManyLoop_in_order (quote : Bytes → Bytes) : ∀ (entries : List Bytes)
    (acc : List IsProxyResult) (c : IsProxyClient), (∀ e ∈ entries, 46 ∈ e) →
    checkManyLoop quote entries acc c
      = match checksInOrder entries c with
        | .panic => .panic
        | .ret ((rs, err), c1) => .ret ((some (acc ++ rs), err), c1) := by
  intro entries
  induction entries with
  | nil =>
    intro acc c _
    simp [checkManyLoop, checksInOrder]
  | cons full rest ih =>
    intro acc c hwf
    obtain ⟨h1, h2, h3⟩ := SplitN2_of_mem full (hwf full (List.mem_cons_self _ _))
    have hrest : ∀ e ∈ rest, 46 ∈ e := fun e he => hwf e (List.mem_cons_of_mem _ he)
    unfold checkManyLoop checksInOrder
    have hlen : ¬ (SplitN2 full).length ≠ 2 := by simp [h1]
    rw [if_neg hlen, h2, h3]
    cases hch : c.Check (cutByte 46 full).1 ((cutByte 46 full).2.getD []) with
    | panic => rfl
    | ret p =>
      obtain ⟨r, c1⟩ := p
      cases r with
      | error err => simp
      | ok result =>
        simp only
        rw [ih (acc ++ [result]) c1 hrest]
        cases checksInOrder rest c1 with
        | panic => rfl
        | ret q =>
          obtain ⟨⟨rs, err⟩, c2⟩ := q
          simp

/-- The checks in order against a connection that is open, lets every write through and
has a well-formed reply for each entry: every request line is written, in order, and
every reply gives its result. -/
theorem checksInOrder_all_answered : ∀ (entries lines : List Bytes) (rs : List IsProxyResult)
    (c : IsProxyClient) (k : Conn) (more : List (Except GoError Bytes)),
    c.conn = some k → k.closed = false → k.writeErrors = [] →
    k.reads = lines.map .ok ++ more → entries.length = lines.length →
    List.Forall₂ (fun line r => parseCheckResponse line = .ok r) lines rs →
    checksInOrder entries c
      = .ret ((rs, none),
          { c with conn := some { k with
              reads := more,
              written := k.written ++ entries.map fun e =>
                checkLine (cutByte 46 e).1 ((cutByte 46 e).2.getD []) } }) := by
  intro entries
  induction entries with
  | nil =>
    intro lines rs c k more hc _ _ hreads hlen hall
    have hl : lines = [] := List.length_eq_zero.mp hlen.symm
    subst hl
    cases hall
    simp only [List.map_nil, List.nil_append] at hreads
    simp only [checksInOrder, List.map_nil, List.append_nil]
    congr
    cases c
    simp only at hc
    subst hc
    cases k
    simp only at hreads
    subst hreads
    rfl
  | cons e entries ih =>
    intro lines rs c k more hc hopen hwr hreads hlen hall
    cases lines with
    | nil => simp at hlen
    | cons line lines =>
      cases hall with
      | cons hline hrest =>
        rename_i r rs
        simp only [List.map_cons, List.cons_append] at hreads
        simp only [List.length_cons, Nat.add_right_cancel_iff] at hlen
        unfold checksInOrder
        have hcheck : c.Check (cutByte 46 e).1 ((cutByte 46 e).2.getD [])
            = .ret (.ok r, { c with conn := some { k with
                reads := lines.map .ok ++ more,
                written := k.written
                  ++ [checkLine (cutByte 46 e).1 ((cutByte 46 e).2.getD [])] } }) := by
          simp [IsProxyClient.Check, hc, Conn.write, hopen, hwr, Conn.readString, hreads, hline,
            checkLine]
        rw [hcheck]
        simp only
        rw [ih lines rs
          { c with conn := some { k with
              reads := lines.map .ok ++ more,
              written := k.written
                ++ [checkLine (cutByte 46 e).1 ((cutByte 46 e).2.getD [])] } }
          { k with
              reads := lines.map .ok ++ more,
              written := k.written
                ++ [checkLine (cutByte 46 e).1 ((cutByte 46 e).2.getD [])] }
          more rfl hopen hwr rfl hlen hrest]
        simp

/-- C16. For every list of entries that each hold a dot, `CheckMany` makes the checks one
after the other in input order on the one connection and returns the results of the
checks before the first that fails, in input order, with the error of that check; when no
check fails it returns one result for each entry, in order, and no error, and the
request lines stand on the connection in input order. -/
theorem CheckMany_in_order (quote : Bytes → Bytes) (c : IsProxyClient) (entries : List Bytes)
    (hwf : ∀ e ∈ entries, 46 ∈ e) :
    c.CheckMany quote entries
        = (match checksInOrder entries c with
          | .panic => .panic
          | .ret ((rs, err), c1) => .ret ((some rs, err), c1))
      ∧ (∀ (lines : List Bytes) (rs : List IsProxyResult) (k : Conn)
          (more : List (Except GoError Bytes)),
          c.conn = some k → k.closed = false → k.writeErrors = [] →
          k.reads = lines.map .ok ++ more → entries.length = lines.length →
          List.Forall₂ (fun line r => parseCheckResponse line = .ok r) lines rs →
          c.CheckMany quote entries
            = .ret ((some rs, none),
                { c with conn := some { k with
                    reads := more,
                    written := k.written ++ entries.map fun e =>
                      checkLine (cutByte 46 e).1 ((cutByte 46 e).2.getD []) } })) := by
  have h1 := checkManyLoop_in_order quote entries [] c hwf
  simp only [List.nil_append] at h1
  refine ⟨h1, ?_⟩
  intro lines rs k more hc hopen hwr hreads hlen hall
  unfold IsProxyClient.CheckMany
  rw [h1, checksInOrder_all_answered entries lines rs c k more hc hopen hwr hreads hlen hall]

/-- C16 at the list `a.com`, `b.com` against a server that answers the first check and
then ends the connection: the first result comes back with the error of the second
check, and both request lines were written in order. -/
theorem CheckMany_in_order_witness :
    (match (IsProxyClient.mk (some (server [utf8 "a.com AVAILABLE 9.95\r\n"]))
        (utf8 "key")).CheckMany quotePlain [utf8 "a.com", utf8 "b.com"] with
      | .ret ((rs, err), c1) => (rs, err, c1.conn.map fun k => k.written)
      | .panic => (none, none, none))
      = (some [⟨utf8 "a", utf8 "com", true, .finite ⟨false, 5601352036542054, -49⟩⟩],
          some (.wrapped "read CHECK response" EOF),
          some [utf8 "CHECK a com\r\n", utf8 "CHECK b com\r\n"]) := by
  rw [(CheckMany_in_order quotePlain
    (IsProxyClient.mk (some (server [utf8 "a.com AVAILABLE 9.95\r\n"])) (utf8 "key"))
    [utf8 "a.com", utf8 "b.com"] (by decide)).1]
  decide

/-- C17, as amended. When `CheckMany` stops at an entry without a dot, it returns nil
together with the invalid-domain-format error: the results gathered for the entries
before it are not returned. -/
theorem CheckMany_malformed_returns_nil (quote : Bytes → Bytes) (c c1 : IsProxyClient)
    (pre post : List Bytes) (bad : Bytes) (rs : List IsProxyResult) (hbad : 46 ∉ bad)
    (hpre : c.CheckMany quote pre = .ret ((some rs, none), c1)) :
    c.CheckMany quote (pre ++ bad :: post)
      = .ret ((none, some (invalidDomainFormat quote bad)), c1) := by
  unfold IsProxyClient.CheckMany at hpre ⊢
  rw [checkManyLoop_malformed quote bad post hbad pre [] c, hpre]

/-- C17 at the list `a.com`, `bad` against a server that answers the first check. -/
theorem CheckMany_malformed_returns_nil_witness :
    (IsProxyClient.mk (some (server [utf8 "a.com AVAILABLE 9.95\r\n"]))
        (utf8 "key")).CheckMany quotePlain ([utf8 "a.com"] ++ utf8 "bad" :: [])
      = .ret ((none, some (invalidDomainFormat quotePlain (utf8 "bad"))),
          IsProxyClient.mk (some ⟨[], [], none, [utf8 "CHECK a com\r\n"], false, 0⟩)
            (utf8 "key")) :=
  CheckMany_malformed_returns_nil quotePlain _ _ [utf8 "a.com"] [] (utf8 "bad")
    [⟨utf8 "a", utf8 "com", true, .finite ⟨false, 5601352036542054, -49⟩⟩] (by decide) (by rfl)

/-- C17 as stated fails at the list `a.com`, `bad` against a server that answers the
first check: the check of `a.com` gave a result, and `CheckMany` returns nil with the
error, not that result. -/
theorem CheckMany_drops_partial_results :
    (match (IsProxyClient.mk (some (server [utf8 "a.com AVAILABLE 9.95\r\n"]))
        (utf8 "key")).CheckMany quotePlain [utf8 "a.com"] with
      | .ret ((rs, err), _) => (rs, err)
      | .panic => (none, none))
        = (some [⟨utf8 "a", utf8 "com", true, .finite ⟨false, 5601352036542054, -49⟩⟩], none)
    ∧ (match (IsProxyClient.mk (some (server [utf8 "a.com AVAILABLE 9.95\r\n"]))
        (utf8 "key")).CheckMany quotePlain [utf8 "a.com", utf8 "bad"] with
      | .ret ((rs, err), _) => (rs, err.isSome)
      | .panic => (none, false))
        = (none, true) := by
  constructor <;> decide

/-- C18, as amended. `CheckMany` accepts an entry exactly when it holds a dot, and cuts
it at the first one. An entry with no dot is rejected with the invalid-domain-format
error and nothing is sent for it: the client is as before. An entry with one dot or
more is checked, with what stands before the first dot as the name and everything after
it, further dots included, as the TLD. -/
theorem CheckMany_accepts_iff_dot (quote : Bytes → Bytes) (c : IsProxyClient) (full : Bytes)
    (rest : List Bytes) :
    ((SplitN2 full).length = 2 ↔ 46 ∈ full)
      ∧ (46 ∉ full →
          c.CheckMany quote (full :: rest)
            = .ret ((none, some (invalidDomainFormat quote full)), c))
      ∧ (∀ name tld, full = name ++ 46 :: tld → 46 ∉ name →
          c.CheckMany quote (full :: rest)
            = match c.Check name tld with
              | .panic => .panic
              | .ret (.error err, c1) => .ret ((some [], some err), c1)
              | .ret (.ok result, c1) => checkManyLoop quote rest [result] c1) := by
  refine ⟨?_, ?_, ?_⟩
  · constructor
    · intro h
      by_contra hn
      exact SplitN2_length_no_dot full hn h
    · intro h
      exact (SplitN2_of_mem full h).1
  · intro h
    have hlen := SplitN2_length_no_dot full h
    simp only [IsProxyClient.CheckMany, checkManyLoop, hlen, if_true, invalidDomainFormat,
      ne_eq, not_false_eq_true]
  · intro name tld hfull hname
    have hs : SplitN2 full = [name, tld] := by rw [hfull]; exact SplitN2_dot name tld hname
    have hlen : ¬ (SplitN2 full).length ≠ 2 := by simp [hs]
    unfold IsProxyClient.CheckMany
    rw [checkManyLoop, if_neg hlen, hs]
    simp only [List.getD_cons_zero, List.getD_cons_succ, List.nil_append]

/-- C18 at the lists `bad` and `shop.example.com`: the first is rejected and nothing is
written, the second is checked as the name `shop` under the TLD `example.com`. -/
theorem CheckMany_accepts_iff_dot_witness :
    (IsProxyClient.mk (some (server [])) (utf8 "key")).CheckMany quotePlain [utf8 "bad"]
        = .ret ((none, some (invalidDomainFormat quotePlain (utf8 "bad"))),
            IsProxyClient.mk (some (server [])) (utf8 "key"))
      ∧ ((SplitN2 (utf8 "shop.example.com")).length = 2 ↔ 46 ∈ utf8 "shop.example.com") :=
  ⟨(CheckMany_accepts_iff_dot quotePlain (IsProxyClient.mk (some (server [])) (utf8 "key"))
      (utf8 "bad") []).2.1 (by decide),
    (CheckMany_accepts_iff_dot quotePlain (IsProxyClient.mk (some (server [])) (utf8 "key"))
      (utf8 "shop.example.com") []).1⟩

/-- C18 as stated fails at the entry `a.co.uk`, which has more than one dot: it is not
rejected; the line `CHECK a co.uk` is written and the result comes back without error. -/
theorem CheckMany_accepts_two_dots :
    (match (IsProxyClient.mk (some (server [utf8 "a.co.uk TAKEN\r\n"]))
        (utf8 "key")).CheckMany quotePlain [utf8 "a.co.uk"] with
      | .ret ((rs, err), c1) => (rs, err, c1.conn.map fun k => k.written)
      | .panic => (none, none, none))
      = (some [⟨utf8 "a", utf8 "co.uk", false, F64.zero⟩], none,
          some [utf8 "CHECK a co.uk\r\n"]) := by
  decide

/-- A write leaves the connection open or closed as it was. -/
theorem Conn.write_state (k : Conn) (data : Bytes) :
    (k.write data).2.closed = k.closed ∧ (k.write data).2.closeCalls = k.closeCalls
      ∧ (k.write data).2.closeError = k.closeError ∧ (k.write data).2.reads = k.reads := by
  unfold Conn.write
  split
  · exact ⟨rfl, rfl, rfl, rfl⟩
  · split <;> exact ⟨rfl, rfl, rfl, rfl⟩

/-- A read leaves the connection open or closed as it was. -/
theorem Conn.readString_state (k : Conn) :
    k.readString.2.closed = k.closed ∧ k.readString.2.closeCalls = k.closeCalls
      ∧ k.readString.2.closeError = k.closeError := by
  unfold Conn.readString
  split
  · exact ⟨rfl, rfl, rfl⟩
  · split <;> exact ⟨rfl, rfl, rfl⟩

/-- Closing an open connection. -/
theorem Conn.close_open (k : Conn) (h : k.closed = false) :
    k.close.1 = k.closeError ∧ k.close.2.closed = true
      ∧ k.close.2.closeCalls = k.closeCalls + 1 ∧ k.close.2.written = k.written := by
  simp [Conn.close, h]

/-- The method `Close` on a client with an open connection: the connection is closed,
and stays with the client. -/
theorem Close_open (c : IsProxyClient) (k : Conn) (hc : c.conn = some k)
    (hopen : k.closed = false) :
    ∃ k1, c.Close = (k.closeError, { c with conn := some k1 }) ∧ k1.closed = true
      ∧ k1.closeCalls = k.closeCalls + 1 := by
  obtain ⟨w1, w2, w3, _⟩ := Conn.write_state k (utf8 "QUIT\r\n")
  obtain ⟨c1, c2, c3, _⟩ := Conn.close_open (k.write (utf8 "QUIT\r\n")).2 (by rw [w1, hopen])
  refine ⟨(k.write (utf8 "QUIT\r\n")).2.close.2, ?_, c2, by rw [c3, w2]⟩
  unfold IsProxyClient.Close
  rw [hc]
  simp only [c1, w3]

/-- The method `auth` on a client with a connection leaves the connection open or closed
as it was. -/
theorem auth_state (c : IsProxyClient) (conn : Conn) :
    ∃ r k0, IsProxyClient.auth { c with conn := some conn } = .ret (r, { c with conn := some k0 })
      ∧ k0.closed = conn.closed ∧ k0.closeCalls = conn.closeCalls := by
  obtain ⟨w1, w2, _, _⟩ := Conn.write_state conn (utf8 "AUTH " ++ c.apiKey ++ utf8 "\r\n")
  obtain ⟨r1, r2, _⟩ := Conn.readString_state
    (conn.write (utf8 "AUTH " ++ c.apiKey ++ utf8 "\r\n")).2
  unfold IsProxyClient.auth
  simp only
  cases hw : conn.write (utf8 "AUTH " ++ c.apiKey ++ utf8 "\r\n") with
  | mk e k1 =>
    rw [hw] at w1 w2 r1 r2
    simp only at w1 w2 r1 r2
    cases e with
    | some err => exact ⟨_, k1, rfl, w1, w2⟩
    | none =>
      simp only
      cases hr : k1.readString with
      | mk r k2 =>
        rw [hr] at r1 r2
        simp only at r1 r2
        cases r with
        | error err => exact ⟨_, k2, rfl, by rw [r1, w1], by rw [r2, w2]⟩
        | ok resp =>
          simp only
          split
          · exact ⟨_, k2, rfl, by rw [r1, w1], by rw [r2, w2]⟩
          · exact ⟨_, k2, rfl, by rw [r1, w1], by rw [r2, w2]⟩

/-- The method `auth` fails when the write of the AUTH line fails, and when the reply,
trimmed, is not `OK`. -/
theorem auth_fails (c : IsProxyClient) (conn : Conn) (hopen : conn.closed = false)
    (hfail : (∃ e, conn.writeErrors.head? = some (some e))
      ∨ ∀ line, conn.reads.head? = some (.ok line) → TrimSpace line ≠ utf8 "OK")
    (c1 : IsProxyClient) :
    IsProxyClient.auth { c with conn := some conn } ≠ .ret (none, c1) := by
  obtain ⟨w1, _, _, w4⟩ := Conn.write_state conn (utf8 "AUTH " ++ c.apiKey ++ utf8 "\r\n")
  unfold IsProxyClient.auth
  simp only
  cases hw : conn.write (utf8 "AUTH " ++ c.apiKey ++ utf8 "\r\n") with
  | mk e k1 =>
    rw [hw] at w1 w4
    simp only at w1 w4
    cases e with
    | some err => simp
    | none =>
      rcases hfail with ⟨e, he⟩ | hreply
      · exfalso
        unfold Conn.write at hw
        rw [if_neg (by simp [hopen])] at hw
        cases hwe : conn.writeErrors with
        | nil => rw [hwe] at he; simp at he
        | cons x xs =>
          rw [hwe] at he hw
          simp only [List.head?_cons, Option.some.injEq] at he
          subst he
          simp at hw
      · simp only
        have hk1 : k1.closed = false := by rw [w1, hopen]
        simp only [Conn.readString, hk1, Bool.false_eq_true, if_false, w4]
        cases hr : conn.reads with
        | nil => simp
        | cons r rs =>
          cases r with
          | error err => simp
          | ok line =>
            have hne : TrimSpace line ≠ utf8 "OK" := hreply line (by rw [hr]; rfl)
            simp [hne]

/-- C19, as amended. On an open connection on which the AUTH line cannot be sent, or
whose reply to it, with the white space around it removed as `strings.TrimSpace` removes
it, is anything but `OK`, or that gives no reply or a read error, `Connect` returns an
error, and before it returns the connection has been closed, once; the client is left
with that closed connection. -/
theorem Connect_failure_closes (c : IsProxyClient) (conn : Conn)
    (hopen : conn.closed = false)
    (hfail : (∃ e, conn.writeErrors.head? = some (some e))
      ∨ ∀ line, conn.reads.head? = some (.ok line) → TrimSpace line ≠ utf8 "OK") :
    ∃ err k1, c.Connect (.ok conn) = .ret (some err, { c with conn := some k1 })
      ∧ k1.closed = true ∧ k1.closeCalls = conn.closeCalls + 1 := by
  obtain ⟨r, k0, ha, hk0, hcalls⟩ := auth_state c conn
  cases r with
  | none => exact absurd ha (auth_fails c conn hopen hfail _)
  | some err =>
    obtain ⟨k1, hclose, hk1, hk1c⟩ := Close_open { c with conn := some k0 } k0 rfl
      (by rw [hk0, hopen])
    refine ⟨err, k1, ?_, hk1, by rw [hk1c, hcalls]⟩
    simp only [IsProxyClient.Connect, ha, hclose]

/-- C19 at the reply `FAIL bad key`, and at a connection on which the AUTH line cannot
be sent while the reply `OK` is waiting: `Connect` fails and the connection is closed. -/
theorem Connect_failure_closes_witness :
    (∃ err k1, (NewIsProxyClient (utf8 "key")).Connect (.ok (server [utf8 "FAIL bad key\r\n"]))
        = .ret (some err, { NewIsProxyClient (utf8 "key") with conn := some k1 })
      ∧ k1.closed = true ∧ k1.closeCalls = (server [utf8 "FAIL bad key\r\n"]).closeCalls + 1)
    ∧ (∃ err k1, (NewIsProxyClient (utf8 "key")).Connect
          (.ok ⟨[.ok (utf8 "OK\r\n")], [some (.lib (utf8 "broken pipe"))], none, [], false, 0⟩)
        = .ret (some err, { NewIsProxyClient (utf8 "key") with conn := some k1 })
      ∧ k1.closed = true ∧ k1.closeCalls = 0 + 1) :=
  ⟨Connect_failure_closes (NewIsProxyClient (utf8 "key")) (server [utf8 "FAIL bad key\r\n"]) rfl
    (Or.inr (by
      intro line h
      have h2 : some (Except.ok (utf8 "FAIL bad key\r\n") : Except GoError Bytes)
          = some (Except.ok line) := h
      injection h2 with h3
      injection h3 with h4
      subst h4
      decide)),
    Connect_failure_closes (NewIsProxyClient (utf8 "key"))
      ⟨[.ok (utf8 "OK\r\n")], [some (.lib (utf8 "broken pipe"))], none, [], false, 0⟩ rfl
      (Or.inl ⟨_, rfl⟩)⟩

/-- C19 as stated fails at the reply ` OK ` followed by the end of the line, which is not
the exact text `OK`: `Connect` returns nil and the connection stays open. -/
theorem Connect_accepts_padded_reply :
    (NewIsProxyClient (utf8 "key")).Connect (.ok (server [utf8 " OK \r\n"]))
      = .ret (none, IsProxyClient.mk
          (some ⟨[], [], none, [utf8 "AUTH key\r\n"], false, 0⟩) (utf8 "key")) := by
  rfl

/-- C20, as amended. `Close` on a client that never connected is a no-op that returns
nil. On a client with an open connection a first `Close` closes the socket; the client
keeps the connection, so a second `Close` goes through the same steps: its QUIT line is
refused by the closed socket and nothing is written, the socket's `Close` is called a
second time, and its error `net.ErrClosed` is returned. -/
theorem Close_twice (c : IsProxyClient) :
    (c.conn = none → c.Close = (none, c))
      ∧ (∀ k, c.conn = some k → k.closed = false →
          ∃ k1 k2, c.Close = (k.closeError, { c with conn := some k1 })
            ∧ k1.closed = true
            ∧ (IsProxyClient.Close { c with conn := some k1 })
              = (some ErrClosed, { c with conn := some k2 })
            ∧ k2.written = k1.written ∧ k2.closed = true
            ∧ k2.closeCalls = k.closeCalls + 2) := by
  constructor
  · intro h
    simp [IsProxyClient.Close, h]
  · intro k hc hopen
    obtain ⟨k1, h1, hk1, hk1c⟩ := Close_open c k hc hopen
    refine ⟨k1, { k1 with closeCalls := k1.closeCalls + 1 }, h1, hk1, ?_, rfl, hk1, ?_⟩
    · simp [IsProxyClient.Close, Conn.write, Conn.close, hk1]
    · simp only [hk1c]

/-- C20 as stated fails on a session that connected: after a first `Close`, a second
`Close` returns the error `net.ErrClosed` and has called `Close` on the socket again. -/
theorem Close_twice_returns_error :
    (match (NewIsProxyClient (utf8 "key")).Connect (.ok (server [utf8 "OK\r\n"])) with
      | .ret (err, c1) =>
        (err, c1.Close.1, c1.Close.2.Close.1, c1.Close.2.Close.2.conn.map fun k => k.closeCalls)
      | .panic => (none, none, none, none))
      = (none, none, some ErrClosed, some 2) := by
  decide

/-! ## `Check` and the state of the connection -/

/-- On a client with a connection, `Check` returns, and it leaves the connection open or
closed as it was: it never calls `Close`. -/
theorem Check_state (c : IsProxyClient) (k : Conn) (domain tld : Bytes)
    (hc : c.conn = some k) :
    ∃ r k1, c.Check domain tld = .ret (r, { c with conn := some k1 })
      ∧ k1.closed = k.closed ∧ k1.closeCalls = k.closeCalls := by
  obtain ⟨w1, w2, _, _⟩ :=
    Conn.write_state k (utf8 "CHECK " ++ domain ++ utf8 " " ++ tld ++ utf8 "\r\n")
  obtain ⟨r1, r2, _⟩ := Conn.readString_state
    (k.write (utf8 "CHECK " ++ domain ++ utf8 " " ++ tld ++ utf8 "\r\n")).2
  unfold IsProxyClient.Check
  rw [hc]
  simp only
  cases hw : k.write (utf8 "CHECK " ++ domain ++ utf8 " " ++ tld ++ utf8 "\r\n") with
  | mk e k1 =>
    rw [hw] at w1 w2 r1 r2
    simp only at w1 w2 r1 r2
    cases e with
    | some err => exact ⟨_, k1, rfl, w1, w2⟩
    | none =>
      simp only
      cases hr : k1.readString with
      | mk r k2 =>
        rw [hr] at r1 r2
        simp only at r1 r2
        cases r with
        | error err => exact ⟨_, k2, rfl, by rw [r1, w1], by rw [r2, w2]⟩
        | ok resp => exact ⟨_, k2, rfl, by rw [r1, w1], by rw [r2, w2]⟩

/-- C21, as amended. Whenever `Check` fails on a client with an open connection, be it
because the response line cannot be read or because the response is a protocol
violation, the connection is still open when `Check` returns the error, and `Close` has
not been called on it: closing is left to the caller. -/
theorem Check_failure_keeps_open (c c1 : IsProxyClient) (k : Conn) (domain tld : Bytes)
    (err : GoError) (hc : c.conn = some k) (hopen : k.closed = false)
    (hfail : c.Check domain tld = .ret (.error err, c1)) :
    ∃ k1, c1.conn = some k1 ∧ k1.closed = false ∧ k1.closeCalls = k.closeCalls := by
  obtain ⟨r, k1, h, h1, h2⟩ := Check_state c k domain tld hc
  rw [h] at hfail
  injection hfail with hfail
  injection hfail with _ hc1
  subst hc1
  exact ⟨k1, rfl, by rw [h1, hopen], h2⟩

/-- C21 at a server that answers the line `garbage`, a protocol violation. -/
theorem Check_failure_keeps_open_witness :
    ∃ k1, (IsProxyClient.mk (some ⟨[], [], none, [utf8 "CHECK a com\r\n"], false, 0⟩)
          (utf8 "key")).conn = some k1
      ∧ k1.closed = false ∧ k1.closeCalls = (server [utf8 "garbage\r\n"]).closeCalls :=
  Check_failure_keeps_open (IsProxyClient.mk (some (server [utf8 "garbage\r\n"])) (utf8 "key"))
    _ (server [utf8 "garbage\r\n"]) (utf8 "a") (utf8 "com")
    (.lib (utf8 "invalid IsProxy response: garbage")) rfl rfl rfl

/-- C21 as stated fails against a server that ends the connection without an answer, and
against one that answers the line `garbage`: `Check` returns the error of the read, or
of the protocol violation, and the connection is open, `Close` not called. -/
theorem Check_failure_does_not_close :
    (match (IsProxyClient.mk (some (server [])) (utf8 "key")).Check (utf8 "a") (utf8 "com") with
      | .ret (r, c1) => (r, c1.conn.map fun k => (k.closed, k.closeCalls))
      | .panic => (.error EOF, none))
        = (.error (.wrapped "read CHECK response" EOF), some (false, 0))
    ∧ (match (IsProxyClient.mk (some (server [utf8 "garbage\r\n"])) (utf8 "key")).Check
          (utf8 "a") (utf8 "com") with
      | .ret (r, c1) => (r, c1.conn.map fun k => (k.closed, k.closeCalls))
      | .panic => (.error EOF, none))
        = (.error (.lib (utf8 "invalid IsProxy response: garbage")), some (false, 0)) := by
  constructor <;> decide

/-- Closing leaves the connection closed, whatever it was. -/
theorem Conn.close_closed (k : Conn) : k.close.2.closed = true := by
  unfold Conn.close
  split <;> simp_all

/-- After `Close` the connection of a client that had one is closed. -/
theorem Close_closed (c : IsProxyClient) (k : Conn) (hc : c.conn = some k) :
    ∃ k1, c.Close.2.conn = some k1 ∧ k1.closed = true := by
  unfold IsProxyClient.Close
  rw [hc]
  exact ⟨_, rfl, Conn.close_closed _⟩

/-- After a `Connect` that reached the server and failed, the client holds a closed
connection. -/
theorem Connect_error_closed (c c1 : IsProxyClient) (conn : Conn) (err : GoError)
    (h : c.Connect (.ok conn) = .ret (some err, c1)) :
    ∃ k1, c1.conn = some k1 ∧ k1.closed = true := by
  obtain ⟨r, k0, ha, _, _⟩ := auth_state c conn
  simp only [IsProxyClient.Connect, ha] at h
  cases r with
  | none =>
    simp only at h
    injection h with h
    injection h with h _
    cases h
  | some e =>
    simp only at h
    injection h with h
    injection h with _ h
    subst h
    exact Close_closed _ k0 rfl

/-- On a client whose connection is closed, `Check` fails at the write and changes
nothing. -/
theorem Check_closed (c : IsProxyClient) (k : Conn) (domain tld : Bytes)
    (hc : c.conn = some k) (hclosed : k.closed = true) :
    c.Check domain tld = .ret (.error (.wrapped "send CHECK" ErrClosed), c) := by
  obtain ⟨conn, apiKey⟩ := c
  simp only at hc
  subst hc
  simp [IsProxyClient.Check, Conn.write, hclosed]

/-- C29, as amended. On a session whose connection was established and whose `Connect`
then failed at the AUTH exchange, or that has been closed after it was connected,
`Check` sends no request line and returns an error, that of the write the closed
connection refuses; the client is left as it was. -/
theorem Check_on_closed_session (c : IsProxyClient) (domain tld : Bytes) :
    (∀ k, c.conn = some k → k.closed = true →
        c.Check domain tld = .ret (.error (.wrapped "send CHECK" ErrClosed), c))
      ∧ (∀ conn err c1, c.Connect (.ok conn) = .ret (some err, c1) →
        c1.Check domain tld = .ret (.error (.wrapped "send CHECK" ErrClosed), c1))
      ∧ (∀ k, c.conn = some k →
        c.Close.2.Check domain tld
          = .ret (.error (.wrapped "send CHECK" ErrClosed), c.Close.2)) := by
  refine ⟨?_, ?_, ?_⟩
  · intro k hc hk
    exact Check_closed c k domain tld hc hk
  · intro conn err c1 h
    obtain ⟨k1, h1, h2⟩ := Connect_error_closed c c1 conn err h
    exact Check_closed c1 k1 domain tld h1 h2
  · intro k hc
    obtain ⟨k1, h1, h2⟩ := Close_closed c k hc
    exact Check_closed _ k1 domain tld h1 h2

/-- C29 as stated fails on a session that never connected, and on one whose `Connect`
failed before a connection was established (the dial or the TLS handshake failed): the
client has no connection, and `Check` panics at the write. -/
theorem Check_never_connected_panics :
    (NewIsProxyClient (utf8 "key")).Check (utf8 "example") (utf8 "com") = .panic
      ∧ (match (NewIsProxyClient (utf8 "key")).Connect
            (.error (.lib (utf8 "tls: handshake failure"))) with
          | .ret (err, c1) => (err, c1.Check (utf8 "example") (utf8 "com"))
          | .panic => (none, .panic))
        = (some (.wrapped "connect to IsProxy" (.lib (utf8 "tls: handshake failure"))),
            .panic) := by
  constructor <;> rfl

/-! ## A third field that is not a price -/

/-- C28, as amended. For every response line whose second field is `AVAILABLE` and
whose third field `strconv.ParseFloat` rejects, `parseCheckResponse` does not fail: it
succeeds with `Available` true and the price left unset. -/
theorem parseCheckResponse_rejected_price (resp : Bytes)
    (h : 3 ≤ (Fields (TrimSpace resp)).length)
    (hs : (Fields (TrimSpace resp)).getD 1 [] = utf8 "AVAILABLE")
    (hp : strconvParseFloat ((Fields (TrimSpace resp)).getD 2 []) = none) :
    ∃ r, parseCheckResponse resp = .ok r ∧ r.Available = true ∧ r.Price = F64.zero := by
  refine ⟨_, parseCheckResponse_ok resp (by omega), ?_, ?_⟩
  · simp only [hs, beq_self_eq_true]
  · simp only [hs, hp, ite_self]

/-- C28 at the lines `example.com AVAILABLE n/a` and `example.com AVAILABLE 9,95`. -/
theorem parseCheckResponse_rejected_price_witness :
    (∃ r, parseCheckResponse (utf8 "example.com AVAILABLE n/a\r\n") = .ok r
        ∧ r.Available = true ∧ r.Price = F64.zero)
      ∧ parseCheckResponse (utf8 "example.com AVAILABLE 9,95\r\n")
        = .ok ⟨utf8 "example", utf8 "com", true, F64.zero⟩ :=
  ⟨parseCheckResponse_rejected_price (utf8 "example.com AVAILABLE n/a\r\n") (by decide)
    (by decide) (by decide), by decide⟩

/-- C28 as stated fails at the lines `example.com AVAILABLE Infinity` and
`example.com AVAILABLE 0x1p4`: the third field is not a decimal number, yet
`strconv.ParseFloat` accepts it, as an infinity and as the hexadecimal 16, and the price
is set to that. -/
theorem parseCheckResponse_price_not_decimal :
    parseCheckResponse (utf8 "example.com AVAILABLE Infinity\r\n")
        = .ok ⟨utf8 "example", utf8 "com", true, .inf false⟩
      ∧ parseCheckResponse (utf8 "example.com AVAILABLE 0x1p4\r\n")
        = .ok ⟨utf8 "example", utf8 "com", true, .finite ⟨false, 2 ^ 52, -48⟩⟩
      ∧ F64.inf false ≠ F64.zero := by
  refine ⟨by decide, by decide, by decide⟩

/-! ## Properties of `ExitCode` -/

/-- No error of package `api` is an `*ExitError`. -/
theorem findSome_code_of (l : List GoError) :
    (l.map CmdError.of).findSome? CmdError.code? = none := by
  induction l with
  | nil => rfl
  | cons g rest ih => simp [List.findSome?, CmdError.code?]

/-- What `errors.As` finds for a target of type `*ExitError` carries the code of the
first `*ExitError` of the chain. -/
theorem asExitError_chain : ∀ e : CmdError,
    e.asExitError.map Prod.fst = e.chain.findSome? CmdError.code?
  | .of g => by
    rw [CmdError.chain, findSome_code_of]
    rfl
  | .errNoAPIKey => rfl
  | .exitError _ (some _) => rfl
  | .exitError _ none => rfl
  | .wrapped msg cause => by
    have ih := asExitError_chain cause
    simp only [CmdError.asExitError, CmdError.chain, List.findSome?, CmdError.code?]
    exact ih

/-- C26. `ExitCode` returns `CodeSuccess`, which is 0, for a nil error; for an error it
returns the code of the first `*ExitError` in its chain (the error itself, or one it
wraps), and `CodeError`, which is 1, when the chain has none, as for every error of
package `api` that is not wrapped. -/
theorem ExitCode_spec (err : CmdError) :
    ExitCode none = 0
      ∧ ExitCode (some err) = (err.chain.findSome? CmdError.code?).getD 1
      ∧ (∀ code inner, ExitCode (some (.exitError code inner)) = code)
      ∧ (∀ msg code inner, ExitCode (some (.wrapped msg (.exitError code inner))) = code)
      ∧ (∀ g, ExitCode (some (.of g)) = 1) := by
  refine ⟨rfl, ?_, fun _ _ => rfl, fun _ _ _ => rfl, fun _ => rfl⟩
  rw [← asExitError_chain err]
  show (match err.asExitError with
    | some ee => ee.1
    | none => CodeError) = _
  cases err.asExitError <;> rfl

/-- C22, as amended. Whatever the status code and the body of the response, that is for
every member of the taxonomy, the error of the API client leaves `DomainGetCmd.Run`
wrapped in an `*ExitError` with the code `CodeAPI`, and the exit code is 4; the error
as the client returns it, not wrapped, has the exit code 1. -/
theorem api_errors_exit_code {δ : Type} (getDomain : Bytes → Bytes → Except GoError δ)
    (output : δ → Option CmdError) (key name : Bytes) (s : Int) (b : Bytes)
    (h : getDomain key name = .error (NewAPIError s b)) :
    DomainGetCmd.Run (.ok key) getDomain output ⟨name⟩
        = some (.exitError CodeAPI (some (.of (NewAPIError s b))))
      ∧ ExitCode (DomainGetCmd.Run (.ok key) getDomain output ⟨name⟩) = 4
      ∧ ExitCode (some (.of (NewAPIError s b))) = 1 := by
  have hrun : DomainGetCmd.Run (.ok key) getDomain output ⟨name⟩
      = some (.exitError CodeAPI (some (.of (NewAPIError s b)))) := by
    simp only [DomainGetCmd.Run, h]
  rw [hrun]
  exact ⟨rfl, rfl, rfl⟩

/-- C22 at a response with the status 429. -/
theorem api_errors_exit_code_witness :
    DomainGetCmd.Run (.ok (utf8 "key")) (fun _ _ => (.error (NewAPIError 429 []) : Except GoError Unit))
        (fun _ => none) ⟨utf8 "example.com"⟩
        = some (.exitError CodeAPI (some (.of (NewAPIError 429 []))))
      ∧ ExitCode (DomainGetCmd.Run (.ok (utf8 "key"))
          (fun _ _ => (.error (NewAPIError 429 []) : Except GoError Unit))
          (fun _ => none) ⟨utf8 "example.com"⟩) = 4
      ∧ ExitCode (some (.of (NewAPIError 429 []))) = 1 :=
  api_errors_exit_code (fun _ _ => (.error (NewAPIError 429 []) : Except GoError Unit))
    (fun _ => none) (utf8 "key") (utf8 "example.com") 429 [] rfl

/-- C22 as stated fails at the responses 401 and 404: the errors are of two members of
the taxonomy, an `*AuthError` and a `*NotFoundError`, and the exit code of the command
is 4 for both. -/
theorem auth_and_not_found_same_exit_code :
    (NewAPIError 401 []).type = .AuthError ∧ (NewAPIError 404 []).type = .NotFoundError
      ∧ ExitCode (DomainGetCmd.Run (.ok (utf8 "key"))
          (fun _ _ => (.error (NewAPIError 401 []) : Except GoError Unit))
          (fun _ => none) ⟨utf8 "example.com"⟩) = 4
      ∧ ExitCode (DomainGetCmd.Run (.ok (utf8 "key"))
          (fun _ _ => (.error (NewAPIError 404 []) : Except GoError Unit))
          (fun _ => none) ⟨utf8 "example.com"⟩) = 4 := by
  refine ⟨by decide, by decide, by decide, by decide⟩

/-! ## Properties of `Format` -/

/-- A whole number of seconds, as `int(d.Seconds())` gives it back. -/
theorem truncToInt64_Seconds (n : Int) (h0 : 0 ≤ n) (h1 : n ≤ 9223372036) :
    truncToInt64 (Seconds (n * second)) = n := by
  obtain ⟨N, rfl⟩ := Int.eq_ofNat_of_zero_le h0
  have hN : N ≤ 9223372036 := by exact_mod_cast h1
  have habs : ((N : Int) * second).natAbs = N * 1000000000 := by
    unfold second
    have : ((N : Int) * 1000000000) = ((N * 1000000000 : Nat) : Int) := by push_cast; ring
    rw [this, Int.natAbs_ofNat]
  have hneg : decide ((N : Int) * second < 0) = false := by
    unfold second
    simp only [decide_eq_false_iff_not, not_lt]
    positivity
  unfold Seconds
  simp only [habs, hneg]
  have hdiv : N * 1000000000 / 1000000000 = N := Nat.mul_div_cancel _ (by norm_num)
  have hmod : N * 1000000000 % 1000000000 = 0 := Nat.mul_mod_left _ _
  rw [hdiv, hmod]
  have hq : roundFloat64 0 1000000000 = (0, 0) := by simp [roundFloat64]
  rw [hq]
  simp only [neg_zero, Int.toNat_zero, pow_zero, mul_one, add_zero]
  by_cases hz : N = 0
  · subst hz
    decide
  · have hpos : 0 < N := Nat.pos_of_ne_zero hz
    have hlt : N < 2 ^ 53 := by
      have : (9223372036 : Nat) < 2 ^ 53 := by norm_num
      omega
    have hr := roundFloat64_whole N 1 hpos hlt (by norm_num)
    rw [mul_one] at hr
    rw [hr]
    have ht := truncToInt64_whole false N hpos hlt
    simpa using ht

/-- What `Format` returns for a `*RateLimitError`, also inside an `*ExitError`. -/
theorem Format_rateLimitError (jsonText : JSONError → Bytes) (e : APIError) (d code : Int) :
    Format jsonText (some (.of (.rateLimitError e d)))
        = utf8 "Error: Rate limited by API.\n\n"
          ++ (utf8 "Retry after: " ++ formatInt (truncToInt64 (Seconds d)) ++ utf8 " seconds\n")
      ∧ Format jsonText (some (.exitError code (some (.of (.rateLimitError e d)))))
        = utf8 "Error: Rate limited by API.\n\n"
          ++ (utf8 "Retry after: " ++ formatInt (truncToInt64 (Seconds d)) ++ utf8 " seconds\n") :=
  ⟨rfl, rfl⟩

/-- What `Format` returns for a `*NotFoundError`, also inside an `*ExitError`. -/
theorem Format_notFoundError (jsonText : JSONError → Bytes) (e : APIError) (code : Int) :
    Format jsonText (some (.of (.notFoundError e))) = utf8 "Error: " ++ e.Message ++ utf8 "\n"
      ∧ Format jsonText (some (.exitError code (some (.of (.notFoundError e)))))
        = utf8 "Error: " ++ e.Message ++ utf8 "\n" :=
  ⟨rfl, rfl⟩

/-- C23, as amended. For every 429 response whose body is a JSON object that decodes
without error and whose `retry_after` is a number that `strconv.ParseFloat` reads as the
whole number `n`, from 0 to 9223372036 (it reads the value of the literal, counting an
exponent no further than 10000), the message `Format` produces for the resulting error,
also when the error is wrapped in an `*ExitError`, is `Error: Rate limited by API.`, an
empty line, and `Retry after: n seconds`. -/
theorem Format_surfaces_retry_after (jsonText : JSONError → Bytes) (b : Bytes)
    (ms : List (Bytes × JSON)) (lit : Bytes) (n code : Int)
    (hb : parseJSON b = some (.obj ms)) (hf : floatErrorMembers ms = false)
    (hl : AnyMap.lookup (some ms) (utf8 "retry_after") = some (.num lit))
    (hv : (decimalOf lit).value = (n : ℚ)) (h0 : 0 ≤ n) (h1 : n ≤ 9223372036) :
    Format jsonText (some (.of (NewAPIError 429 b)))
        = utf8 "Error: Rate limited by API.\n\n"
          ++ (utf8 "Retry after: " ++ formatInt n ++ utf8 " seconds\n")
      ∧ Format jsonText (some (.exitError code (some (.of (NewAPIError 429 b)))))
        = utf8 "Error: Rate limited by API.\n\n"
          ++ (utf8 "Retry after: " ++ formatInt n ++ utf8 " seconds\n") := by
  obtain ⟨f, hf1, hf2⟩ := parseFloat_whole lit n hv (by omega)
  have hr : parseRetryAfter b = n * second := by
    rw [parseRetryAfter_obj b ms hb, hf, hl]
    simp only [Bool.false_eq_true, if_false, asFloat64, hf1, hf2]
    rw [wrapInt64_seconds n (by omega) h1]
  have he : ∃ e, NewAPIError 429 b = .rateLimitError e (parseRetryAfter b) := ⟨_, rfl⟩
  obtain ⟨e, he⟩ := he
  rw [hr] at he
  rw [he]
  have := Format_rateLimitError jsonText e (n * second) code
  rw [truncToInt64_Seconds n h0 h1] at this
  exact this

/-- C23 at the body `{"retry_after":30}`. -/
theorem Format_surfaces_retry_after_witness :
    Format (fun _ => []) (some (.of (NewAPIError 429 (utf8 "\x7b\"retry_after\":30\x7d"))))
        = utf8 "Error: Rate limited by API.\n\n"
          ++ (utf8 "Retry after: " ++ formatInt 30 ++ utf8 " seconds\n")
      ∧ Format (fun _ => [])
          (some (.exitError 4 (some (.of (NewAPIError 429 (utf8 "\x7b\"retry_after\":30\x7d"))))))
        = utf8 "Error: Rate limited by API.\n\n"
          ++ (utf8 "Retry after: " ++ formatInt 30 ++ utf8 " seconds\n") :=
  Format_surfaces_retry_after (fun _ => []) (utf8 "\x7b\"retry_after\":30\x7d")
    [(utf8 "retry_after", .num (utf8 "30"))] (utf8 "30") 30 4 (by rfl) (by decide) (by rfl)
    (by simp [Decimal.value, decimalOf, utf8, encodeRune, takeDigits, isDigit])
    (by norm_num) (by norm_num)

set_option maxRecDepth 100000 in
/-- C23 as stated fails at the body `{"retry_after":10000000000}`: the number of
nanoseconds does not fit 64 bits, the duration wraps around, and the message reads
`Retry after: -8446744073 seconds`. -/
theorem Format_retry_after_wraps :
    parseJSON (utf8 "\x7b\"retry_after\":10000000000\x7d")
        = some (.obj [(utf8 "retry_after", .num (utf8 "10000000000"))])
      ∧ Format (fun _ => [])
          (some (.of (NewAPIError 429 (utf8 "\x7b\"retry_after\":10000000000\x7d"))))
        = utf8 "Error: Rate limited by API.\n\nRetry after: -8446744073 seconds\n" := by
  refine ⟨by rfl, by decide⟩

/-- C24, as amended. For every 404 response whose body `json.Unmarshal` decodes without
error, with a message `m` that is not empty in `error.message`, the message `Format`
produces for the resulting `*NotFoundError`, also when the error is wrapped in an
`*ExitError`, is exactly `Error: ` followed by `m` and a newline. -/
theorem Format_surfaces_not_found_message (jsonText : JSONError → Bytes) (b m : Bytes)
    (r : apiErrorResponse) (code : Int)
    (hu : unmarshalErrorResponse b ⟨⟨[], 0⟩⟩ = (none, r)) (hr : r.Error.Message = m)
    (hm : m ≠ []) :
    Format jsonText (some (.of (NewAPIError 404 b))) = utf8 "Error: " ++ m ++ utf8 "\n"
      ∧ Format jsonText (some (.exitError code (some (.of (NewAPIError 404 b)))))
        = utf8 "Error: " ++ m ++ utf8 "\n" := by
  have he : NewAPIError 404 b = .notFoundError ⟨404, m, []⟩ := by
    subst hr
    simp [NewAPIError, hu, hm]
  rw [he]
  exact Format_notFoundError jsonText ⟨404, m, []⟩ code

/-- C24 at the body `{"error":{"code":404,"message":"Domain not found"}}`. -/
theorem Format_surfaces_not_found_message_witness :
    Format (fun _ => []) (some (.of (NewAPIError 404
        (utf8 "\x7b\"error\":\x7b\"code\":404,\"message\":\"Domain not found\"\x7d\x7d"))))
        = utf8 "Error: " ++ utf8 "Domain not found" ++ utf8 "\n"
      ∧ Format (fun _ => []) (some (.exitError 4 (some (.of (NewAPIError 404
          (utf8 "\x7b\"error\":\x7b\"code\":404,\"message\":\"Domain not found\"\x7d\x7d"))))))
        = utf8 "Error: " ++ utf8 "Domain not found" ++ utf8 "\n" :=
  Format_surfaces_not_found_message (fun _ => [])
    (utf8 "\x7b\"error\":\x7b\"code\":404,\"message\":\"Domain not found\"\x7d\x7d")
    (utf8 "Domain not found") ⟨⟨utf8 "Domain not found", 404⟩⟩ 4 (by decide) rfl (by decide)

/-- C24 as stated fails at the body `{"error":{"code":"E42","message":"Domain not found"}}`:
the message is there, the code is a string that does not decode into the `int` field,
and the message shown is `Error: unknown error`. -/
theorem Format_not_found_message_lost :
    parseJSON (utf8 "\x7b\"error\":\x7b\"code\":\"E42\",\"message\":\"Domain not found\"\x7d\x7d")
        = some (.obj [(utf8 "error", .obj [(utf8 "code", .str (utf8 "E42")),
            (utf8 "message", .str (utf8 "Domain not found"))])])
      ∧ Format (fun _ => []) (some (.of (NewAPIError 404
          (utf8 "\x7b\"error\":\x7b\"code\":\"E42\",\"message\":\"Domain not found\"\x7d\x7d"))))
        = utf8 "Error: unknown error\n" := by
  refine ⟨by rfl, by decide⟩

/-! ## Properties of `GetTLDPrice` -/

/-- The loop of `GetTLDPrice` stops at the first entry for the product with the action
`CREATE`. -/
theorem getTLDPriceLoop_first (product : Bytes) (e : PricelistEntry)
    (post : List PricelistEntry) : ∀ pre : List PricelistEntry,
    (∀ x ∈ pre, ¬ (x.Product = product ∧ x.Action = utf8 "CREATE")) →
    e.Product = product → e.Action = utf8 "CREATE" →
    getTLDPriceLoop product (pre ++ e :: post) = (e.Price, e.Currency, true) := by
  intro pre
  induction pre with
  | nil =>
    intro _ h1 h2
    simp [getTLDPriceLoop, h1, h2]
  | cons x rest ih =>
    intro hpre h1 h2
    have hx := hpre x (List.mem_cons_self _ _)
    rw [List.cons_append, getTLDPriceLoop, if_neg hx]
    exact ih (fun y hy => hpre y (List.mem_cons_of_mem _ hy)) h1 h2

/-- The loop of `GetTLDPrice` reports that nothing was found exactly when no entry is
for the product with the action `CREATE`. -/
theorem getTLDPriceLoop_none (product : Bytes) : ∀ l : List PricelistEntry,
    (getTLDPriceLoop product l = (0, [], false)
      ↔ ∀ x ∈ l, ¬ (x.Product = product ∧ x.Action = utf8 "CREATE")) := by
  intro l
  induction l with
  | nil => simp [getTLDPriceLoop]
  | cons x rest ih =>
    by_cases hx : x.Product = product ∧ x.Action = utf8 "CREATE"
    · rw [getTLDPriceLoop, if_pos hx]
      constructor
      · intro h
        injection h with _ h
        injection h with _ h
        cases h
      · intro h
        exact absurd hx (h x (List.mem_cons_self _ _))
    · rw [getTLDPriceLoop, if_neg hx, ih]
      constructor
      · intro h y hy
        rcases List.mem_cons.mp hy with rfl | hy
        · exact hx
        · exact h y hy
      · intro h y hy
        exact h y (List.mem_cons_of_mem _ hy)

/-- C27. For every pricelist and TLD, `GetTLDPrice` returns the price and the currency of
the first entry whose product is `domain_` followed by the TLD and whose action is
`CREATE`, with found true; it returns 0, the empty text and false exactly when the
pricelist has no such entry. -/
theorem GetTLDPrice_spec (p : Pricelist) (tld : Bytes) :
    (∀ pre e post, p.Prices = pre ++ e :: post →
        (∀ x ∈ pre, ¬ (x.Product = utf8 "domain_" ++ tld ∧ x.Action = utf8 "CREATE")) →
        e.Product = utf8 "domain_" ++ tld → e.Action = utf8 "CREATE" →
        p.GetTLDPrice tld = (e.Price, e.Currency, true))
      ∧ (p.GetTLDPrice tld = (0, [], false)
        ↔ ∀ x ∈ p.Prices, ¬ (x.Product = utf8 "domain_" ++ tld ∧ x.Action = utf8 "CREATE")) := by
  constructor
  · intro pre e post hp hpre h1 h2
    unfold Pricelist.GetTLDPrice
    rw [hp]
    exact getTLDPriceLoop_first _ e post pre hpre h1 h2
  · exact getTLDPriceLoop_none _ p.Prices

/-! ## Properties of `findRecords` -/

/-- On ASCII text `EqualFold` holds exactly when the two texts agree once every upper
case letter is made lower case. -/
theorem EqualFold_ascii (unicodeFold : Bytes → Bytes → Bool) : ∀ s t : Bytes,
    (∀ c ∈ s, c < 128) → (∀ c ∈ t, c < 128) →
    (EqualFold unicodeFold s t = true ↔ s.map lowerByte = t.map lowerByte)
  | [], [], _, _ => by simp [EqualFold]
  | [], _ :: _, _, _ => by simp [EqualFold]
  | _ :: _, [], _, _ => by simp [EqualFold]
  | sr :: s, tr :: t, hs, ht => by
    have h1 : sr < 128 := hs sr (List.mem_cons_self _ _)
    have h2 : tr < 128 := ht tr (List.mem_cons_self _ _)
    have ih := EqualFold_ascii unicodeFold s t
      (fun c hc => hs c (List.mem_cons_of_mem _ hc)) (fun c hc => ht c (List.mem_cons_of_mem _ hc))
    have hna : ¬ (128 ≤ sr ∨ 128 ≤ tr) := by omega
    rw [EqualFold, if_neg hna]
    simp only [List.map_cons, List.cons.injEq]
    by_cases heq : tr = sr
    · rw [if_pos heq, ih, heq]
      simp
    · rw [if_neg heq]
      have hlow : (65 ≤ min sr tr ∧ min sr tr ≤ 90 ∧ max sr tr = min sr tr + 32)
          ↔ lowerByte sr = lowerByte tr := by
        unfold lowerByte
        rcases Nat.lt_or_ge sr tr with hlt | hge
        · rw [Nat.min_eq_left (Nat.le_of_lt hlt), Nat.max_eq_right (Nat.le_of_lt hlt)]
          split_ifs <;> omega
        · rw [Nat.min_eq_right hge, Nat.max_eq_left hge]
          split_ifs <;> omega
      by_cases hl : lowerByte sr = lowerByte tr
      · rw [if_pos (hlow.mpr hl), ih]
        simp [hl]
      · rw [if_neg (fun h => hl (hlow.mp h))]
        simp [hl]

/-- The indices the loop of `findRecords` returns from the index `i` on: those of the
records that match, each at least `i`, in strictly increasing order. -/
theorem findRecordsFrom_spec (unicodeFold : Bytes → Bytes → Bool) (typ name content : Bytes) :
    ∀ (records : List DNSRecord) (i : Nat),
    (∀ j, j ∈ findRecordsFrom unicodeFold typ name content i records ↔
        ∃ k r, j = i + k ∧ records[k]? = some r
          ∧ r.matches unicodeFold typ name content = true)
      ∧ (findRecordsFrom unicodeFold typ name content i records).Pairwise (· < ·) := by
  intro records
  induction records with
  | nil =>
    intro i
    simp [findRecordsFrom]
  | cons r rest ih =>
    intro i
    obtain ⟨ihm, ihp⟩ := ih (i + 1)
    have hge : ∀ j ∈ findRecordsFrom unicodeFold typ name content (i + 1) rest, i < j := by
      intro j hj
      obtain ⟨k, _, hk, _⟩ := (ihm j).mp hj
      omega
    have hshift : ∀ j, (∃ k r0, j = i + k ∧ (r :: rest)[k]? = some r0
          ∧ r0.matches unicodeFold typ name content = true)
        ↔ ((j = i ∧ r.matches unicodeFold typ name content = true)
          ∨ j ∈ findRecordsFrom unicodeFold typ name content (i + 1) rest) := by
      intro j
      rw [ihm j]
      constructor
      · rintro ⟨k, r0, hj, hk, hm⟩
        cases k with
        | zero =>
          simp only [List.getElem?_cons_zero, Option.some.injEq] at hk
          subst hk
          exact Or.inl ⟨by omega, hm⟩
        | succ k =>
          simp only [List.getElem?_cons_succ] at hk
          exact Or.inr ⟨k, r0, by omega, hk, hm⟩
      · rintro (⟨hj, hm⟩ | ⟨k, r0, hj, hk, hm⟩)
        · exact ⟨0, r, by omega, List.getElem?_cons_zero, hm⟩
        · exact ⟨k + 1, r0, by omega, by simpa using hk, hm⟩
    by_cases hm : r.matches unicodeFold typ name content = true
    · have hfr : findRecordsFrom unicodeFold typ name content i (r :: rest)
          = i :: findRecordsFrom unicodeFold typ name content (i + 1) rest := by
        simp only [DNSRecord.matches, Bool.and_eq_true, Bool.or_eq_true, decide_eq_true_eq] at hm
        rw [findRecordsFrom, if_pos hm.1, if_pos hm.2]
      rw [hfr]
      refine ⟨?_, List.pairwise_cons.mpr ⟨hge, ihp⟩⟩
      intro j
      rw [hshift j, List.mem_cons]
      simp [hm]
    · have hfr : findRecordsFrom unicodeFold typ name content i (r :: rest)
          = findRecordsFrom unicodeFold typ name content (i + 1) rest := by
        simp only [DNSRecord.matches, Bool.and_eq_true, Bool.or_eq_true, decide_eq_true_eq] at hm
        rw [findRecordsFrom]
        by_cases h1 : EqualFold unicodeFold r.Typ typ = true ∧ r.Name = name
        · rw [if_pos h1, if_neg (fun h2 => hm ⟨h1, h2⟩)]
        · rw [if_neg h1]
      rw [hfr]
      refine ⟨?_, ihp⟩
      intro j
      rw [hshift j]
      simp [hm]

/-- C25. For every record list and every `typ`, `name` and `content`, `findRecords`
returns exactly the indices, in strictly increasing order, of the records whose type
equals `typ` under `strings.EqualFold`, whose name equals `name` and, when `content` is
not empty, whose content equals `content`; with an empty `content` every record that
matches type and name is returned. On ASCII text `strings.EqualFold` is equality
ignoring letter case. -/
theorem findRecords_spec (unicodeFold : Bytes → Bytes → Bool) (records : List DNSRecord)
    (typ name content : Bytes) :
    (findRecords unicodeFold records typ name content).Pairwise (· < ·)
      ∧ (∀ i, i ∈ findRecords unicodeFold records typ name content ↔
          ∃ r, records[i]? = some r ∧ EqualFold unicodeFold r.Typ typ = true ∧ r.Name = name
            ∧ (content = [] ∨ r.Content = content))
      ∧ (∀ i, i ∈ findRecords unicodeFold records typ name [] ↔
          ∃ r, records[i]? = some r ∧ EqualFold unicodeFold r.Typ typ = true ∧ r.Name = name)
      ∧ (∀ s t : Bytes, (∀ c ∈ s, c < 128) → (∀ c ∈ t, c < 128) →
          (EqualFold unicodeFold s t = true ↔ s.map lowerByte = t.map lowerByte)) := by
  have key : ∀ content i, i ∈ findRecords unicodeFold records typ name content ↔
      ∃ r, records[i]? = some r ∧ EqualFold unicodeFold r.Typ typ = true ∧ r.Name = name
        ∧ (content = [] ∨ r.Content = content) := by
    intro content i
    unfold findRecords
    rw [(findRecordsFrom_spec unicodeFold typ name content records 0).1 i]
    constructor
    · rintro ⟨k, r, hk, hr, hm⟩
      simp only [DNSRecord.matches, Bool.and_eq_true, Bool.or_eq_true, decide_eq_true_eq] at hm
      have : i = k := by omega
      subst this
      exact ⟨r, hr, hm.1.1, hm.1.2, hm.2⟩
    · rintro ⟨r, hr, h1, h2, h3⟩
      refine ⟨i, r, by omega, hr, ?_⟩
      simp only [DNSRecord.matches, Bool.and_eq_true, Bool.or_eq_true, decide_eq_true_eq]
      exact ⟨⟨h1, h2⟩, h3⟩
  refine ⟨(findRecordsFrom_spec unicodeFold typ name content records 0).2, key content, ?_,
    EqualFold_ascii unicodeFold⟩
  intro i
  rw [key [] i]
  simp

/-! ## The command `zone record delete` -/

/-- Every index `findRecords` returns is within the record list. -/
theorem findRecords_lt (unicodeFold : Bytes → Bytes → Bool) (records : List DNSRecord)
    (typ name content : Bytes) (i : Nat)
    (h : i ∈ findRecords unicodeFold records typ name content) : i < records.length := by
  unfold findRecords at h
  obtain ⟨k, r, hk, hr, _⟩ := (findRecordsFrom_spec unicodeFold typ name content records 0).1 i |>.mp h
  have : k < records.length := (List.getElem?_eq_some.mp hr).1
  omega

/-- The records at indices that are within the list. -/
theorem recordsAt_some (records : List DNSRecord) : ∀ l : List Nat,
    (∀ i ∈ l, i < records.length) → ∃ rs, recordsAt records l = some rs := by
  intro l
  induction l with
  | nil => intro _; exact ⟨[], rfl⟩
  | cons i rest ih =>
    intro h
    obtain ⟨rs, hrs⟩ := ih (fun j hj => h j (List.mem_cons_of_mem _ hj))
    have hi : i < records.length := h i (List.mem_cons_self _ _)
    refine ⟨records[i] :: rs, ?_⟩
    rw [recordsAt, hrs, List.getElem?_eq_getElem hi]

/-- A list without its element at an index. -/
theorem take_drop_of_getElem? (records : List DNSRecord) (idx : Nat) (r : DNSRecord)
    (h : records[idx]? = some r) :
    records = records.take idx ++ r :: records.drop (idx + 1)
      ∧ (records.take idx).length = idx := by
  obtain ⟨hlt, hr⟩ := List.getElem?_eq_some.mp h
  constructor
  · rw [← hr, ← List.drop_eq_getElem_cons hlt, List.take_append_drop]
  · rw [List.length_take]
    omega

/-- The command without a key, or without the zone: the error is returned and nothing is
sent. -/
theorem Run_delete_not_fetched (ToUpper quote : Bytes → Bytes)
    (unicodeFold : Bytes → Bytes → Bool) (env : Session) (c : ZoneRecordDeleteCmd)
    (flags : RootFlags)
    (h : (∃ e, env.getAPIKey = .error e)
      ∨ ∃ key e, env.getAPIKey = .ok key ∧ env.GetZone key c.ZoneID = .error e) :
    ∃ err, c.Run ToUpper quote unicodeFold env flags = .ret (err, ⟨[], [], []⟩) := by
  unfold ZoneRecordDeleteCmd.Run
  rcases h with ⟨e, hk⟩ | ⟨key, e, hk, hz⟩
  · rw [hk]
    exact ⟨_, rfl⟩
  · rw [hk]
    simp only [hz]
    exact ⟨_, rfl⟩

/-- The command on a zone in which no record, or more than one, matches: it returns, and
no update is sent. -/
theorem Run_delete_no_single (ToUpper quote : Bytes → Bytes)
    (unicodeFold : Bytes → Bytes → Bool) (env : Session) (c : ZoneRecordDeleteCmd)
    (flags : RootFlags) (key : Bytes) (zone : Zone) (hk : env.getAPIKey = .ok key)
    (hz : env.GetZone key c.ZoneID = .ok zone)
    (hlen : (findRecords unicodeFold zone.Records (ToUpper c.Typ) c.Name c.Content).length ≠ 1) :
    ∃ err t, c.Run ToUpper quote unicodeFold env flags = .ret (err, t) ∧ t.updates = [] := by
  unfold ZoneRecordDeleteCmd.Run
  rw [hk]
  simp only [hz]
  by_cases h0 : zone.Records.length = 0
  · rw [if_pos h0]
    exact ⟨_, _, rfl, rfl⟩
  · rw [if_neg h0]
    by_cases h1 : (findRecords unicodeFold zone.Records (ToUpper c.Typ) c.Name c.Content).length = 0
    · rw [if_pos h1]
      exact ⟨_, _, rfl, rfl⟩
    · rw [if_neg h1]
      have h2 : (findRecords unicodeFold zone.Records (ToUpper c.Typ) c.Name c.Content).length > 1 := by
        omega
      rw [if_pos h2]
      obtain ⟨rs, hrs⟩ := recordsAt_some zone.Records
        (findRecords unicodeFold zone.Records (ToUpper c.Typ) c.Name c.Content)
        (fun i hi => findRecords_lt unicodeFold zone.Records _ _ _ i hi)
      rw [hrs]
      exact ⟨_, _, rfl, rfl⟩

/-- The command on a zone in which exactly one record matches: it returns; if it sends
an update, that is the one update with the record list of the zone less the record at
the index; and it sends it when the flag `Yes` is set or the answer is `y` or `Y`. -/
theorem Run_delete_single (ToUpper quote : Bytes → Bytes)
    (unicodeFold : Bytes → Bytes → Bool) (env : Session) (c : ZoneRecordDeleteCmd)
    (flags : RootFlags) (key : Bytes) (zone : Zone) (idx : Nat)
    (hk : env.getAPIKey = .ok key) (hz : env.GetZone key c.ZoneID = .ok zone)
    (hidx : findRecords unicodeFold zone.Records (ToUpper c.Typ) c.Name c.Content = [idx]) :
    ∃ err t, c.Run ToUpper quote unicodeFold env flags = .ret (err, t)
      ∧ (t.updates = [] ∨ t.updates = [(c.ZoneID,
          ⟨[], 0, 0, 0, 0, [], zone.Records.take idx ++ zone.Records.drop (idx + 1)⟩)])
      ∧ ((flags.Yes = true ∨ env.answer = utf8 "y" ∨ env.answer = utf8 "Y") →
          t.updates ≠ []) := by
  have hlt : idx < zone.Records.length :=
    findRecords_lt unicodeFold zone.Records _ _ _ idx (by rw [hidx]; exact List.mem_singleton_self _)
  have h0 : ¬ zone.Records.length = 0 := by omega
  unfold ZoneRecordDeleteCmd.Run
  rw [hk]
  simp only [hz]
  rw [if_neg h0]
  simp only [hidx, List.length_singleton, one_ne_zero, if_false, gt_iff_lt, lt_self_iff_false,
    List.getElem?_cons_zero, List.getElem?_eq_getElem hlt]
  by_cases hconf : ¬ flags.Yes = true ∧ env.answer ≠ utf8 "y" ∧ env.answer ≠ utf8 "Y"
  · rw [if_pos hconf]
    refine ⟨_, _, rfl, Or.inl rfl, ?_⟩
    intro h
    rcases h with h | h | h
    · exact absurd h hconf.1
    · exact absurd h hconf.2.1
    · exact absurd h hconf.2.2
  · rw [if_neg hconf]
    cases env.UpdateZone key c.ZoneID
        ⟨[], 0, 0, 0, 0, [], zone.Records.take idx ++ zone.Records.drop (idx + 1)⟩ with
    | some e => exact ⟨_, _, rfl, Or.inr rfl, fun _ => by simp⟩
    | none => exact ⟨_, _, rfl, Or.inr rfl, fun _ => by simp⟩

/-- C30. The command `zone record delete` returns, and it sends an update only when
`findRecords` yields exactly one index for the type in upper case, the name and the
content given: with no match or several no update is sent; when an update is sent it is
the only one, for the zone asked for, and its record list is the fetched list with
exactly the record at that index removed, every other record unchanged and in its
original order; with one match the update is sent once the deletion is confirmed, by
the flag `Yes` or by the answer `y` or `Y`. -/
theorem record_delete_single_match (ToUpper quote : Bytes → Bytes)
    (unicodeFold : Bytes → Bytes → Bool) (env : Session) (c : ZoneRecordDeleteCmd)
    (flags : RootFlags) :
    ∃ err t, c.Run ToUpper quote unicodeFold env flags = .ret (err, t)
      ∧ (∀ key zone, env.getAPIKey = .ok key → env.GetZone key c.ZoneID = .ok zone →
          (findRecords unicodeFold zone.Records (ToUpper c.Typ) c.Name c.Content).length ≠ 1 →
          t.updates = [])
      ∧ (t.updates = [] ∨
          ∃ key zone idx pre r post, env.getAPIKey = .ok key
            ∧ env.GetZone key c.ZoneID = .ok zone
            ∧ findRecords unicodeFold zone.Records (ToUpper c.Typ) c.Name c.Content = [idx]
            ∧ zone.Records = pre ++ r :: post ∧ pre.length = idx
            ∧ t.updates = [(c.ZoneID, ⟨[], 0, 0, 0, 0, [], pre ++ post⟩)])
      ∧ (∀ key zone idx, env.getAPIKey = .ok key → env.GetZone key c.ZoneID = .ok zone →
          findRecords unicodeFold zone.Records (ToUpper c.Typ) c.Name c.Content = [idx] →
          (flags.Yes = true ∨ env.answer = utf8 "y" ∨ env.answer = utf8 "Y") →
          t.updates ≠ []) := by
  cases hk : env.getAPIKey with
  | error e =>
    obtain ⟨err, h⟩ := Run_delete_not_fetched ToUpper quote unicodeFold env c flags
      (Or.inl ⟨e, hk⟩)
    exact ⟨err, _, h, fun _ _ _ _ _ => rfl, Or.inl rfl, fun _ _ _ h1 => by cases h1⟩
  | ok key =>
    cases hz : env.GetZone key c.ZoneID with
    | error e =>
      obtain ⟨err, h⟩ := Run_delete_not_fetched ToUpper quote unicodeFold env c flags
        (Or.inr ⟨key, e, hk, hz⟩)
      refine ⟨err, _, h, fun _ _ _ _ _ => rfl, Or.inl rfl, ?_⟩
      intro key1 zone1 idx h1 h2
      injection h1 with h1
      subst h1
      rw [hz] at h2
      cases h2
    | ok zone =>
      by_cases hlen :
          (findRecords unicodeFold zone.Records (ToUpper c.Typ) c.Name c.Content).length = 1
      · obtain ⟨idx, hidx⟩ := List.length_eq_one.mp hlen
        obtain ⟨err, t, h, hsent, hconf⟩ :=
          Run_delete_single ToUpper quote unicodeFold env c flags key zone idx hk hz hidx
        have hlt : idx < zone.Records.length :=
          findRecords_lt unicodeFold zone.Records _ _ _ idx
            (by rw [hidx]; exact List.mem_singleton_self _)
        obtain ⟨hsplit, hpre⟩ := take_drop_of_getElem? zone.Records idx zone.Records[idx]
          (List.getElem?_eq_getElem hlt)
        refine ⟨err, t, h, ?_, ?_, ?_⟩
        · intro key1 zone1 h1 h2 h3
          injection h1 with h1
          subst h1
          rw [hz] at h2
          injection h2 with h2
          subst h2
          exact absurd hlen h3
        · rcases hsent with hs | hs
          · exact Or.inl hs
          · exact Or.inr ⟨key, zone, idx, _, _, _, rfl, hz, hidx, hsplit, hpre, hs⟩
        · intro key1 zone1 idx1 _ _ _ hc
          exact hconf hc
      · obtain ⟨err, t, h, ht⟩ :=
          Run_delete_no_single ToUpper quote unicodeFold env c flags key zone hk hz hlen
        refine ⟨err, t, h, fun _ _ _ _ _ => ht, Or.inl ht, ?_⟩
        intro key1 zone1 idx h1 h2 h3
        injection h1 with h1
        subst h1
        rw [hz] at h2
        injection h2 with h2
        subst h2
        rw [h3] at hlen
        exact absurd rfl hlen

end RealtimeRegister
